import Mathlib

/-!
# go-dnsmasq: forwarding engine, resolv.conf rewrite and directory hosts source

A shallow embedding of

* `pkg/server/forwarding.go` (`ServeDNSForward`, `forwardSearch`, `forwardQuery`,
  `ServeDNSReverse`),
* `pkg/resolvconf/resolvconf.go` (`StoreAddress`, `Clean`, `updateResolvConf`),
* `pkg/hostsfile/hostsfiles.go` (`reloadAll`, `monitorHostFiles`),

followed by theorems about these definitions.

Conventions of the embedding.

* A Go pair `(r *dns.Msg, err error)` is a pair `(r : Option Msg, err : Bool)`:
  `r = none` is the nil pointer and `err = true` means `err != nil`.
* A Go run-time panic (index out of range, nil dereference) is the result `Res.panic`.
* Every upstream exchange is appended to a `Trace`; the upstream is a function of the
  exchanges made so far, so it may answer the same question differently each time.
* A Go `map` that is ranged over is the list of its entries in the order the range
  statement visits them.
-/

namespace Dnsmasq

/-! ## DNS messages (`github.com/miekg/dns`) -/

abbrev RcodeSuccess : Nat := 0
abbrev RcodeFormatError : Nat := 1
abbrev RcodeServerFailure : Nat := 2
abbrev RcodeNameError : Nat := 3
abbrev RcodeNotImplemented : Nat := 4
abbrev RcodeRefused : Nat := 5
abbrev TypeCNAME : Nat := 5
abbrev ClassINET : Nat := 1
abbrev OpcodeQuery : Nat := 0

/-- The type `dns.Question`. -/
structure Question where
  Name : String
  Qtype : Nat
  Qclass : Nat
deriving DecidableEq, Repr

/-- The type `dns.RR_Header` (without the length of the record data). -/
structure RR_Header where
  Name : String
  Rrtype : Nat
  Class : Nat
  Ttl : Nat
deriving DecidableEq, Repr

/-- A resource record: a `dns.CNAME`, or a record of another type with its data kept as
text. -/
inductive RR where
  | CNAME (Hdr : RR_Header) (Target : String)
  | other (Hdr : RR_Header) (Rdata : String)
deriving DecidableEq, Repr

/-- The type `dns.Msg`: the header fields and the question and answer sections. -/
structure Msg where
  Id : Nat
  Response : Bool
  Opcode : Nat
  Authoritative : Bool
  Truncated : Bool
  RecursionDesired : Bool
  RecursionAvailable : Bool
  CheckingDisabled : Bool
  Rcode : Nat
  Compress : Bool
  Answer : List RR
  Question : List Question
deriving DecidableEq, Repr

/-- The message `new(dns.Msg)`: every field has its zero value. -/
def newMsg : Msg :=
  { Id := 0, Response := false, Opcode := 0, Authoritative := false, Truncated := false,
    RecursionDesired := false, RecursionAvailable := false, CheckingDisabled := false,
    Rcode := 0, Compress := false, Answer := [], Question := [] }

/-- The library method `(*dns.Msg).SetReply`: the reply takes the Id and opcode of the
request, is marked as a response with rcode SUCCESS, and its question section becomes the
first question of the request when the request has one. -/
def SetReply (m request : Msg) : Msg :=
  let m1 := { m with Id := request.Id, Response := true, Opcode := request.Opcode }
  let m2 := if m1.Opcode = OpcodeQuery then
      { m1 with RecursionDesired := request.RecursionDesired,
                CheckingDisabled := request.CheckingDisabled }
    else m1
  let m3 := { m2 with Rcode := RcodeSuccess }
  match request.Question with
  | [] => m3
  | q :: _ => { m3 with Question := [q] }

/-- The library method `(*dns.Msg).SetRcode`: `SetReply` followed by setting the rcode. -/
def SetRcode (m request : Msg) (rcode : Nat) : Msg :=
  { SetReply m request with Rcode := rcode }

/-- The assignment `m.Question[0] = q`; `none` when the index is out of range. -/
def setQuestion0 (m : Msg) (q : Question) : Option Msg :=
  match m.Question with
  | [] => none
  | _ :: rest => some { m with Question := q :: rest }

/-! ## Strings (`strings` of the Go standard library) -/

/-- The function `strings.HasSuffix`. -/
def HasSuffix (s suffix : String) : Bool := suffix.data.isSuffixOf s.data

/-- Lower-casing of one character, for the letters `A` to `Z`. -/
def lowerChar (c : Char) : Char :=
  if 65 ≤ c.toNat ∧ c.toNat ≤ 90 then Char.ofNat (c.toNat + 32) else c

/-- The function `strings.ToLower`, on text whose upper-case letters are `A` to `Z`. -/
def ToLower (s : String) : String := ⟨s.data.map lowerChar⟩

/-! ## Upstream exchanges -/

/-- One call of `Exchange`: the request sent, the nameserver addressed, the transport, and
the outcome (`none` is a transport error, `some r` the reply). -/
structure Exchanged where
  req : Msg
  server : String
  tcp : Bool
  reply : Option Msg
deriving DecidableEq, Repr

/-- The exchanges made so far, oldest first. -/
abbrev Trace := List Exchanged

/-- The behaviour of the upstreams: what an exchange returns, given everything exchanged
before it, the request, the nameserver and the transport. -/
abbrev Upstream := Trace → Msg → String → Bool → Option Msg

/-- The result of running a piece of the program: a value together with the trace of
exchanges, or a run-time panic. -/
inductive Res (α : Type) where
  | ok (val : α) (trace : Trace)
  | panic
deriving DecidableEq, Repr

/-! ## Configuration and server -/

/-- The fields of `server.Config` read by the forwarding engine. `Stub` lists the entries
of the stub-zone map in the order in which a `range` over the map visits them. -/
structure Config where
  Nameservers : List String
  SearchDomains : List String
  EnableSearch : Bool
  FwdNdots : Int
  Ndots : Int
  NoRec : Bool
  Stub : List (String × List String)

/-- The server as seen by the forwarding engine: its configuration, the DNS clients
(`exchange`), and the functions it calls that are defined elsewhere: `dns.CountLabel`,
`appendDomain` and `PTRRecords` (`none` stands for a non-nil error). -/
structure Server where
  config : Config
  exchange : Upstream
  CountLabel : String → Nat
  appendDomain : String → String → String
  PTRRecords : Question → Option (List RR)

/-! ## `forwardQuery` -/

/-- The loop `for zone, srv := range s.config.Stub` of `forwardQuery`: the server list of
the first visited zone that is a suffix of the name, if there is one. -/
def stubLookup (name : String) : List (String × List String) → Option (List String)
  | [] => none
  | (zone, srv) :: rest => if HasSuffix name zone then some srv else stubLookup name rest

/-- The nameservers `forwardQuery` uses for a name: `s.config.Nameservers`, replaced by the
list of a stub zone when the loop over the stub map finds one. -/
def selectNameservers (c : Config) (name : String) : List String :=
  match stubLookup name c.Stub with
  | some srv => srv
  | none => c.Nameservers

/-- The rcodes on which `forwardQuery` returns at once: SUCCESS, NXDOMAIN, FORMERR, REFUSED
and NOTIMP. -/
def isFinalRcode (rcode : Nat) : Bool :=
  rcode == RcodeSuccess || rcode == RcodeNameError || rcode == RcodeFormatError ||
    rcode == RcodeRefused || rcode == RcodeNotImplemented

/-- The step "continue with next available server" at the end of the retry loop. -/
def nextIdx (nservers : List String) (nsIdx : Nat) : Nat :=
  if (nservers.length : Int) - 1 > (nsIdx : Int) then nsIdx + 1 else 0

/-- The loop `for try := 1; try <= 2; try++` of `forwardQuery`, with `tries` the number of
iterations still to run and `(r, err)` the variables of the same name. -/
def retryLoop (up : Upstream) (req : Msg) (tcp : Bool) (nservers : List String) :
    Nat → Nat → Option Msg → Bool → Trace → Res (Option Msg × Bool)
  | 0, _, r, err, tr => .ok (r, err) tr
  | tries + 1, nsIdx, _, _, tr =>
    match nservers.get? nsIdx with
    | none => .panic
    | some ns =>
      match up tr req ns tcp with
      | some r =>
        let tr1 := tr ++ [⟨req, ns, tcp, some r⟩]
        if isFinalRcode r.Rcode then .ok (some r, false) tr1
        else retryLoop up req tcp nservers tries (nextIdx nservers nsIdx) (some r) false tr1
      | none =>
        retryLoop up req tcp nservers tries (nextIdx nservers nsIdx) none true
          (tr ++ [⟨req, ns, tcp, none⟩])

/-- The function `forwardQuery`: choose the nameservers, then run the retry loop. The name
`req.Question[0].Name` is read by the stub loop and by the log line of each try, so a request
without a question panics. -/
def forwardQuery (s : Server) (req : Msg) (tcp : Bool) (tr : Trace) :
    Res (Option Msg × Bool) :=
  match req.Question with
  | [] => .panic
  | q :: _ => retryLoop s.exchange req tcp (selectNameservers s.config q.Name) 2 0 none false tr

/-! ## `forwardSearch` -/

/-- The local variables of `forwardSearch` that the loop over the search domains updates. -/
structure SearchVars where
  r : Option Msg
  nodata : Option Msg
  searchName : String
  err : Bool
  didSearch : Bool
  reqCopy : Msg

/-- The loop `for _, domain := range s.config.SearchDomains` of `forwardSearch`; `name` is
the original qname. Returning the variables is leaving the loop (by `break` or at the end of
the list); the recursive calls are the `continue` statements. -/
def searchLoop (s : Server) (name : String) (tcp : Bool) :
    List String → SearchVars → Trace → Res SearchVars
  | [], v, tr => .ok v tr
  | domain :: rest, v, tr =>
    if HasSuffix name domain then searchLoop s name tcp rest v tr
    else
      let searchName := ToLower (s.appendDomain name domain)
      match v.reqCopy.Question with
      | [] => .panic
      | q :: qs =>
        let reqCopy := { v.reqCopy with Question := ⟨searchName, q.Qtype, q.Qclass⟩ :: qs }
        match forwardQuery s reqCopy tcp tr with
        | .panic => .panic
        | .ok (r, err) tr1 =>
          let v1 : SearchVars :=
            { v with r := r, err := err, searchName := searchName, didSearch := true,
                     reqCopy := reqCopy }
          if err then .ok v1 tr1
          else
            match r with
            | none => .panic
            | some rm =>
              if rm.Rcode = RcodeSuccess then
                if rm.Answer.length = 0 ∧ rm.Truncated = false then
                  searchLoop s name tcp rest { v1 with nodata := some rm } tr1
                else .ok v1 tr1
              else if rm.Rcode = RcodeNameError ∨ rm.Rcode = RcodeServerFailure then
                searchLoop s name tcp rest v1 tr1
              else .ok v1 tr1

/-- The block `if err == nil { ... }` after the loop of `forwardSearch`: the new value of
`r`, or `none` for a panic. -/
def searchRestore (name : String) (q0 : Question) (v : SearchVars) : Option (Option Msg) :=
  if v.err then some v.r
  else
    match v.r with
    | none => none
    | some r =>
      let r1 : Msg :=
        if r.Rcode = RcodeSuccess then
          if r.Answer.length > 0 then
            { r with Answer := RR.CNAME ⟨name, TypeCNAME, ClassINET, 360⟩ v.searchName :: r.Answer }
          else r
        else
          match v.nodata with
          | some nd => nd
          | none => r
      match setQuestion0 r1 q0 with
      | none => none
      | some r2 => some (some r2)

/-- The function `forwardSearch`. -/
def forwardSearch (s : Server) (req : Msg) (tcp : Bool) (tr : Trace) :
    Res (Option Msg × Bool) :=
  match req.Question with
  | [] => .panic
  | q0 :: _ =>
    match searchLoop s q0.Name tcp s.config.SearchDomains
        { r := none, nodata := none, searchName := "", err := false, didSearch := false,
          reqCopy := req } tr with
    | .panic => .panic
    | .ok v tr1 =>
      if v.didSearch = false then .ok (some (SetRcode newMsg req RcodeNameError), false) tr1
      else
        match searchRestore q0.Name q0 v with
        | none => .panic
        | some r1 =>
          match v.err, v.nodata with
          | true, some nd =>
            match setQuestion0 nd q0 with
            | none => .panic
            | some r2 => .ok (some r2, false) tr1
          | _, _ => .ok (r1, v.err) tr1

/-! ## `ServeDNSForward` and `ServeDNSReverse` -/

/-- The local variables of `ServeDNSForward` that record the lookups made. -/
structure FwdVars where
  didAbsolute : Bool
  didSearch : Bool
  absoluteRes : Option Msg
  searchRes : Option Msg
  absoluteErr : Bool
  searchErr : Bool

/-- What a block of `ServeDNSForward` does: return a message to the caller, or fall through
to the next block with the updated variables. -/
inductive Step where
  | ret (m : Msg)
  | cont (v : FwdVars)

/-- The block `if nameDots >= s.config.FwdNdots { ... }`, which `ServeDNSForward` contains
twice (initial absolute lookup and absolute lookup after the search). -/
def absoluteLookup (s : Server) (req : Msg) (tcp : Bool) (nameDots : Int) (v : FwdVars)
    (tr : Trace) : Res Step :=
  if nameDots ≥ s.config.FwdNdots then
    match forwardQuery s req tcp tr with
    | .panic => .panic
    | .ok (absoluteRes, absoluteErr) tr1 =>
      let v1 : FwdVars :=
        { v with absoluteRes := absoluteRes, absoluteErr := absoluteErr, didAbsolute := true }
      if absoluteErr then .ok (.cont v1) tr1
      else
        match absoluteRes with
        | none => .panic
        | some res =>
          if res.Rcode = RcodeSuccess then
            .ok (.ret { res with Compress := true, Id := req.Id }) tr1
          else .ok (.cont v1) tr1
  else .ok (.cont v) tr

/-- The block `if absoluteErr == nil && searchEnabled { ... }` of `ServeDNSForward`. -/
def searchLookup (s : Server) (req : Msg) (tcp : Bool) (searchEnabled : Bool) (v : FwdVars)
    (tr : Trace) : Res Step :=
  if v.absoluteErr = false ∧ searchEnabled = true then
    match forwardSearch s req tcp tr with
    | .panic => .panic
    | .ok (searchRes, searchErr) tr1 =>
      let v1 : FwdVars :=
        { v with searchRes := searchRes, searchErr := searchErr, didSearch := true }
      if searchErr then .ok (.cont v1) tr1
      else
        match searchRes with
        | none => .panic
        | some res =>
          if res.Rcode = RcodeSuccess then
            .ok (.ret { res with Compress := true, Id := req.Id }) tr1
          else .ok (.cont v1) tr1
  else .ok (.cont v) tr

/-- The end of `ServeDNSForward`: the result of the absolute lookup, else a reply with the
rcode of the search, else SERVFAIL; `none` for a panic. -/
def fallbackReply (req : Msg) (v : FwdVars) : Option Msg :=
  if v.didAbsolute = true ∧ v.absoluteErr = false then
    match v.absoluteRes with
    | none => none
    | some res => some { res with Compress := true, Id := req.Id }
  else if v.didSearch = true ∧ v.searchErr = false then
    match v.searchRes with
    | none => none
    | some res => some (SetRcode newMsg req res.Rcode)
  else some (SetRcode newMsg req RcodeServerFailure)

/-- The three conditions of the `switch` at the start of `ServeDNSForward`. -/
def refuses (c : Config) (nameDots : Int) : Bool :=
  c.NoRec || c.Nameservers.length == 0 || (decide (nameDots < c.FwdNdots) && !c.EnableSearch)

/-- The function `ServeDNSForward`; `tcp` is `isTCP(w)`. -/
def ServeDNSForward (s : Server) (tcp : Bool) (req : Msg) (tr : Trace) : Res Msg :=
  match req.Question with
  | [] => .panic
  | q :: _ =>
    let nameDots : Int := (s.CountLabel q.Name : Int) - 1
    if refuses s.config nameDots then .ok (SetRcode newMsg req RcodeRefused) tr
    else
      let searchEnabled : Bool :=
        s.config.EnableSearch && decide (s.config.SearchDomains.length > 0)
      let v0 : FwdVars :=
        { didAbsolute := false, didSearch := false, absoluteRes := none, searchRes := none,
          absoluteErr := false, searchErr := false }
      match (if nameDots ≥ s.config.Ndots then absoluteLookup s req tcp nameDots v0 tr
             else .ok (.cont v0) tr) with
      | .panic => .panic
      | .ok (.ret m) tr1 => .ok m tr1
      | .ok (.cont v1) tr1 =>
        match searchLookup s req tcp searchEnabled v1 tr1 with
        | .panic => .panic
        | .ok (.ret m) tr2 => .ok m tr2
        | .ok (.cont v2) tr2 =>
          match (if v2.searchErr = false ∧ v2.didAbsolute = false then
                   absoluteLookup s req tcp nameDots v2 tr2
                 else .ok (.cont v2) tr2) with
          | .panic => .panic
          | .ok (.ret m) tr3 => .ok m tr3
          | .ok (.cont v3) tr3 =>
            match fallbackReply req v3 with
            | none => .panic
            | some m => .ok m tr3

/-- The function `ServeDNSReverse`. -/
def ServeDNSReverse (s : Server) (tcp : Bool) (req : Msg) (tr : Trace) : Res Msg :=
  let m : Msg :=
    { SetReply newMsg req with Compress := true, Authoritative := false,
                               RecursionAvailable := true }
  match req.Question with
  | [] => .panic
  | q :: _ =>
    match s.PTRRecords q with
    | some records =>
      if records.length > 0 then .ok { m with Answer := records } tr
      else ServeDNSForward s tcp req tr
    | none => ServeDNSForward s tcp req tr

/-! ## `resolvconf`: the rewrite of `/etc/resolv.conf` -/

def RESOLVCONF_COMMENT_ADD : String := "# added by go-dnsmasq"

def RESOLVCONF_COMMENT_OUT : String := "# disabled by go-dnsmasq #"

/-- The call `strings.SplitAfter(s, "\n")`: the pieces of the text, each ending with its
newline, the last one (possibly empty) without. -/
def splitAfterNewline : List Char → List (List Char)
  | [] => [[]]
  | c :: cs =>
    if c = '\n' then [c] :: splitAfterNewline cs
    else
      match splitAfterNewline cs with
      | [] => [[c]]
      | l :: ls => (c :: l) :: ls

/-- The function `strings.Contains`. -/
def Contains : List Char → List Char → Bool
  | [], sub => sub.isEmpty
  | c :: cs, sub => sub.isPrefixOf (c :: cs) || Contains cs sub

/-- The call `strings.ReplaceAll(s, old, "")` for a non-empty `old`: the occurrences of `old`
are removed from left to right, without overlap. `skip` counts the characters of an
occurrence still to be dropped. -/
def removeAll (old : List Char) : Nat → List Char → List Char
  | _, [] => []
  | skip + 1, _ :: cs => removeAll old skip cs
  | 0, c :: cs =>
    if old.isPrefixOf (c :: cs) then removeAll old (old.length - 1) cs
    else c :: removeAll old 0 cs

/-- The call `strings.TrimLeft(s, " ")`. -/
def TrimLeftSpaces (s : List Char) : List Char := s.dropWhile (fun c => c == ' ')

/-- The predicate `unicode.IsSpace`. -/
def isSpace (c : Char) : Bool :=
  c.toNat ∈ [0x09, 0x0A, 0x0B, 0x0C, 0x0D, 0x20, 0x85, 0xA0, 0x1680, 0x2028, 0x2029, 0x202F,
    0x205F, 0x3000] || (0x2000 ≤ c.toNat && c.toNat ≤ 0x200A)

/-- The function `strings.TrimSpace`. -/
def TrimSpace (s : List Char) : List Char :=
  ((s.dropWhile isSpace).reverse.dropWhile isSpace).reverse

/-- A piece of `splitAfterNewline` without its final newline. -/
def stripNewline (line : List Char) : List Char :=
  if line.getLast? = some '\n' then line.dropLast else line

/-- The call `resolvConfPattern.ReplaceAllLiteral(orig, []byte{})` for the pattern
`(?m:^.*# added by go-dnsmasq)(?:$|\n)`. A match starts at the start of a line, runs over
characters other than newline up to an occurrence of the comment, and must then meet the end
of the text or a newline, which it consumes: the matches are the lines that end with the
comment, each with its newline, and they are removed. -/
def removeAddedLines (orig : List Char) : List Char :=
  ((splitAfterNewline orig).filter
    (fun line => !(RESOLVCONF_COMMENT_ADD.data.isSuffixOf (stripNewline line)))).flatten

/-- The body of the loop over the lines in `updateResolvConf`: what is written for a line. -/
def rewriteLine (insert : String) (line : List Char) : List Char :=
  if insert = "" then
    if Contains line RESOLVCONF_COMMENT_OUT.data then
      TrimLeftSpaces (removeAll RESOLVCONF_COMMENT_OUT.data 0 line)
    else line
  else
    if "nameserver".data.isPrefixOf (ToLower ⟨TrimSpace line⟩).data then
      RESOLVCONF_COMMENT_OUT.data ++ ' ' :: line
    else line

/-- The function `updateResolvConf`, as a function from the content of the file before the
call to its content after the call (the file is rewritten from offset 0 and truncated after
the last write); failures of the file operations are not modelled. -/
def updateResolvConf (insert : String) (content : String) : String :=
  ⟨insert.data ++
    ((splitAfterNewline (removeAddedLines content.data)).map (rewriteLine insert)).flatten⟩

/-- The function `StoreAddress`, on the content of `/etc/resolv.conf`. -/
def StoreAddress (address : String) (content : String) : String :=
  updateResolvConf ("nameserver " ++ address ++ " " ++ RESOLVCONF_COMMENT_ADD ++ "\n") content

/-- The function `Clean`, on the content of `/etc/resolv.conf`. -/
def Clean (content : String) : String := updateResolvConf "" content

/-! ## `hostsfile`: the directory hosts source -/

/-- The type `fileInfo`; `mtime` is an instant in nanoseconds. -/
structure fileInfo where
  mtime : Int
  size : Int
deriving DecidableEq, Repr

/-- An entry of a directory listing together with what its `Info()` reports. -/
structure DirEntry where
  name : String
  info : fileInfo
deriving DecidableEq, Repr

/-- One entry of a host list: a domain and an address. -/
structure hostname where
  domain : String
  ip : String
deriving DecidableEq, Repr

/-- The type `hostlist`. -/
abbrev hostlist := List hostname

/-- The outcome of `os.ReadDir`. -/
inductive ReadDirResult where
  | ok (files : List DirEntry)
  | notExist
  | failed
deriving DecidableEq, Repr

/-- What `reloadAll` uses from outside: the listing of the directory it reads, the outcome
of `loadHostEntries` for a path (`none` is an error), and the method `add` of `hostlist`,
which is defined elsewhere. -/
structure FS where
  readDir : String → ReadDirResult
  loadHostEntries : String → Option hostlist
  add : hostlist → hostname → hostlist

/-- The fields of `Hostsfiles` that change; `files` is the map from file name to the stat
seen at the last reload. -/
structure Hostsfiles where
  hosts : hostlist
  files : List (String × fileInfo)
  directory : String
deriving DecidableEq, Repr

/-- The map assignment `files[name] = info`. -/
def mapSet (files : List (String × fileInfo)) (name : String) (info : fileInfo) :
    List (String × fileInfo) :=
  match files with
  | [] => [(name, info)]
  | (k, v) :: rest => if k = name then (k, info) :: rest else (k, v) :: mapSet rest name info

/-- The loop `for _, file := range files` of `reloadAll`: the host list built so far and the
map, which is updated file by file; `none` in place of the list when a file could not be
loaded (the function returns the error at that point). -/
def reloadFiles (fs : FS) (directory : String) :
    List DirEntry → hostlist → List (String × fileInfo) →
      Option hostlist × List (String × fileInfo)
  | [], updateHostList, files => (some updateHostList, files)
  | file :: rest, updateHostList, files =>
    match fs.loadHostEntries (directory ++ "/" ++ file.name) with
    | none => (none, files)
    | some hosts =>
      reloadFiles fs directory rest (hosts.foldl fs.add updateHostList)
        (mapSet files file.name file.info)

/-- The function `reloadAll`: the new state and whether an error is returned. -/
def reloadAll (fs : FS) (h : Hostsfiles) : Hostsfiles × Bool :=
  match fs.readDir h.directory with
  | .ok files =>
    match reloadFiles fs h.directory files [] h.files with
    | (some updateHostList, files1) => ({ h with hosts := updateHostList, files := files1 }, false)
    | (none, files1) => ({ h with files := files1 }, true)
  | _ => (h, true)

/-- The loop `for _, file := range files` of one tick of `monitorHostFiles`: the state after
the loop and whether `reloadAll` was called. -/
def scanFiles (fs : FS) (h : Hostsfiles) : List DirEntry → Hostsfiles × Bool
  | [] => (h, false)
  | file :: rest =>
    match h.files.lookup file.name with
    | some lastStat =>
      if lastStat.mtime = file.info.mtime ∧ lastStat.size = file.info.size then
        scanFiles fs h rest
      else ((reloadAll fs h).1, true)
    | none => ((reloadAll fs h).1, true)

/-- One tick of the loop of `monitorHostFiles`; `listing` is the outcome of the `os.ReadDir`
of the tick, `fs` what `reloadAll` then sees. The result is `none` when the poller
terminates, else the state after the tick and whether `reloadAll` was called. -/
def monitorTick (fs : FS) (h : Hostsfiles) (listing : ReadDirResult) :
    Option (Hostsfiles × Bool) :=
  match listing with
  | .ok files => some (scanFiles fs h files)
  | .notExist => none
  | .failed => some (h, false)

/-- A property of the variables of `ServeDNSForward` used in the proofs: when an absolute
lookup was made without error, `absoluteRes` holds the reply of an exchange of the trace that
carried the request unchanged. -/
def AbsInv (req : Msg) (tr : Trace) (v : FwdVars) : Prop :=
  v.didAbsolute = true → v.absoluteErr = false →
    ∃ res, v.absoluteRes = some res ∧ ∃ e ∈ tr, e.req = req ∧ e.reply = some res

/-- Every exchange of the list got its outcome from the upstream `up`, asked with the request,
server and transport recorded, after some earlier exchanges `t`. -/
def FromUpstream (up : Upstream) (new : Trace) : Prop :=
  ∀ e ∈ new, ∃ t, e.reply = up t e.req e.server e.tcp

/-! ## Concrete servers, requests and upstreams used to instantiate the theorems -/

/-- The scan of `dns.CountLabel` (through `dns.NextLabel`): the number of dots that are not
escaped by a backslash, the last byte of the name not being examined. `escaped` tells whether
an odd number of backslashes precedes the current byte. -/
def countDots : Bool → List Char → Nat
  | _, [] => 0
  | _, [_] => 0
  | escaped, c :: d :: rest =>
    if c = '.' then (if escaped then 0 else 1) + countDots false (d :: rest)
    else if c = '\\' then countDots (!escaped) (d :: rest)
    else countDots false (d :: rest)

/-- The library function `dns.CountLabel`: the number of labels of a name, 0 for the root. -/
def libCountLabel (name : String) : Nat :=
  if name = "." then 0 else 1 + countDots false name.data

/-- Modelled from the spec: `appendDomain`, which is defined outside the files at hand; the
search form of a name is the name and the search domain joined by one dot
(`wiki.` and `corp.test.` give `wiki.corp.test.`). -/
def specAppendDomain (name domain : String) : String :=
  if HasSuffix name "." then name ++ domain else name ++ "." ++ domain

/-- A server with the given configuration and upstream behaviour, without PTR records. -/
def exServer (c : Config) (up : Upstream) : Server :=
  { config := c, exchange := up, CountLabel := libCountLabel,
    appendDomain := specAppendDomain, PTRRecords := fun _ => none }

/-- A request with Id 4242 for the given question. -/
def exReq (q : Question) : Msg :=
  { newMsg with Id := 4242, RecursionDesired := true, Question := [q] }

/-- An upstream reply with the given Id, rcode, answers and question section. -/
def exReply (id rcode : Nat) (answer : List RR) (question : List Question) : Msg :=
  { newMsg with Id := id, Response := true, RecursionAvailable := true, Rcode := rcode,
                Answer := answer, Question := question }

/-- The upstream on which every exchange fails. -/
def upFail : Upstream := fun _ _ _ _ => none

/-- The upstream whose every server replies with the given rcode and answers, echoing the
question section of the request. -/
def upEcho (rcode : Nat) (answer : List RR) : Upstream :=
  fun _ req _ _ => some (exReply req.Id rcode answer req.Question)

/-- Two default nameservers, no stub zones, no search. -/
def twoServers : Config :=
  { Nameservers := ["10.0.0.1:53", "10.0.0.2:53"], SearchDomains := [], EnableSearch := false,
    FwdNdots := 0, Ndots := 1, NoRec := false, Stub := [] }

/-- The upstream on which the first exchange of a run answers SERVFAIL and every later one
answers NXDOMAIN. -/
def upServfailFirst : Upstream :=
  fun tr req _ _ =>
    some (exReply req.Id (if tr.length = 0 then RcodeServerFailure else RcodeNameError) []
      req.Question)

/-- An address record for `example.com.`. -/
def exA : RR := .other ⟨"example.com.", 1, 1, 300⟩ "192.0.2.1"

/-- The upstream that answers every exchange with Id 7, rcode SUCCESS, one address record and
a question section naming `other.example.`, whatever was asked. -/
def upOtherQuestion : Upstream :=
  fun _ _ _ _ => some (exReply 7 RcodeSuccess [exA] [⟨"other.example.", 1, 1⟩])

/-- One nameserver, search enabled with the single search domain `corp.test.`, `ndots` 5. -/
def searchCorp : Config :=
  { Nameservers := ["10.0.0.1:53"], SearchDomains := ["corp.test."], EnableSearch := true,
    FwdNdots := 0, Ndots := 5, NoRec := false, Stub := [] }

/-- A name without its trailing dot, if it has one. -/
def trimDot (name : String) : String :=
  if HasSuffix name "." then ⟨name.data.dropLast⟩ else name

/-- The stub-zone matching rule in the words of the specification (not of the code): the
qname equals the zone, or ends with a dot followed by the zone, compared without regard to
case and to a trailing dot. -/
def specZoneMatch (qname zone : String) : Bool :=
  ToLower (trimDot qname) == ToLower (trimDot zone) ||
    HasSuffix (ToLower (trimDot qname)) ("." ++ ToLower (trimDot zone))

/-- One default nameserver and the stub zone `example.com.` with its own nameserver. -/
def stubExampleCom : Config :=
  { Nameservers := ["10.0.0.1:53"], SearchDomains := [], EnableSearch := false,
    FwdNdots := 0, Ndots := 1, NoRec := false,
    Stub := [("example.com.", ["10.9.9.9:53"])] }

/-- The stub zones `example.` and `corp.example.`, visited in this order, each with its own
nameserver. -/
def stubTwoZones : Config :=
  { Nameservers := ["192.0.2.53:53"], SearchDomains := [], EnableSearch := false,
    FwdNdots := 0, Ndots := 1, NoRec := false,
    Stub := [("example.", ["10.0.0.2:53"]), ("corp.example.", ["10.0.0.1:53"])] }

/-- A directory `/etc/hosts.d` whose files `a.hosts` and `b.hosts` were seen at the last
reload. -/
def exHostsfiles : Hostsfiles :=
  { hosts := [⟨"foo.local", "10.0.0.5"⟩, ⟨"bar.local", "10.0.0.6"⟩],
    files := [("a.hosts", ⟨100, 10⟩), ("b.hosts", ⟨100, 20⟩)],
    directory := "/etc/hosts.d" }

/-- A file system in which the directory holds only `a.hosts`, unchanged, every file loads
as one entry, and `add` appends. -/
def exFS : FS :=
  { readDir := fun _ => .ok [⟨"a.hosts", ⟨100, 10⟩⟩],
    loadHostEntries := fun _ => some [⟨"foo.local", "10.0.0.5"⟩],
    add := fun l x => l ++ [x] }

/-! ## The period of the directory poller -/

/-- The value of an `int64` expression whose mathematical value is `x`: `x` reduced modulo
`2^64` into the range from `-2^63` to `2^63 - 1`. -/
def wrapInt64 (x : Int) : Int := (x + 2 ^ 63) % 2 ^ 64 - 2 ^ 63

/-- The constant `time.Second`, in nanoseconds. -/
def Second : Int := 1000000000

/-- The line `t := time.Duration(poll) * time.Second` of `monitorHostFiles`; `poll` is the
`time.Duration` handed over by `NewHostsfiles`, a number of nanoseconds, and the conversion
`time.Duration(poll)` leaves it as it is. -/
def tickerPeriod (poll : Int) : Int := wrapInt64 (poll * Second)

/-- The library function `time.NewTicker`: the period of the ticker, or `none` for the panic
on a period that is not positive. -/
def NewTicker (d : Int) : Option Int := if d ≤ 0 then none else some d

/-- The start of the poller as `NewHostsfiles` launches it: no poller (`none`) unless
`Poll > 0`; else the outcome of `time.NewTicker(t)`. -/
def pollerTicker (poll : Int) : Option (Option Int) :=
  if poll > 0 then some (NewTicker (tickerPeriod poll)) else none

/-- A file system in which `a.hosts` has a new mtime and loads, and `b.hosts` cannot be
read; `add` appends. -/
def exFSfail : FS :=
  { readDir := fun _ => .ok [⟨"a.hosts", ⟨200, 10⟩⟩, ⟨"b.hosts", ⟨100, 20⟩⟩],
    loadHostEntries := fun path =>
      if path = "/etc/hosts.d/a.hosts" then some [⟨"foo.local", "10.0.0.9"⟩] else none,
    add := fun l x => l ++ [x] }

/-- The file system of `exFSfail` once `b.hosts` can be read again. -/
def exFSback : FS :=
  { readDir := fun _ => .ok [⟨"a.hosts", ⟨200, 10⟩⟩, ⟨"b.hosts", ⟨100, 20⟩⟩],
    loadHostEntries := fun path =>
      if path = "/etc/hosts.d/a.hosts" then some [⟨"foo.local", "10.0.0.9"⟩]
      else some [⟨"bar.local", "10.0.0.6"⟩],
    add := fun l x => l ++ [x] }

/-! ## The order of the search lookups, in the words of the specification -/

/-- The outcomes of a lookup after which the loop of `forwardSearch` goes on to the next
search domain: a reply NXDOMAIN or SERVFAIL, or a reply SUCCESS with no answer and not
truncated. Every other outcome (a transport error, a reply with answers, another rcode) is
terminal: it ends the search. -/
def searchContinues (outcome : Option Msg) : Bool :=
  match outcome with
  | none => false
  | some r =>
    (r.Rcode == RcodeSuccess && r.Answer.length == 0 && !r.Truncated) ||
      r.Rcode == RcodeNameError || r.Rcode == RcodeServerFailure

/-- The outcome of the last exchange of a list of exchanges. -/
def lastReply (b : Trace) : Option Msg :=
  match b.getLast? with
  | some e => e.reply
  | none => none

/-- The request that asks for the qname expanded with the search domain `d`: the client's
request with the name of its first question replaced by the lower-cased expansion. -/
def expandedReq (s : Server) (req : Msg) (q : Question) (qs : List Question) (d : String) :
    Msg :=
  { req with Question := ⟨ToLower (s.appendDomain q.Name d), q.Qtype, q.Qclass⟩ :: qs }

/-- The exchanges `new` are those of the lookups for the given domains, in their order, up to
the first terminal result: nothing when no domain is left; else one or two exchanges for the
expansion with the first domain, followed by nothing more when their outcome is terminal, and
by the lookups for the remaining domains when it is not. -/
def QueriedInOrder (s : Server) (req : Msg) (q : Question) (qs : List Question) :
    List String → Trace → Prop
  | [], new => new = []
  | d :: rest, new =>
    ∃ b more, new = b ++ more ∧ b ≠ [] ∧ b.length ≤ 2 ∧
      (∀ e ∈ b, e.req = expandedReq s req q qs d) ∧
      ((searchContinues (lastReply b) = false ∧ more = []) ∨
       (searchContinues (lastReply b) = true ∧ QueriedInOrder s req q qs rest more))

/-- Search enabled with the domains `corp.test.`, `a.test.` and `b.test.`, `ndots` 1. -/
def searchThree : Config :=
  { Nameservers := ["10.0.0.1:53"], SearchDomains := ["corp.test.", "a.test.", "b.test."],
    EnableSearch := true, FwdNdots := 0, Ndots := 1, NoRec := false, Stub := [] }

/-- The upstream that answers by the name asked: NXDOMAIN for `db.corp.test.` and
`db.corp.test.a.test.`, one address record for every other name. -/
def upByNameDb : Upstream :=
  fun _ req _ _ =>
    match req.Question with
    | [] => none
    | q :: _ =>
      if q.Name = "db.corp.test." ∨ q.Name = "db.corp.test.a.test." then
        some (exReply req.Id RcodeNameError [] req.Question)
      else some (exReply req.Id RcodeSuccess [exA] req.Question)

/-- Search enabled with the domains `a.test.`, `b.test.` and `c.test.`, `ndots` 1. -/
def searchAbc : Config :=
  { Nameservers := ["10.0.0.1:53"], SearchDomains := ["a.test.", "b.test.", "c.test."],
    EnableSearch := true, FwdNdots := 0, Ndots := 1, NoRec := false, Stub := [] }

/-- The upstream that answers by the name asked: NXDOMAIN for `host.example.com.` and for
its expansion with `b.test.`, SUCCESS without answer for its expansion with `a.test.`, and a
transport error for every other name. -/
def upNodataThenFail : Upstream :=
  fun _ req _ _ =>
    match req.Question with
    | [] => none
    | q :: _ =>
      if q.Name = "host.example.com." ∨ q.Name = "host.example.com.b.test." then
        some (exReply req.Id RcodeNameError [] req.Question)
      else if q.Name = "host.example.com.a.test." then
        some (exReply req.Id RcodeSuccess [] req.Question)
      else none

/-- One nameserver, search enabled with the single search domain `corp.test.`, `ndots` 0: a
name without dots gets the absolute lookup first and the search lookup after it. -/
def searchCorpAbsFirst : Config :=
  { Nameservers := ["10.0.0.1:53"], SearchDomains := ["corp.test."], EnableSearch := true,
    FwdNdots := 0, Ndots := 0, NoRec := false, Stub := [] }

/-- The upstream whose every reply has Id 7 and a question section naming `other.example.`:
NXDOMAIN when `wiki.` is asked, SUCCESS with one address record for every other name. -/
def upForeignQuestion : Upstream :=
  fun _ req _ _ =>
    match req.Question with
    | [] => none
    | q :: _ =>
      if q.Name = "wiki." then some (exReply 7 RcodeNameError [] [⟨"other.example.", 1, 1⟩])
      else some (exReply 7 RcodeSuccess [exA] [⟨"other.example.", 1, 1⟩])

/-- The upstream `upNodataThenFail`, except that its no-data reply (for the expansion of
`host.example.com.` with `a.test.`) has an empty question section. -/
def upNodataNoQuestion : Upstream :=
  fun _ req _ _ =>
    match req.Question with
    | [] => none
    | q :: _ =>
      if q.Name = "host.example.com." ∨ q.Name = "host.example.com.b.test." then
        some (exReply req.Id RcodeNameError [] req.Question)
      else if q.Name = "host.example.com.a.test." then
        some (exReply req.Id RcodeSuccess [] [])
      else none

/-! ## Theorems: `forwardQuery` -/

theorem isFinalRcode_iff (rcode : Nat) :
    isFinalRcode rcode = true ↔
      rcode ∈ [RcodeSuccess, RcodeNameError, RcodeFormatError, RcodeRefused,
        RcodeNotImplemented] := by
  simp only [isFinalRcode, Bool.or_eq_true, beq_iff_eq, List.mem_cons, List.mem_singleton,
    List.not_mem_nil, or_false]
  tauto

theorem nextIdx_zero (nservers : List String) :
    nextIdx nservers 0 = if 2 ≤ nservers.length then 1 else 0 := by
  unfold nextIdx
  by_cases h : 2 ≤ nservers.length
  · have : (nservers.length : Int) - 1 > ((0 : Nat) : Int) := by omega
    rw [if_pos this, if_pos h]
  · have : ¬ (nservers.length : Int) - 1 > ((0 : Nat) : Int) := by omega
    rw [if_neg this, if_neg h]

theorem nextIdx_zero_get (nservers : List String) (hne : nservers ≠ []) :
    ∃ ns1, nservers.get? (nextIdx nservers 0) = some ns1 := by
  rw [nextIdx_zero]
  by_cases h : 2 ≤ nservers.length
  · simp only [h, if_true]
    exact ⟨nservers.get ⟨1, by omega⟩, List.get?_eq_get _⟩
  · simp only [h, if_false]
    have hpos : 0 < nservers.length := List.length_pos.mpr hne
    exact ⟨nservers.get ⟨0, hpos⟩, List.get?_eq_get _⟩

/-- The two iterations of the retry loop, written out. -/
theorem retryLoop_two (up : Upstream) (req : Msg) (tcp : Bool) (nservers : List String)
    (tr : Trace) (ns0 ns1 : String) (h0 : nservers.get? 0 = some ns0)
    (h1 : nservers.get? (nextIdx nservers 0) = some ns1) :
    retryLoop up req tcp nservers 2 0 none false tr =
      if (∃ r, up tr req ns0 tcp = some r ∧ isFinalRcode r.Rcode = true) then
        .ok (up tr req ns0 tcp, false) (tr ++ [⟨req, ns0, tcp, up tr req ns0 tcp⟩])
      else
        .ok (up (tr ++ [⟨req, ns0, tcp, up tr req ns0 tcp⟩]) req ns1 tcp,
             (up (tr ++ [⟨req, ns0, tcp, up tr req ns0 tcp⟩]) req ns1 tcp).isNone)
          (tr ++ [⟨req, ns0, tcp, up tr req ns0 tcp⟩] ++
            [⟨req, ns1, tcp, up (tr ++ [⟨req, ns0, tcp, up tr req ns0 tcp⟩]) req ns1 tcp⟩]) := by
  simp only [retryLoop, h0]
  cases hfirst : up tr req ns0 tcp with
  | none =>
    simp only [h1, false_and, exists_false, if_false]
    cases hsecond : up (tr ++ [⟨req, ns0, tcp, none⟩]) req ns1 tcp <;> simp
  | some r =>
    by_cases hfin : isFinalRcode r.Rcode = true
    · simp [hfin]
    · simp only [hfin, h1, Option.some.injEq, exists_eq_left', if_false]
      cases hsecond : up (tr ++ [⟨req, ns0, tcp, some r⟩]) req ns1 tcp with
      | none => simp
      | some r2 => by_cases hfin2 : isFinalRcode r2.Rcode = true <;> simp [hfin2]

theorem forwardQuery_eq (s : Server) (req : Msg) (tcp : Bool) (tr : Trace) (q : Question)
    (qs : List Question) (ns0 ns1 : String) (hq : req.Question = q :: qs)
    (h0 : (selectNameservers s.config q.Name).get? 0 = some ns0)
    (h1 : (selectNameservers s.config q.Name).get?
        (nextIdx (selectNameservers s.config q.Name) 0) = some ns1) :
    forwardQuery s req tcp tr =
      if (∃ r, s.exchange tr req ns0 tcp = some r ∧ isFinalRcode r.Rcode = true) then
        .ok (s.exchange tr req ns0 tcp, false) (tr ++ [⟨req, ns0, tcp, s.exchange tr req ns0 tcp⟩])
      else
        .ok (s.exchange (tr ++ [⟨req, ns0, tcp, s.exchange tr req ns0 tcp⟩]) req ns1 tcp,
             (s.exchange (tr ++ [⟨req, ns0, tcp, s.exchange tr req ns0 tcp⟩]) req ns1 tcp).isNone)
          (tr ++ [⟨req, ns0, tcp, s.exchange tr req ns0 tcp⟩] ++
            [⟨req, ns1, tcp,
              s.exchange (tr ++ [⟨req, ns0, tcp, s.exchange tr req ns0 tcp⟩]) req ns1 tcp⟩]) := by
  unfold forwardQuery
  rw [hq]
  exact retryLoop_two s.exchange req tcp _ tr ns0 ns1 h0 h1

/-- C5: the retry policy of `forwardQuery`. For a request with a question and a non-empty
list of selected nameservers, index 0 and the index of the second try (1 when the list has
at least two entries, 0 otherwise) are both in range; the first exchange goes to index 0; a
reply to it without error and with rcode SUCCESS, NXDOMAIN, FORMERR, REFUSED or NOTIMP is
returned with that single exchange in the trace; in every other case (transport error,
SERVFAIL or another rcode) exactly one more exchange is made, to the second index, and its
outcome is what `forwardQuery` returns, the trace growing by exactly these two exchanges. -/
theorem forwardQuery_retry_policy (s : Server) (req : Msg) (tcp : Bool) (tr : Trace)
    (q : Question) (qs : List Question) (hq : req.Question = q :: qs)
    (hne : selectNameservers s.config q.Name ≠ []) :
    ∃ ns0 ns1 : String,
      (selectNameservers s.config q.Name).get? 0 = some ns0 ∧
      (selectNameservers s.config q.Name).get?
        (if 2 ≤ (selectNameservers s.config q.Name).length then 1 else 0) = some ns1 ∧
      (∀ r, s.exchange tr req ns0 tcp = some r →
        r.Rcode ∈ [RcodeSuccess, RcodeNameError, RcodeFormatError, RcodeRefused,
          RcodeNotImplemented] →
        forwardQuery s req tcp tr = .ok (some r, false) (tr ++ [⟨req, ns0, tcp, some r⟩])) ∧
      ((∀ r, s.exchange tr req ns0 tcp = some r →
          r.Rcode ∉ [RcodeSuccess, RcodeNameError, RcodeFormatError, RcodeRefused,
            RcodeNotImplemented]) →
        forwardQuery s req tcp tr =
          .ok (s.exchange (tr ++ [⟨req, ns0, tcp, s.exchange tr req ns0 tcp⟩]) req ns1 tcp,
               (s.exchange (tr ++ [⟨req, ns0, tcp, s.exchange tr req ns0 tcp⟩]) req ns1
                  tcp).isNone)
            (tr ++ [⟨req, ns0, tcp, s.exchange tr req ns0 tcp⟩,
              ⟨req, ns1, tcp,
                s.exchange (tr ++ [⟨req, ns0, tcp, s.exchange tr req ns0 tcp⟩]) req ns1
                  tcp⟩])) := by
  have hpos : 0 < (selectNameservers s.config q.Name).length := List.length_pos.mpr hne
  obtain ⟨ns1, h1⟩ := nextIdx_zero_get _ hne
  refine ⟨(selectNameservers s.config q.Name).get ⟨0, hpos⟩, ns1, List.get?_eq_get _, ?_, ?_, ?_⟩
  · rw [← nextIdx_zero]; exact h1
  · intro r hr hfin
    rw [forwardQuery_eq s req tcp tr q qs _ ns1 hq (List.get?_eq_get _) h1]
    rw [if_pos ⟨r, hr, (isFinalRcode_iff _).mpr hfin⟩, hr]
  · intro hnot
    rw [forwardQuery_eq s req tcp tr q qs _ ns1 hq (List.get?_eq_get _) h1]
    rw [if_neg]
    · simp
    · rintro ⟨r, hr, hfin⟩
      exact hnot r hr ((isFinalRcode_iff _).mp hfin)

/-- Witness of C5: with two nameservers, the first of which answers SERVFAIL, the query is
exchanged with the first and then with the second nameserver, whose NXDOMAIN is returned. -/
theorem forwardQuery_retry_policy_witness :
    selectNameservers twoServers "example.com." ≠ [] ∧
    forwardQuery (exServer twoServers upServfailFirst) (exReq ⟨"example.com.", 1, 1⟩) false [] =
      .ok (some (exReply 4242 RcodeNameError [] [⟨"example.com.", 1, 1⟩]), false)
        [⟨exReq ⟨"example.com.", 1, 1⟩, "10.0.0.1:53", false,
            some (exReply 4242 RcodeServerFailure [] [⟨"example.com.", 1, 1⟩])⟩,
         ⟨exReq ⟨"example.com.", 1, 1⟩, "10.0.0.2:53", false,
            some (exReply 4242 RcodeNameError [] [⟨"example.com.", 1, 1⟩])⟩] := by
  have hne : selectNameservers (exServer twoServers upServfailFirst).config
      (⟨"example.com.", 1, 1⟩ : Question).Name ≠ [] := by decide
  obtain ⟨ns0, ns1, h0, h1, -, h⟩ :=
    forwardQuery_retry_policy (exServer twoServers upServfailFirst)
      (exReq ⟨"example.com.", 1, 1⟩) false [] ⟨"example.com.", 1, 1⟩ [] rfl hne
  have e0 : ns0 = "10.0.0.1:53" := by
    have : some "10.0.0.1:53" = some ns0 := h0
    exact (Option.some.inj this).symm
  have e1 : ns1 = "10.0.0.2:53" := by
    have : some "10.0.0.2:53" = some ns1 := h1
    exact (Option.some.inj this).symm
  subst e0 e1
  refine ⟨hne, ?_⟩
  rw [h]
  · rfl
  · intro r hr
    have : r = exReply 4242 RcodeServerFailure [] [⟨"example.com.", 1, 1⟩] :=
      (Option.some.inj hr).symm
    subst this
    decide

/-! ## Theorems: what a run of `forwardQuery` adds to the trace -/

/-- A run of `forwardQuery` that returns has appended one or two exchanges, all of them
carrying the request unchanged and addressed to a selected nameserver; the reply returned is
the outcome of one of them, and the error flag tells whether that outcome is an error. -/
theorem forwardQuery_ok (s : Server) (req : Msg) (tcp : Bool) (tr tr1 : Trace)
    (r : Option Msg) (err : Bool) (h : forwardQuery s req tcp tr = .ok (r, err) tr1) :
    ∃ q qs new, req.Question = q :: qs ∧ tr1 = tr ++ new ∧ new ≠ [] ∧
      (∀ e ∈ new, e.req = req ∧ e.server ∈ selectNameservers s.config q.Name) ∧
      err = r.isNone ∧ (∃ e ∈ new, e.reply = r) ∧
      (∃ e, new.getLast? = some e ∧ e.reply = r) := by
  cases hq : req.Question with
  | nil => simp [forwardQuery, hq] at h
  | cons q qs =>
    cases h0 : (selectNameservers s.config q.Name).get? 0 with
    | none =>
      have hnil : selectNameservers s.config q.Name = [] := by
        cases hl : selectNameservers s.config q.Name with
        | nil => rfl
        | cons a l => rw [hl] at h0; simp at h0
      simp [forwardQuery, hq, retryLoop, hnil] at h
    | some ns0 =>
      have hne : selectNameservers s.config q.Name ≠ [] := by
        intro hnil; rw [hnil] at h0; simp at h0
      obtain ⟨ns1, h1⟩ := nextIdx_zero_get _ hne
      have hm0 : ns0 ∈ selectNameservers s.config q.Name := List.get?_mem h0
      have hm1 : ns1 ∈ selectNameservers s.config q.Name := List.get?_mem h1
      rw [forwardQuery_eq s req tcp tr q qs ns0 ns1 hq h0 h1] at h
      refine ⟨q, qs, ?_⟩
      split at h
      · rename_i hfin
        obtain ⟨r0, hr0, -⟩ := hfin
        injection h with hval htr
        injection hval with hr herr
        refine ⟨[⟨req, ns0, tcp, s.exchange tr req ns0 tcp⟩], rfl, htr.symm, by simp, ?_, ?_, ?_, ?_⟩
        · intro e he
          simp only [List.mem_singleton] at he
          subst he
          exact ⟨rfl, hm0⟩
        · rw [← hr, ← herr, hr0]; rfl
        · exact ⟨_, List.mem_singleton.mpr rfl, hr⟩
        · exact ⟨_, rfl, hr⟩
      · injection h with hval htr
        injection hval with hr herr
        refine ⟨[⟨req, ns0, tcp, s.exchange tr req ns0 tcp⟩,
          ⟨req, ns1, tcp,
            s.exchange (tr ++ [⟨req, ns0, tcp, s.exchange tr req ns0 tcp⟩]) req ns1 tcp⟩],
          rfl, ?_, by simp, ?_, ?_, ?_, ?_⟩
        · rw [← htr]; simp
        · intro e he
          simp only [List.mem_cons, List.mem_singleton, List.not_mem_nil, or_false] at he
          rcases he with he | he <;> subst he
          · exact ⟨rfl, hm0⟩
          · exact ⟨rfl, hm1⟩
        · rw [← hr, ← herr]
        · exact ⟨_, List.mem_cons_of_mem _ (List.mem_singleton.mpr rfl), hr⟩
        · exact ⟨_, rfl, hr⟩

/-- A request with a question whose selected nameserver list is not empty never makes
`forwardQuery` panic. -/
theorem forwardQuery_returns (s : Server) (req : Msg) (tcp : Bool) (tr : Trace) (q : Question)
    (qs : List Question) (hq : req.Question = q :: qs)
    (hne : selectNameservers s.config q.Name ≠ []) :
    ∃ r err tr1, forwardQuery s req tcp tr = .ok (r, err) tr1 := by
  have hpos : 0 < (selectNameservers s.config q.Name).length := List.length_pos.mpr hne
  obtain ⟨ns1, h1⟩ := nextIdx_zero_get _ hne
  rw [forwardQuery_eq s req tcp tr q qs _ ns1 hq (List.get?_eq_get (l := _) (n := 0) hpos) h1]
  split
  · exact ⟨_, _, _, rfl⟩
  · exact ⟨_, _, _, rfl⟩

/-! ## Theorems: message identity -/

theorem SetReply_Id (m req : Msg) : (SetReply m req).Id = req.Id := by
  cases hq : req.Question <;> by_cases hop : req.Opcode = OpcodeQuery <;>
    simp [SetReply, hq, hop]

theorem SetRcode_Id (m req : Msg) (rcode : Nat) : (SetRcode m req rcode).Id = req.Id := by
  unfold SetRcode
  exact SetReply_Id m req

theorem SetRcode_Rcode (m req : Msg) (rcode : Nat) : (SetRcode m req rcode).Rcode = rcode := rfl

theorem SetReply_Question (m req : Msg) (q : Question) (qs : List Question)
    (hq : req.Question = q :: qs) : (SetReply m req).Question = [q] := by
  unfold SetReply
  rw [hq]

theorem SetRcode_Question (m req : Msg) (rcode : Nat) (q : Question) (qs : List Question)
    (hq : req.Question = q :: qs) : (SetRcode m req rcode).Question = [q] := by
  unfold SetRcode
  exact SetReply_Question m req q qs hq

theorem SetRcode_Answer (req : Msg) (rcode : Nat) : (SetRcode newMsg req rcode).Answer = [] := by
  cases hq : req.Question <;> by_cases hop : req.Opcode = OpcodeQuery <;>
    simp [SetRcode, SetReply, hq, hop, newMsg]

theorem absoluteLookup_ret_Id (s : Server) (req : Msg) (tcp : Bool) (nameDots : Int)
    (v : FwdVars) (tr tr1 : Trace) (m : Msg)
    (h : absoluteLookup s req tcp nameDots v tr = .ok (.ret m) tr1) : m.Id = req.Id := by
  unfold absoluteLookup at h
  split at h
  · split at h
    · cases h
    · split at h
      · cases h
      · split at h
        · cases h
        · split at h
          · cases h; rfl
          · cases h
  · cases h

theorem searchLookup_ret_Id (s : Server) (req : Msg) (tcp : Bool) (searchEnabled : Bool)
    (v : FwdVars) (tr tr1 : Trace) (m : Msg)
    (h : searchLookup s req tcp searchEnabled v tr = .ok (.ret m) tr1) : m.Id = req.Id := by
  unfold searchLookup at h
  split at h
  · split at h
    · cases h
    · split at h
      · cases h
      · split at h
        · cases h
        · split at h
          · cases h; rfl
          · cases h
  · cases h

theorem fallbackReply_Id (req : Msg) (v : FwdVars) (m : Msg)
    (h : fallbackReply req v = some m) : m.Id = req.Id := by
  unfold fallbackReply at h
  split at h
  · split at h
    · cases h
    · cases h; rfl
  · split at h
    · split at h
      · cases h
      · cases h; exact SetRcode_Id _ _ _
    · cases h; exact SetRcode_Id _ _ _

theorem ServeDNSForward_Id (s : Server) (tcp : Bool) (req : Msg) (tr tr1 : Trace) (m : Msg)
    (h : ServeDNSForward s tcp req tr = .ok m tr1) : m.Id = req.Id := by
  unfold ServeDNSForward at h
  split at h
  · cases h
  · dsimp only at h
    split at h
    · cases h; exact SetRcode_Id _ _ _
    · split at h
      · cases h
      · rename_i hstep
        cases h
        split at hstep
        · exact absoluteLookup_ret_Id _ _ _ _ _ _ _ _ hstep
        · cases hstep
      · split at h
        · cases h
        · rename_i hstep
          cases h
          exact searchLookup_ret_Id _ _ _ _ _ _ _ _ hstep
        · split at h
          · cases h
          · rename_i hstep
            cases h
            split at hstep
            · exact absoluteLookup_ret_Id _ _ _ _ _ _ _ _ hstep
            · cases hstep
          · split at h
            · cases h
            · rename_i hfb
              cases h
              exact fallbackReply_Id _ _ _ hfb

/-- C1: a request with a question is answered REFUSED, with the trace of exchanges left as
it was (no upstream exchange), whenever recursion is disabled, or no nameserver is
configured, or the label count of the qname minus one is below `FwdNdots` while search is
disabled. -/
theorem ServeDNSForward_refuses (s : Server) (tcp : Bool) (req : Msg) (tr : Trace)
    (q : Question) (qs : List Question) (hq : req.Question = q :: qs)
    (h : s.config.NoRec = true ∨ s.config.Nameservers = [] ∨
      ((s.CountLabel q.Name : Int) - 1 < s.config.FwdNdots ∧ s.config.EnableSearch = false)) :
    ∃ m, ServeDNSForward s tcp req tr = .ok m tr ∧ m.Rcode = RcodeRefused := by
  have hr : refuses s.config ((s.CountLabel q.Name : Int) - 1) = true := by
    unfold refuses
    rcases h with h | h | ⟨h1, h2⟩
    · simp [h]
    · simp [h]
    · simp [h1, h2]
  refine ⟨SetRcode newMsg req RcodeRefused, ?_, rfl⟩
  unfold ServeDNSForward
  rw [hq]
  simp only [hr, if_true]

/-- Witness of C1: with recursion disabled the query for `example.com.` is refused and
nothing is exchanged. -/
theorem ServeDNSForward_refuses_witness :
    ∃ m, ServeDNSForward (exServer { twoServers with NoRec := true } (upEcho RcodeSuccess []))
        false (exReq ⟨"example.com.", 1, 1⟩) [] = .ok m [] ∧ m.Rcode = RcodeRefused :=
  ServeDNSForward_refuses (exServer { twoServers with NoRec := true } (upEcho RcodeSuccess []))
    false (exReq ⟨"example.com.", 1, 1⟩) [] ⟨"example.com.", 1, 1⟩ [] rfl (Or.inl rfl)

/-- C2: every message returned by `ServeDNSForward` and every message returned by
`ServeDNSReverse`, whatever the request, the configuration and the upstream behaviour, has
the Id of the request. -/
theorem reply_Id_eq_request_Id (s : Server) (tcp : Bool) (req : Msg) (tr tr1 : Trace)
    (m : Msg) :
    (ServeDNSForward s tcp req tr = .ok m tr1 → m.Id = req.Id) ∧
    (ServeDNSReverse s tcp req tr = .ok m tr1 → m.Id = req.Id) := by
  refine ⟨ServeDNSForward_Id s tcp req tr tr1 m, ?_⟩
  intro h
  unfold ServeDNSReverse at h
  split at h
  · cases h
  · split at h
    · split at h
      · cases h; exact SetReply_Id _ _
      · exact ServeDNSForward_Id s tcp req tr tr1 m h
    · exact ServeDNSForward_Id s tcp req tr tr1 m h

/-! ## Theorems: the search loop -/

/-- What the loop over the search domains leaves behind when it ends without a panic. The
trace has grown by `new`. If nothing was exchanged the variables are untouched and every
domain is a suffix of the name. Otherwise a search was made, `r` and `err` are the outcome of
the last exchange, and `searchName` is the name that exchange asked for. The stored no-data
reply is the initial one or a reply of this loop with rcode SUCCESS, no answer and no
truncation. -/
theorem searchLoop_ok (s : Server) (name : String) (tcp : Bool) (ds : List String) :
    ∀ (v : SearchVars) (tr : Trace) (v1 : SearchVars) (tr1 : Trace),
      searchLoop s name tcp ds v tr = .ok v1 tr1 →
      ∃ new, tr1 = tr ++ new ∧
        (new = [] → v1 = v ∧ ∀ d ∈ ds, HasSuffix name d = true) ∧
        (new ≠ [] → v1.didSearch = true ∧ ∃ e, new.getLast? = some e ∧ v1.r = e.reply ∧
          v1.err = e.reply.isNone ∧
          ∃ q, e.req.Question.head? = some q ∧ q.Name = v1.searchName) ∧
        (v1.nodata = v.nodata ∨ ∃ e ∈ new, ∃ nd, e.reply = some nd ∧ v1.nodata = some nd ∧
          nd.Rcode = RcodeSuccess ∧ nd.Answer = [] ∧ nd.Truncated = false) := by
  induction ds with
  | nil =>
    intro v tr v1 tr1 h
    simp only [searchLoop] at h
    injection h with h1 h2
    subst h1 h2
    exact ⟨[], by simp, fun _ => ⟨rfl, by simp⟩, fun h => absurd rfl h, Or.inl rfl⟩
  | cons d rest ih =>
    intro v tr v1 tr1 h
    rw [searchLoop] at h
    split at h
    · rename_i hsuf
      obtain ⟨new, htr, p1, p2, p3⟩ := ih v tr v1 tr1 h
      refine ⟨new, htr, fun hn => ⟨(p1 hn).1, ?_⟩, p2, p3⟩
      intro d1 hd1
      rcases List.mem_cons.mp hd1 with rfl | hd1
      · exact hsuf
      · exact (p1 hn).2 d1 hd1
    · dsimp only at h
      split at h
      · cases h
      · rename_i q qs hqc
        split at h
        · cases h
        · rename_i r err tr2 hfq
          obtain ⟨q0, qs0, new1, -, htr2, hne1, hall, herr, -, e1, hlast, hrep⟩ :=
            forwardQuery_ok _ _ _ _ _ _ _ hfq
          have hreq1 : e1.req.Question.head? =
              some ⟨ToLower (s.appendDomain name d), q.Qtype, q.Qclass⟩ := by
            have hmem : e1 ∈ new1 := List.mem_of_getLast?_eq_some hlast
            have hreq := (hall e1 hmem).1
            rw [hreq]
            rfl
          have key : ∀ v2 : SearchVars,
              (∃ new2, tr1 = tr2 ++ new2 ∧
                (new2 = [] → v1 = v2) ∧
                (new2 ≠ [] → v1.didSearch = true ∧ ∃ e, new2.getLast? = some e ∧
                  v1.r = e.reply ∧ v1.err = e.reply.isNone ∧
                  ∃ q, e.req.Question.head? = some q ∧ q.Name = v1.searchName) ∧
                (v1.nodata = v2.nodata ∨ ∃ e ∈ new2, ∃ nd, e.reply = some nd ∧
                  v1.nodata = some nd ∧ nd.Rcode = RcodeSuccess ∧ nd.Answer = [] ∧
                  nd.Truncated = false)) →
              v2.didSearch = true → v2.r = r → v2.err = err →
              v2.searchName = ToLower (s.appendDomain name d) →
              (v2.nodata = v.nodata ∨ ∃ nd, r = some nd ∧ v2.nodata = some nd ∧
                nd.Rcode = RcodeSuccess ∧ nd.Answer = [] ∧ nd.Truncated = false) →
              ∃ new, tr1 = tr ++ new ∧
                (new = [] → v1 = v ∧ ∀ d1 ∈ d :: rest, HasSuffix name d1 = true) ∧
                (new ≠ [] → v1.didSearch = true ∧ ∃ e, new.getLast? = some e ∧
                  v1.r = e.reply ∧ v1.err = e.reply.isNone ∧
                  ∃ q, e.req.Question.head? = some q ∧ q.Name = v1.searchName) ∧
                (v1.nodata = v.nodata ∨ ∃ e ∈ new, ∃ nd, e.reply = some nd ∧
                  v1.nodata = some nd ∧ nd.Rcode = RcodeSuccess ∧ nd.Answer = [] ∧
                  nd.Truncated = false) := by
            intro v2 ⟨new2, htr1, q1, q2, q3⟩ hds hr2 herr2 hsn hnod
            refine ⟨new1 ++ new2, by rw [htr1, htr2, List.append_assoc], ?_, ?_, ?_⟩
            · intro hnil
              exact absurd (List.append_eq_nil.mp hnil).1 hne1
            · intro _
              by_cases hn2 : new2 = []
              · subst hn2
                rw [q1 rfl, List.append_nil]
                refine ⟨hds, e1, hlast, by rw [hr2, hrep], by rw [herr2, herr, hrep], _, hreq1, ?_⟩
                rw [hsn]
              · obtain ⟨hd, e, he, r1, r2, r3⟩ := q2 hn2
                exact ⟨hd, e, by rw [List.getLast?_append_of_ne_nil _ hn2]; exact he, r1, r2, r3⟩
            · rcases q3 with q3 | ⟨e, he, nd, h1, h2, h3⟩
              · rcases hnod with hnod | ⟨nd, h1, h2, h3⟩
                · exact Or.inl (by rw [q3, hnod])
                · refine Or.inr ⟨e1, ?_, nd, by rw [hrep, h1], by rw [q3, h2], h3⟩
                  exact List.mem_append_left _ (List.mem_of_getLast?_eq_some hlast)
              · exact Or.inr ⟨e, List.mem_append_right _ he, nd, h1, h2, h3⟩
          have stop : ∀ v2 : SearchVars, Res.ok v2 tr2 = Res.ok v1 tr1 →
              ∃ new2, tr1 = tr2 ++ new2 ∧
                (new2 = [] → v1 = v2) ∧
                (new2 ≠ [] → v1.didSearch = true ∧ ∃ e, new2.getLast? = some e ∧
                  v1.r = e.reply ∧ v1.err = e.reply.isNone ∧
                  ∃ q, e.req.Question.head? = some q ∧ q.Name = v1.searchName) ∧
                (v1.nodata = v2.nodata ∨ ∃ e ∈ new2, ∃ nd, e.reply = some nd ∧
                  v1.nodata = some nd ∧ nd.Rcode = RcodeSuccess ∧ nd.Answer = [] ∧
                  nd.Truncated = false) := by
            intro v2 h2
            injection h2 with h2 h3
            subst h2 h3
            exact ⟨[], by simp, fun _ => rfl, fun h => absurd rfl h, Or.inl rfl⟩
          have continue_ : ∀ v2 : SearchVars, searchLoop s name tcp rest v2 tr2 = Res.ok v1 tr1 →
              ∃ new2, tr1 = tr2 ++ new2 ∧
                (new2 = [] → v1 = v2) ∧
                (new2 ≠ [] → v1.didSearch = true ∧ ∃ e, new2.getLast? = some e ∧
                  v1.r = e.reply ∧ v1.err = e.reply.isNone ∧
                  ∃ q, e.req.Question.head? = some q ∧ q.Name = v1.searchName) ∧
                (v1.nodata = v2.nodata ∨ ∃ e ∈ new2, ∃ nd, e.reply = some nd ∧
                  v1.nodata = some nd ∧ nd.Rcode = RcodeSuccess ∧ nd.Answer = [] ∧
                  nd.Truncated = false) := by
            intro v2 h2
            obtain ⟨new2, a, b, c, e⟩ := ih v2 tr2 v1 tr1 h2
            exact ⟨new2, a, fun hn => (b hn).1, c, e⟩
          split at h
          · exact key _ (stop _ h) rfl rfl rfl rfl (Or.inl rfl)
          · split at h
            · cases h
            · rename_i rm
              split at h
              · rename_i hsucc
                split at h
                · rename_i hnd
                  refine key _ (continue_ _ h) rfl rfl rfl rfl
                    (Or.inr ⟨rm, rfl, rfl, hsucc, ?_, hnd.2⟩)
                  exact List.length_eq_zero.mp hnd.1
                · exact key _ (stop _ h) rfl rfl rfl rfl (Or.inl rfl)
              · split at h
                · exact key _ (continue_ _ h) rfl rfl rfl rfl (Or.inl rfl)
                · exact key _ (stop _ h) rfl rfl rfl rfl (Or.inl rfl)

/-! ## Theorems: `forwardSearch` -/

theorem setQuestion0_some (m m2 : Msg) (q : Question) (h : setQuestion0 m q = some m2) :
    m2.Question.head? = some q ∧ m2.Rcode = m.Rcode ∧ m2.Answer = m.Answer ∧
      m2.Truncated = m.Truncated := by
  unfold setQuestion0 at h
  split at h
  · cases h
  · cases h
    exact ⟨rfl, rfl, rfl, rfl⟩

/-- The ways in which `forwardSearch` returns, in terms of the variables its loop leaves:
no search was made (NXDOMAIN built from the request); the last lookup returned a reply, whose
question is restored (after the CNAME is put in front of a positive answer, or the stored
no-data reply is taken in place of a negative one); the last lookup failed and the stored
no-data reply is returned; the last lookup failed and the error is returned. -/
theorem forwardSearch_cases (s : Server) (req : Msg) (tcp : Bool) (tr tr1 : Trace)
    (r : Option Msg) (err : Bool) (h : forwardSearch s req tcp tr = .ok (r, err) tr1) :
    ∃ q0 qs v1, req.Question = q0 :: qs ∧
      searchLoop s q0.Name tcp s.config.SearchDomains
        { r := none, nodata := none, searchName := "", err := false, didSearch := false,
          reqCopy := req } tr = .ok v1 tr1 ∧
      ((v1.didSearch = false ∧ r = some (SetRcode newMsg req RcodeNameError) ∧ err = false) ∨
       (v1.didSearch = true ∧ v1.err = false ∧ err = false ∧ ∃ rm r2, v1.r = some rm ∧
          r = some r2 ∧
          setQuestion0
            (if rm.Rcode = RcodeSuccess then
              (if rm.Answer.length > 0 then
                { rm with Answer :=
                    RR.CNAME ⟨q0.Name, TypeCNAME, ClassINET, 360⟩ v1.searchName :: rm.Answer }
              else rm)
            else
              (match v1.nodata with
               | some nd => nd
               | none => rm)) q0 = some r2) ∨
       (v1.didSearch = true ∧ v1.err = true ∧ err = false ∧ ∃ nd r2, v1.nodata = some nd ∧
          r = some r2 ∧ setQuestion0 nd q0 = some r2) ∨
       (v1.didSearch = true ∧ v1.err = true ∧ err = true ∧ v1.nodata = none ∧ r = v1.r)) := by
  unfold forwardSearch at h
  split at h
  · cases h
  · rename_i q0 qs hq
    split at h
    · cases h
    · rename_i v1 tr2 hloop
      refine ⟨q0, qs, v1, hq, ?_⟩
      split at h
      · rename_i hds
        injection h with hval htr
        injection hval with hr herr
        subst htr
        exact ⟨hloop, Or.inl ⟨hds, hr.symm, herr.symm⟩⟩
      · rename_i hds
        have hds1 : v1.didSearch = true := by simpa using hds
        cases herr1 : v1.err with
        | false =>
          unfold searchRestore at h
          simp only [herr1, Bool.false_eq_true, if_false] at h
          split at h
          · cases h
          · rename_i r1 hr1
            split at hr1
            · cases hr1
            · rename_i rm hrm
              split at hr1
              · cases hr1
              · rename_i r2 hset
                injection hr1 with hr1
                subst hr1
                injection h with hval htr
                injection hval with hr herr
                subst htr
                exact ⟨hloop, Or.inr (Or.inl ⟨hds1, rfl, herr.symm, rm, r2, hrm, hr.symm, hset⟩)⟩
        | true =>
          unfold searchRestore at h
          simp only [herr1, if_true] at h
          cases hnd : v1.nodata with
          | none =>
            simp only [hnd] at h
            injection h with hval htr
            injection hval with hr herr
            subst htr
            exact ⟨hloop, Or.inr (Or.inr (Or.inr ⟨hds1, rfl, herr.symm, rfl, hr.symm⟩))⟩
          | some nd =>
            simp only [hnd] at h
            split at h
            · cases h
            · rename_i r2 hset
              injection h with hval htr
              injection hval with hr herr
              subst htr
              exact ⟨hloop, Or.inr (Or.inr (Or.inl ⟨hds1, rfl, herr.symm, nd, r2, rfl, hr.symm, hset⟩))⟩

/-- A reply returned by `forwardSearch` without error has the first question of the request
as its first question. -/
theorem forwardSearch_Question (s : Server) (req : Msg) (tcp : Bool) (tr tr1 : Trace)
    (m : Msg) (q : Question) (qs : List Question) (hq : req.Question = q :: qs)
    (h : forwardSearch s req tcp tr = .ok (some m, false) tr1) :
    m.Question.head? = some q := by
  obtain ⟨q0, qs0, v1, hq0, -, hc⟩ := forwardSearch_cases s req tcp tr tr1 _ _ h
  rw [hq] at hq0
  injection hq0 with hq1 hq2
  subst hq1
  rcases hc with ⟨-, hr, -⟩ | ⟨-, -, -, rm, r2, -, hr, hset⟩ | ⟨-, -, -, nd, r2, -, hr, hset⟩ |
    ⟨-, -, herr, -⟩
  · injection hr with hr
    rw [hr, SetRcode_Question newMsg req _ q qs hq]
    rfl
  · injection hr with hr
    rw [hr]
    exact (setQuestion0_some _ _ _ hset).1
  · injection hr with hr
    rw [hr]
    exact (setQuestion0_some _ _ _ hset).1
  · cases herr

/-- The trace only grows during `forwardSearch`. -/
theorem forwardSearch_trace (s : Server) (req : Msg) (tcp : Bool) (tr tr1 : Trace)
    (r : Option Msg) (err : Bool) (h : forwardSearch s req tcp tr = .ok (r, err) tr1) :
    ∃ new, tr1 = tr ++ new := by
  obtain ⟨q0, qs0, v1, -, hloop, -⟩ := forwardSearch_cases s req tcp tr tr1 _ _ h
  obtain ⟨new, hnew, -⟩ := searchLoop_ok s _ tcp _ _ _ _ _ hloop
  exact ⟨new, hnew⟩

/-! ## Theorems: the blocks of `ServeDNSForward` -/

/-- What the absolute-lookup block does when it does not panic. -/
theorem absoluteLookup_ok (s : Server) (req : Msg) (tcp : Bool) (nameDots : Int) (v : FwdVars)
    (tr tr1 : Trace) (step : Step) (h : absoluteLookup s req tcp nameDots v tr = .ok step tr1) :
    ∃ new, tr1 = tr ++ new ∧ (∀ e ∈ new, e.req = req) ∧
      (∀ m, step = .ret m → ∃ res, m = { res with Compress := true, Id := req.Id } ∧
        res.Rcode = RcodeSuccess ∧ ∃ e ∈ new, e.req = req ∧ e.reply = some res) ∧
      (∀ v1, step = .cont v1 →
        v1.didSearch = v.didSearch ∧ v1.searchRes = v.searchRes ∧ v1.searchErr = v.searchErr ∧
        ((nameDots < s.config.FwdNdots ∧ v1 = v ∧ new = []) ∨
         (nameDots ≥ s.config.FwdNdots ∧ new ≠ [] ∧ v1.didAbsolute = true ∧
          v1.absoluteErr = v1.absoluteRes.isNone ∧
          (∃ e ∈ new, e.req = req ∧ e.reply = v1.absoluteRes) ∧
          (∀ res, v1.absoluteRes = some res → res.Rcode ≠ RcodeSuccess)))) := by
  unfold absoluteLookup at h
  split at h
  · rename_i hge
    split at h
    · cases h
    · rename_i r err tr2 hfq
      obtain ⟨q0, qs0, new, -, htr2, hne, hall, herr, ⟨e, he, hrep⟩, -⟩ :=
        forwardQuery_ok _ _ _ _ _ _ _ hfq
      have hreq : ∀ e ∈ new, e.req = req := fun e he => (hall e he).1
      dsimp only at h
      split at h
      · rename_i herr1
        injection h with hval htr
        subst htr
        refine ⟨new, htr2, hreq, ?_, ?_⟩
        · intro m hm; rw [← hval] at hm; cases hm
        · intro v1 hv1
          rw [← hval] at hv1
          injection hv1 with hv1
          subst hv1
          refine ⟨rfl, rfl, rfl, Or.inr ⟨hge, hne, rfl, herr, ⟨e, he, hreq e he, hrep⟩, ?_⟩⟩
          intro res hres
          simp only at hres
          rw [hres] at herr
          rw [herr] at herr1
          cases herr1
      · split at h
        · cases h
        · rename_i res
          split at h
          · rename_i hsucc
            injection h with hval htr
            subst htr
            refine ⟨new, htr2, hreq, ?_, ?_⟩
            · intro m hm
              rw [← hval] at hm
              injection hm with hm
              exact ⟨res, hm.symm, hsucc, e, he, hreq e he, hrep⟩
            · intro v1 hv1; rw [← hval] at hv1; cases hv1
          · rename_i hsucc
            injection h with hval htr
            subst htr
            refine ⟨new, htr2, hreq, ?_, ?_⟩
            · intro m hm; rw [← hval] at hm; cases hm
            · intro v1 hv1
              rw [← hval] at hv1
              injection hv1 with hv1
              subst hv1
              refine ⟨rfl, rfl, rfl, Or.inr ⟨hge, hne, rfl, herr, ⟨e, he, hreq e he, hrep⟩, ?_⟩⟩
              intro res1 hres
              simp only at hres
              injection hres with hres
              subst hres
              exact hsucc
  · rename_i hlt
    injection h with hval htr
    subst htr
    refine ⟨[], by simp, by simp, ?_, ?_⟩
    · intro m hm; rw [← hval] at hm; cases hm
    · intro v1 hv1
      rw [← hval] at hv1
      injection hv1 with hv1
      subst hv1
      exact ⟨rfl, rfl, rfl, Or.inl ⟨not_le.mp hlt, rfl, rfl⟩⟩

/-- What the search block does when it does not panic. -/
theorem searchLookup_ok (s : Server) (req : Msg) (tcp : Bool) (searchEnabled : Bool)
    (v : FwdVars) (tr tr1 : Trace) (step : Step)
    (h : searchLookup s req tcp searchEnabled v tr = .ok step tr1) :
    ∃ new, tr1 = tr ++ new ∧
      (∀ m, step = .ret m → ∃ res, forwardSearch s req tcp tr = .ok (some res, false) tr1 ∧
        m = { res with Compress := true, Id := req.Id } ∧ res.Rcode = RcodeSuccess) ∧
      (∀ v1, step = .cont v1 →
        v1.didAbsolute = v.didAbsolute ∧ v1.absoluteRes = v.absoluteRes ∧
        v1.absoluteErr = v.absoluteErr ∧
        ((¬ (v.absoluteErr = false ∧ searchEnabled = true) ∧ v1 = v ∧ new = []) ∨
         (v.absoluteErr = false ∧ searchEnabled = true ∧ v1.didSearch = true ∧
          forwardSearch s req tcp tr = .ok (v1.searchRes, v1.searchErr) tr1 ∧
          (v1.searchErr = false → ∃ res, v1.searchRes = some res ∧
            res.Rcode ≠ RcodeSuccess)))) := by
  unfold searchLookup at h
  split at h
  · rename_i hcond
    split at h
    · cases h
    · rename_i r err tr2 hfs
      obtain ⟨new, htr2⟩ := forwardSearch_trace _ _ _ _ _ _ _ hfs
      dsimp only at h
      split at h
      · rename_i herr1
        injection h with hval htr
        subst htr
        refine ⟨new, htr2, ?_, ?_⟩
        · intro m hm; rw [← hval] at hm; cases hm
        · intro v1 hv1
          rw [← hval] at hv1
          injection hv1 with hv1
          subst hv1
          refine ⟨rfl, rfl, rfl, Or.inr ⟨hcond.1, hcond.2, rfl, hfs, ?_⟩⟩
          intro hfalse
          simp only at hfalse
          rw [hfalse] at herr1
          cases herr1
      · rename_i herr1
        have herr2 : err = false := by simpa using herr1
        subst herr2
        split at h
        · cases h
        · rename_i res
          split at h
          · rename_i hsucc
            injection h with hval htr
            subst htr
            refine ⟨new, htr2, ?_, ?_⟩
            · intro m hm
              rw [← hval] at hm
              injection hm with hm
              exact ⟨res, hfs, hm.symm, hsucc⟩
            · intro v1 hv1; rw [← hval] at hv1; cases hv1
          · rename_i hsucc
            injection h with hval htr
            subst htr
            refine ⟨new, htr2, ?_, ?_⟩
            · intro m hm; rw [← hval] at hm; cases hm
            · intro v1 hv1
              rw [← hval] at hv1
              injection hv1 with hv1
              subst hv1
              exact ⟨rfl, rfl, rfl, Or.inr ⟨hcond.1, hcond.2, rfl, hfs, fun _ => ⟨res, rfl, hsucc⟩⟩⟩
  · rename_i hcond
    injection h with hval htr
    subst htr
    refine ⟨[], by simp, ?_, ?_⟩
    · intro m hm; rw [← hval] at hm; cases hm
    · intro v1 hv1
      rw [← hval] at hv1
      injection hv1 with hv1
      subst hv1
      exact ⟨rfl, rfl, rfl, Or.inl ⟨hcond, rfl, rfl⟩⟩

/-! ## Theorems: the run of `ServeDNSForward` -/

/-- A run of `ServeDNSForward` on a request that is not refused, block by block: the
initial absolute lookup, the search lookup, the absolute lookup after the search and the
final choice of the reply; each of the first three may return the message at once. -/
theorem ServeDNSForward_run (s : Server) (tcp : Bool) (req : Msg) (tr tr1 : Trace) (m : Msg)
    (q : Question) (qs : List Question) (hq : req.Question = q :: qs)
    (hnr : refuses s.config ((s.CountLabel q.Name : Int) - 1) = false)
    (h : ServeDNSForward s tcp req tr = .ok m tr1) :
    ∃ st1 t1,
      (if (s.CountLabel q.Name : Int) - 1 ≥ s.config.Ndots then
          absoluteLookup s req tcp ((s.CountLabel q.Name : Int) - 1)
            { didAbsolute := false, didSearch := false, absoluteRes := none, searchRes := none,
              absoluteErr := false, searchErr := false } tr
        else .ok (.cont { didAbsolute := false, didSearch := false, absoluteRes := none,
                          searchRes := none, absoluteErr := false, searchErr := false }) tr) =
        .ok st1 t1 ∧
      ((st1 = .ret m ∧ tr1 = t1) ∨
       ∃ v1, st1 = .cont v1 ∧ ∃ st2 t2,
        searchLookup s req tcp
          (s.config.EnableSearch && decide (s.config.SearchDomains.length > 0)) v1 t1 =
          .ok st2 t2 ∧
        ((st2 = .ret m ∧ tr1 = t2) ∨
         ∃ v2, st2 = .cont v2 ∧ ∃ st3 t3,
          (if v2.searchErr = false ∧ v2.didAbsolute = false then
              absoluteLookup s req tcp ((s.CountLabel q.Name : Int) - 1) v2 t2
            else .ok (.cont v2) t2) = .ok st3 t3 ∧
          ((st3 = .ret m ∧ tr1 = t3) ∨
           ∃ v3, st3 = .cont v3 ∧ fallbackReply req v3 = some m ∧ tr1 = t3))) := by
  unfold ServeDNSForward at h
  rw [hq] at h
  simp only [hnr, Bool.false_eq_true, if_false] at h
  split at h
  · cases h
  · rename_i m1 t1 h1
    injection h with hm ht
    subst hm ht
    exact ⟨_, _, h1, Or.inl ⟨rfl, rfl⟩⟩
  · rename_i v1 t1 h1
    refine ⟨_, _, h1, Or.inr ⟨v1, rfl, ?_⟩⟩
    split at h
    · cases h
    · rename_i m2 t2 h2
      injection h with hm ht
      subst hm ht
      exact ⟨_, _, h2, Or.inl ⟨rfl, rfl⟩⟩
    · rename_i v2 t2 h2
      refine ⟨_, _, h2, Or.inr ⟨v2, rfl, ?_⟩⟩
      split at h
      · cases h
      · rename_i m3 t3 h3
        injection h with hm ht
        subst hm ht
        exact ⟨_, _, h3, Or.inl ⟨rfl, rfl⟩⟩
      · rename_i v3 t3 h3
        refine ⟨_, _, h3, Or.inr ⟨v3, rfl, ?_⟩⟩
        split at h
        · cases h
        · rename_i m4 h4
          injection h with hm ht
          subst hm ht
          exact ⟨h4, rfl⟩

/-- The absolute-lookup block under its guard, as it stands at both places of
`ServeDNSForward`. -/
theorem absoluteStage_ok (s : Server) (req : Msg) (tcp : Bool) (nameDots : Int) (c : Prop)
    [Decidable c] (v : FwdVars) (tr tr1 : Trace) (step : Step)
    (h : (if c then absoluteLookup s req tcp nameDots v tr else .ok (.cont v) tr) =
      .ok step tr1) :
    ∃ new, tr1 = tr ++ new ∧ (∀ e ∈ new, e.req = req) ∧
      (∀ m, step = .ret m → ∃ res, m = { res with Compress := true, Id := req.Id } ∧
        res.Rcode = RcodeSuccess ∧ ∃ e ∈ new, e.req = req ∧ e.reply = some res) ∧
      (∀ v1, step = .cont v1 →
        v1.didSearch = v.didSearch ∧ v1.searchRes = v.searchRes ∧ v1.searchErr = v.searchErr ∧
        (((¬ c ∨ nameDots < s.config.FwdNdots) ∧ v1 = v ∧ new = []) ∨
         (c ∧ nameDots ≥ s.config.FwdNdots ∧ new ≠ [] ∧ v1.didAbsolute = true ∧
          v1.absoluteErr = v1.absoluteRes.isNone ∧
          (∃ e ∈ new, e.req = req ∧ e.reply = v1.absoluteRes) ∧
          (∀ res, v1.absoluteRes = some res → res.Rcode ≠ RcodeSuccess)))) := by
  by_cases hc : c
  · rw [if_pos hc] at h
    obtain ⟨new, htr, hreq, hret, hcont⟩ := absoluteLookup_ok s req tcp nameDots v tr tr1 step h
    refine ⟨new, htr, hreq, hret, ?_⟩
    intro v1 hv1
    obtain ⟨a, b, c1, d⟩ := hcont v1 hv1
    refine ⟨a, b, c1, ?_⟩
    rcases d with ⟨d1, d2, d3⟩ | ⟨d1, d2⟩
    · exact Or.inl ⟨Or.inr d1, d2, d3⟩
    · exact Or.inr ⟨hc, d1, d2⟩
  · rw [if_neg hc] at h
    injection h with hval htr
    subst htr
    refine ⟨[], by simp, by simp, ?_, ?_⟩
    · intro m hm; rw [← hval] at hm; cases hm
    · intro v1 hv1
      rw [← hval] at hv1
      injection hv1 with hv1
      subst hv1
      exact ⟨rfl, rfl, rfl, Or.inl ⟨Or.inl hc, rfl, rfl⟩⟩

theorem AbsInv_init (req : Msg) (tr : Trace) (v : FwdVars) (h : v.didAbsolute = false) :
    AbsInv req tr v := by
  intro h1
  rw [h] at h1
  cases h1

theorem AbsInv_lookup (req : Msg) (old new : Trace) (v1 : FwdVars)
    (herr : v1.absoluteErr = v1.absoluteRes.isNone)
    (hex : ∃ e ∈ new, e.req = req ∧ e.reply = v1.absoluteRes) :
    AbsInv req (old ++ new) v1 := by
  intro _ hfalse
  obtain ⟨e, he, hreq, hrep⟩ := hex
  cases hres : v1.absoluteRes with
  | none => rw [hres] at herr; rw [herr] at hfalse; cases hfalse
  | some res => exact ⟨res, rfl, e, List.mem_append_right _ he, hreq, by rw [hrep, hres]⟩

theorem AbsInv_mono (req : Msg) (old new : Trace) (v v1 : FwdVars) (hinv : AbsInv req old v)
    (h1 : v1.didAbsolute = v.didAbsolute) (h2 : v1.absoluteRes = v.absoluteRes)
    (h3 : v1.absoluteErr = v.absoluteErr) : AbsInv req (old ++ new) v1 := by
  intro ha hb
  rw [h1] at ha
  rw [h3] at hb
  obtain ⟨res, hres, e, he, hreq, hrep⟩ := hinv ha hb
  exact ⟨res, by rw [h2, hres], e, List.mem_append_left _ he, hreq, hrep⟩

theorem fallbackReply_Question (req : Msg) (v : FwdVars) (m : Msg) (q : Question)
    (qs : List Question) (hq : req.Question = q :: qs) (h : fallbackReply req v = some m) :
    (v.didAbsolute = true ∧ v.absoluteErr = false ∧
      ∃ res, v.absoluteRes = some res ∧ m = { res with Compress := true, Id := req.Id }) ∨
    m.Question = [q] := by
  unfold fallbackReply at h
  split at h
  · rename_i hc
    split at h
    · cases h
    · rename_i res hres
      injection h with h
      exact Or.inl ⟨hc.1, hc.2, res, hres, h.symm⟩
  · split at h
    · split at h
      · cases h
      · injection h with h
        rw [← h]
        exact Or.inr (SetRcode_Question _ _ _ q qs hq)
    · injection h with h
      rw [← h]
      exact Or.inr (SetRcode_Question _ _ _ q qs hq)

/-- Witness of C2: the upstream answers with Id 7; the reply handed to the client, by
`ServeDNSForward` and by `ServeDNSReverse`, has the Id 4242 of the request. -/
theorem reply_Id_eq_request_Id_witness :
    ∃ m tr1,
      ServeDNSForward (exServer twoServers upOtherQuestion) false
        (exReq ⟨"example.com.", 1, 1⟩) [] = .ok m tr1 ∧
      ServeDNSReverse (exServer twoServers upOtherQuestion) false
        (exReq ⟨"example.com.", 1, 1⟩) [] = .ok m tr1 ∧
      (∃ e ∈ tr1, ∃ r, e.reply = some r ∧ r.Id = 7) ∧ m.Id = 4242 := by
  have hf : ∃ m tr1,
      ServeDNSForward (exServer twoServers upOtherQuestion) false
        (exReq ⟨"example.com.", 1, 1⟩) [] = .ok m tr1 ∧
      ServeDNSReverse (exServer twoServers upOtherQuestion) false
        (exReq ⟨"example.com.", 1, 1⟩) [] = .ok m tr1 ∧
      (∃ e ∈ tr1, ∃ r, e.reply = some r ∧ r.Id = 7) :=
    ⟨_, _, rfl, rfl, _, List.mem_singleton.mpr rfl, _, rfl, rfl⟩
  obtain ⟨m, tr1, h1, h2, h3⟩ := hf
  exact ⟨m, tr1, h1, h2, h3,
    (reply_Id_eq_request_Id (exServer twoServers upOtherQuestion) false
      (exReq ⟨"example.com.", 1, 1⟩) [] tr1 m).1 h1⟩

/-- Counterexample to C3 as stated: the absolute lookup for `example.com.` gets a positive
reply whose question section names `other.example.`; `ServeDNSForward` returns that reply
with the upstream's question, not the client's. -/
theorem ServeDNSForward_Question_counterexample :
    ∃ m tr1,
      ServeDNSForward (exServer twoServers upOtherQuestion) false
        (exReq ⟨"example.com.", 1, 1⟩) [] = .ok m tr1 ∧
      m.Rcode = RcodeSuccess ∧ m.Answer = [exA] ∧
      (exReq ⟨"example.com.", 1, 1⟩).Question.head? = some ⟨"example.com.", 1, 1⟩ ∧
      m.Question.head? = some ⟨"other.example.", 1, 1⟩ ∧
      m.Question.head? ≠ (exReq ⟨"example.com.", 1, 1⟩).Question.head? :=
  ⟨_, _, rfl, rfl, rfl, rfl, rfl, by decide⟩

/-! ## Theorems: the outcomes in the trace are those of the upstream -/

theorem FromUpstream_nil (up : Upstream) : FromUpstream up [] := by
  intro e he
  cases he

theorem FromUpstream_append (up : Upstream) (a b : Trace) (ha : FromUpstream up a)
    (hb : FromUpstream up b) : FromUpstream up (a ++ b) := by
  intro e he
  rcases List.mem_append.mp he with h | h
  · exact ha e h
  · exact hb e h

theorem forwardQuery_from_up (s : Server) (req : Msg) (tcp : Bool) (tr tr1 : Trace)
    (res : Option Msg × Bool) (h : forwardQuery s req tcp tr = .ok res tr1) :
    ∃ new, tr1 = tr ++ new ∧ FromUpstream s.exchange new := by
  cases hq : req.Question with
  | nil => simp [forwardQuery, hq] at h
  | cons q qs =>
    cases h0 : (selectNameservers s.config q.Name).get? 0 with
    | none =>
      have hnil : selectNameservers s.config q.Name = [] := by
        cases hl : selectNameservers s.config q.Name with
        | nil => rfl
        | cons a l => rw [hl] at h0; simp at h0
      simp [forwardQuery, hq, retryLoop, hnil] at h
    | some ns0 =>
      have hne : selectNameservers s.config q.Name ≠ [] := by
        intro hnil; rw [hnil] at h0; simp at h0
      obtain ⟨ns1, h1⟩ := nextIdx_zero_get _ hne
      rw [forwardQuery_eq s req tcp tr q qs ns0 ns1 hq h0 h1] at h
      split at h
      · injection h with _ htr
        refine ⟨[⟨req, ns0, tcp, s.exchange tr req ns0 tcp⟩], htr.symm, ?_⟩
        intro e he
        rw [List.mem_singleton.mp he]
        exact ⟨tr, rfl⟩
      · injection h with _ htr
        refine ⟨[⟨req, ns0, tcp, s.exchange tr req ns0 tcp⟩,
          ⟨req, ns1, tcp,
            s.exchange (tr ++ [⟨req, ns0, tcp, s.exchange tr req ns0 tcp⟩]) req ns1 tcp⟩],
          by rw [← htr]; simp, ?_⟩
        intro e he
        simp only [List.mem_cons, List.mem_singleton, List.not_mem_nil, or_false] at he
        rcases he with he | he
        · rw [he]; exact ⟨tr, rfl⟩
        · rw [he]; exact ⟨_, rfl⟩

theorem searchLoop_from_up (s : Server) (name : String) (tcp : Bool) (ds : List String) :
    ∀ (v : SearchVars) (tr : Trace) (v1 : SearchVars) (tr1 : Trace),
      searchLoop s name tcp ds v tr = .ok v1 tr1 →
      ∃ new, tr1 = tr ++ new ∧ FromUpstream s.exchange new := by
  induction ds with
  | nil =>
    intro v tr v1 tr1 h
    simp only [searchLoop] at h
    injection h with _ h2
    exact ⟨[], by simp [h2], FromUpstream_nil _⟩
  | cons d rest ih =>
    intro v tr v1 tr1 h
    rw [searchLoop] at h
    split at h
    · exact ih v tr v1 tr1 h
    · dsimp only at h
      split at h
      · cases h
      · split at h
        · cases h
        · rename_i r err tr2 hfq
          obtain ⟨new1, htr2, hup1⟩ := forwardQuery_from_up _ _ _ _ _ _ hfq
          have stop : ∀ v2 : SearchVars, Res.ok v2 tr2 = Res.ok v1 tr1 →
              ∃ new, tr1 = tr ++ new ∧ FromUpstream s.exchange new := by
            intro v2 h2
            injection h2 with _ h3
            exact ⟨new1, by rw [← h3, htr2], hup1⟩
          have continue_ : ∀ v2 : SearchVars,
              searchLoop s name tcp rest v2 tr2 = Res.ok v1 tr1 →
              ∃ new, tr1 = tr ++ new ∧ FromUpstream s.exchange new := by
            intro v2 h2
            obtain ⟨new2, a, b⟩ := ih v2 tr2 v1 tr1 h2
            exact ⟨new1 ++ new2, by rw [a, htr2, List.append_assoc],
              FromUpstream_append _ _ _ hup1 b⟩
          split at h
          · exact stop _ h
          · split at h
            · cases h
            · split at h
              · split at h
                · exact continue_ _ h
                · exact stop _ h
              · split at h
                · exact continue_ _ h
                · exact stop _ h

theorem forwardSearch_from_up (s : Server) (req : Msg) (tcp : Bool) (tr tr1 : Trace)
    (r : Option Msg) (err : Bool) (h : forwardSearch s req tcp tr = .ok (r, err) tr1) :
    ∃ new, tr1 = tr ++ new ∧ FromUpstream s.exchange new := by
  obtain ⟨q0, qs0, v1, -, hloop, -⟩ := forwardSearch_cases s req tcp tr tr1 _ _ h
  exact searchLoop_from_up s _ tcp _ _ _ _ _ hloop

theorem absoluteStage_from_up (s : Server) (req : Msg) (tcp : Bool) (nameDots : Int)
    (c : Prop) [Decidable c] (v : FwdVars) (tr tr1 : Trace) (step : Step)
    (h : (if c then absoluteLookup s req tcp nameDots v tr else .ok (.cont v) tr) =
      .ok step tr1) :
    ∃ new, tr1 = tr ++ new ∧ FromUpstream s.exchange new := by
  by_cases hc : c
  · rw [if_pos hc] at h
    unfold absoluteLookup at h
    split at h
    · split at h
      · cases h
      · rename_i r err tr2 hfq
        obtain ⟨new, htr2, hup⟩ := forwardQuery_from_up _ _ _ _ _ _ hfq
        have htr : tr1 = tr2 := by
          dsimp only at h
          split at h
          · injection h with _ h2; exact h2.symm
          · split at h
            · cases h
            · split at h
              · injection h with _ h2; exact h2.symm
              · injection h with _ h2; exact h2.symm
        exact ⟨new, by rw [htr, htr2], hup⟩
    · injection h with _ h2
      exact ⟨[], by simp [h2], FromUpstream_nil _⟩
  · rw [if_neg hc] at h
    injection h with _ h2
    exact ⟨[], by simp [h2], FromUpstream_nil _⟩

theorem searchLookup_from_up (s : Server) (req : Msg) (tcp : Bool) (searchEnabled : Bool)
    (v : FwdVars) (tr tr1 : Trace) (step : Step)
    (h : searchLookup s req tcp searchEnabled v tr = .ok step tr1) :
    ∃ new, tr1 = tr ++ new ∧ FromUpstream s.exchange new := by
  unfold searchLookup at h
  split at h
  · split at h
    · cases h
    · rename_i r err tr2 hfs
      obtain ⟨new, htr2, hup⟩ := forwardSearch_from_up _ _ _ _ _ _ _ hfs
      have htr : tr1 = tr2 := by
        dsimp only at h
        split at h
        · injection h with _ h2; exact h2.symm
        · split at h
          · cases h
          · split at h
            · injection h with _ h2; exact h2.symm
            · injection h with _ h2; exact h2.symm
      exact ⟨new, by rw [htr, htr2], hup⟩
  · injection h with _ h2
    exact ⟨[], by simp [h2], FromUpstream_nil _⟩

/-- Whatever `ServeDNSForward` returns, the trace has only grown, and by exchanges whose
outcomes are those of the upstream. -/
theorem ServeDNSForward_from_up (s : Server) (tcp : Bool) (req : Msg) (tr tr1 : Trace)
    (m : Msg) (h : ServeDNSForward s tcp req tr = .ok m tr1) :
    ∃ new, tr1 = tr ++ new ∧ FromUpstream s.exchange new := by
  cases hq : req.Question with
  | nil => simp [ServeDNSForward, hq] at h
  | cons q qs =>
    cases hr : refuses s.config ((s.CountLabel q.Name : Int) - 1) with
    | true =>
      unfold ServeDNSForward at h
      rw [hq] at h
      simp only [hr, if_true] at h
      injection h with _ h2
      exact ⟨[], by simp [h2], FromUpstream_nil _⟩
    | false =>
      obtain ⟨st1, t1, h1, hrest⟩ := ServeDNSForward_run s tcp req tr _ m q qs hq hr h
      obtain ⟨n1, ht1, hu1⟩ := absoluteStage_from_up _ _ _ _ _ _ _ _ _ h1
      rcases hrest with ⟨-, htr⟩ | ⟨v1, -, st2, t2, h2, hrest⟩
      · exact ⟨n1, by rw [htr, ht1], hu1⟩
      · obtain ⟨n2, ht2, hu2⟩ := searchLookup_from_up _ _ _ _ _ _ _ _ h2
        rcases hrest with ⟨-, htr⟩ | ⟨v2, -, st3, t3, h3, hrest⟩
        · exact ⟨n1 ++ n2, by rw [htr, ht2, ht1, List.append_assoc],
            FromUpstream_append _ _ _ hu1 hu2⟩
        · obtain ⟨n3, ht3, hu3⟩ := absoluteStage_from_up _ _ _ _ _ _ _ _ _ h3
          have htr : tr1 = t3 := by
            rcases hrest with ⟨-, htr⟩ | ⟨v3, -, -, htr⟩ <;> exact htr
          exact ⟨n1 ++ n2 ++ n3, by rw [htr, ht3, ht2, ht1]; simp only [List.append_assoc],
            FromUpstream_append _ _ _ (FromUpstream_append _ _ _ hu1 hu2) hu3⟩

/-! ## Theorems: the run returns -/

theorem selectNameservers_ne_nil (c : Config) (name : String) (hns : c.Nameservers ≠ [])
    (hstub : ∀ z srv, (z, srv) ∈ c.Stub → srv ≠ []) : selectNameservers c name ≠ [] := by
  unfold selectNameservers
  have key : ∀ l : List (String × List String), (∀ z srv, (z, srv) ∈ l → srv ≠ []) →
      ∀ srv, stubLookup name l = some srv → srv ≠ [] := by
    intro l
    induction l with
    | nil => intro _ srv h; cases h
    | cons p rest ih =>
      intro hl srv h
      obtain ⟨z, srv0⟩ := p
      simp only [stubLookup] at h
      split at h
      · injection h with h
        rw [← h]
        exact hl z srv0 (List.mem_cons_self _ _)
      · exact ih (fun z1 srv1 hm => hl z1 srv1 (List.mem_cons_of_mem _ hm)) srv h
  cases hl : stubLookup name c.Stub with
  | none => exact hns
  | some srv => exact key c.Stub hstub srv hl

theorem searchLoop_returns (s : Server) (name : String) (tcp : Bool)
    (hns : ∀ n, selectNameservers s.config n ≠ []) (ds : List String) :
    ∀ (v : SearchVars) (tr : Trace), v.reqCopy.Question ≠ [] →
      ∃ v1 tr1, searchLoop s name tcp ds v tr = .ok v1 tr1 := by
  induction ds with
  | nil =>
    intro v tr _
    exact ⟨v, tr, rfl⟩
  | cons d rest ih =>
    intro v tr hqne
    rw [searchLoop]
    split
    · exact ih v tr hqne
    · cases hqc : v.reqCopy.Question with
      | nil => exact absurd hqc hqne
      | cons q qs =>
        dsimp only
        obtain ⟨r, err, tr2, hfq⟩ := forwardQuery_returns s
          { v.reqCopy with Question := ⟨ToLower (s.appendDomain name d), q.Qtype, q.Qclass⟩ :: qs }
          tcp tr ⟨ToLower (s.appendDomain name d), q.Qtype, q.Qclass⟩ qs rfl (hns _)
        obtain ⟨-, -, -, -, -, -, -, herr, -⟩ := forwardQuery_ok _ _ _ _ _ _ _ hfq
        rw [hfq]
        dsimp only
        cases r with
        | none =>
          have : err = true := by rw [herr]; rfl
          subst this
          exact ⟨_, _, rfl⟩
        | some rm =>
          have : err = false := by rw [herr]; rfl
          subst this
          simp only [Bool.false_eq_true, if_false]
          split
          · split
            · exact ih _ tr2 (by simp)
            · exact ⟨_, _, rfl⟩
          · split
            · exact ih _ tr2 (by simp)
            · exact ⟨_, _, rfl⟩

theorem setQuestion0_of_ne_nil (m : Msg) (q : Question) (h : m.Question ≠ []) :
    ∃ m2, setQuestion0 m q = some m2 := by
  unfold setQuestion0
  cases hq : m.Question with
  | nil => exact absurd hq h
  | cons a l => exact ⟨_, rfl⟩

/-- When every nameserver list is non-empty and every upstream reply has a question section,
`forwardSearch` returns for a request with a question, and it returns a reply exactly when it
returns no error. -/
theorem forwardSearch_returns (s : Server) (req : Msg) (tcp : Bool) (tr : Trace)
    (q : Question) (qs : List Question) (hq : req.Question = q :: qs)
    (hns : ∀ n, selectNameservers s.config n ≠ [])
    (hW : ∀ t r n c m, s.exchange t r n c = some m → m.Question ≠ []) :
    ∃ r err tr1, forwardSearch s req tcp tr = .ok (r, err) tr1 ∧ err = r.isNone := by
  obtain ⟨v1, tr1, hloop⟩ := searchLoop_returns s q.Name tcp hns s.config.SearchDomains
    { r := none, nodata := none, searchName := "", err := false, didSearch := false,
      reqCopy := req } tr (by simp [hq])
  obtain ⟨new, htr, p1, p2, p3⟩ := searchLoop_ok s _ tcp _ _ _ _ _ hloop
  obtain ⟨new1, htr1, hup⟩ := searchLoop_from_up s _ tcp _ _ _ _ _ hloop
  have hnew : new1 = new := List.append_cancel_left (htr1.symm.trans htr)
  subst hnew
  have hrepq : ∀ e ∈ new1, ∀ m, e.reply = some m → m.Question ≠ [] := by
    intro e he m hm
    obtain ⟨t, ht⟩ := hup e he
    exact hW t _ _ _ m (ht.symm.trans hm)
  have hnodq : ∀ nd, v1.nodata = some nd → nd.Question ≠ [] := by
    intro nd hnd
    rcases p3 with p3 | ⟨e, he, nd1, h1, h2, -⟩
    · rw [p3] at hnd; cases hnd
    · rw [h2] at hnd
      injection hnd with hnd
      subst hnd
      exact hrepq e he nd1 h1
  unfold forwardSearch
  rw [hq]
  dsimp only
  rw [hloop]
  dsimp only
  cases hds : v1.didSearch with
  | false =>
    rw [if_pos rfl]
    exact ⟨_, _, _, rfl, rfl⟩
  | true =>
    have hne : new1 ≠ [] := by
      intro hnil
      have := (p1 hnil).1
      rw [this] at hds
      cases hds
    obtain ⟨-, e, he, hr, herr, -⟩ := p2 hne
    have hemem : e ∈ new1 := List.mem_of_getLast?_eq_some he
    simp only [Bool.true_eq_false, if_false]
    cases hverr : v1.err with
    | false =>
      cases hrep : e.reply with
      | none => rw [hrep] at herr; rw [herr] at hverr; cases hverr
      | some rm =>
        rw [hrep] at hr
        have hrmq : rm.Question ≠ [] := hrepq e hemem rm hrep
        have hr1q : (if rm.Rcode = RcodeSuccess then
              (if rm.Answer.length > 0 then
                { rm with Answer :=
                    RR.CNAME ⟨q.Name, TypeCNAME, ClassINET, 360⟩ v1.searchName :: rm.Answer }
              else rm)
            else
              (match v1.nodata with
               | some nd => nd
               | none => rm)).Question ≠ [] := by
          split
          · split
            · exact hrmq
            · exact hrmq
          · split
            · rename_i nd hnd
              exact hnodq nd hnd
            · exact hrmq
        obtain ⟨r2, hset⟩ := setQuestion0_of_ne_nil _ q hr1q
        unfold searchRestore
        simp only [hverr, hr, Bool.false_eq_true, if_false]
        rw [hset]
        exact ⟨_, _, _, rfl, rfl⟩
    | true =>
      unfold searchRestore
      cases hnd : v1.nodata with
      | none =>
        simp only [hverr, hnd, if_true]
        refine ⟨_, _, _, rfl, ?_⟩
        rw [hr, ← herr, hverr]
      | some nd =>
        obtain ⟨r2, hset⟩ := setQuestion0_of_ne_nil nd q (hnodq nd hnd)
        simp only [hverr, hnd, hset, if_true]
        exact ⟨_, _, _, rfl, rfl⟩

theorem absoluteStage_returns (s : Server) (req : Msg) (tcp : Bool) (nameDots : Int)
    (c : Prop) [Decidable c] (v : FwdVars) (tr : Trace) (q : Question) (qs : List Question)
    (hq : req.Question = q :: qs) (hns : ∀ n, selectNameservers s.config n ≠ []) :
    ∃ step tr1,
      (if c then absoluteLookup s req tcp nameDots v tr else .ok (.cont v) tr) =
        .ok step tr1 := by
  by_cases hc : c
  · rw [if_pos hc]
    unfold absoluteLookup
    split
    · obtain ⟨r, err, tr2, hfq⟩ := forwardQuery_returns s req tcp tr q qs hq (hns _)
      obtain ⟨-, -, -, -, -, -, -, herr, -⟩ := forwardQuery_ok _ _ _ _ _ _ _ hfq
      rw [hfq]
      dsimp only
      cases r with
      | none =>
        have : err = true := by rw [herr]; rfl
        subst this
        exact ⟨_, _, rfl⟩
      | some rm =>
        have : err = false := by rw [herr]; rfl
        subst this
        simp only [Bool.false_eq_true, if_false]
        split
        · exact ⟨_, _, rfl⟩
        · exact ⟨_, _, rfl⟩
    · exact ⟨_, _, rfl⟩
  · rw [if_neg hc]
    exact ⟨_, _, rfl⟩

theorem searchLookup_returns (s : Server) (req : Msg) (tcp : Bool) (searchEnabled : Bool)
    (v : FwdVars) (tr : Trace) (q : Question) (qs : List Question)
    (hq : req.Question = q :: qs) (hns : ∀ n, selectNameservers s.config n ≠ [])
    (hW : ∀ t r n c m, s.exchange t r n c = some m → m.Question ≠ []) :
    ∃ step tr1, searchLookup s req tcp searchEnabled v tr = .ok step tr1 := by
  unfold searchLookup
  split
  · obtain ⟨r, err, tr2, hfs, herr⟩ := forwardSearch_returns s req tcp tr q qs hq hns hW
    rw [hfs]
    dsimp only
    cases r with
    | none =>
      have : err = true := by rw [herr]; rfl
      subst this
      exact ⟨_, _, rfl⟩
    | some rm =>
      have : err = false := by rw [herr]; rfl
      subst this
      simp only [Bool.false_eq_true, if_false]
      split
      · exact ⟨_, _, rfl⟩
      · exact ⟨_, _, rfl⟩
  · exact ⟨_, _, rfl⟩

/-- A request with a question is always answered, when every nameserver list that can be
selected is non-empty and every upstream reply has a question section: `ServeDNSForward` does
not panic and returns a message. -/
theorem ServeDNSForward_returns (s : Server) (tcp : Bool) (req : Msg) (tr : Trace)
    (q : Question) (qs : List Question) (hq : req.Question = q :: qs)
    (hns : ∀ n, selectNameservers s.config n ≠ [])
    (hW : ∀ t r n c m, s.exchange t r n c = some m → m.Question ≠ []) :
    ∃ m tr1, ServeDNSForward s tcp req tr = .ok m tr1 := by
  cases hr : refuses s.config ((s.CountLabel q.Name : Int) - 1) with
  | true =>
    unfold ServeDNSForward
    rw [hq]
    simp only [hr, if_true]
    exact ⟨_, _, rfl⟩
  | false =>
    unfold ServeDNSForward
    rw [hq]
    simp only [hr, Bool.false_eq_true, if_false]
    obtain ⟨st1, t1, h1⟩ := absoluteStage_returns s req tcp ((s.CountLabel q.Name : Int) - 1)
      ((s.CountLabel q.Name : Int) - 1 ≥ s.config.Ndots)
      { didAbsolute := false, didSearch := false, absoluteRes := none, searchRes := none,
        absoluteErr := false, searchErr := false } tr q qs hq hns
    obtain ⟨n1, ht1, -, -, hcont1⟩ := absoluteStage_ok _ _ _ _ _ _ _ _ _ h1
    rw [h1]
    cases st1 with
    | ret m1 => exact ⟨_, _, rfl⟩
    | cont v1 =>
      dsimp only
      have inv1 : AbsInv req ([] ++ n1) v1 ∧
          (v1.didSearch = true → v1.searchErr = false → v1.searchRes ≠ none) := by
        obtain ⟨a, -, -, hc⟩ := hcont1 v1 rfl
        refine ⟨?_, ?_⟩
        · rcases hc with ⟨-, hv, -⟩ | ⟨-, -, -, -, herr, hex, -⟩
          · rw [hv]; exact AbsInv_init _ _ _ rfl
          · exact AbsInv_lookup req [] n1 v1 herr hex
        · intro h; rw [a] at h; cases h
      obtain ⟨st2, t2, h2⟩ := searchLookup_returns s req tcp
        (s.config.EnableSearch && decide (s.config.SearchDomains.length > 0)) v1 t1 q qs hq hns hW
      obtain ⟨n2, ht2, -, hcont2⟩ := searchLookup_ok _ _ _ _ _ _ _ _ h2
      rw [h2]
      cases st2 with
      | ret m2 => exact ⟨_, _, rfl⟩
      | cont v2 =>
        dsimp only
        have inv2 : AbsInv req (([] ++ n1) ++ n2) v2 ∧
            (v2.didSearch = true → v2.searchErr = false → v2.searchRes ≠ none) := by
          obtain ⟨a, b, c, hc⟩ := hcont2 v2 rfl
          refine ⟨AbsInv_mono req _ n2 v1 v2 inv1.1 a b c, ?_⟩
          rcases hc with ⟨-, hv, -⟩ | ⟨-, -, -, -, hres⟩
          · rw [hv]; exact inv1.2
          · intro _ herr
            obtain ⟨res, hres1, -⟩ := hres herr
            rw [hres1]
            exact Option.some_ne_none _
        obtain ⟨st3, t3, h3⟩ := absoluteStage_returns s req tcp
          ((s.CountLabel q.Name : Int) - 1) (v2.searchErr = false ∧ v2.didAbsolute = false)
          v2 t2 q qs hq hns
        obtain ⟨n3, ht3, -, -, hcont3⟩ := absoluteStage_ok _ _ _ _ _ _ _ _ _ h3
        rw [h3]
        cases st3 with
        | ret m3 => exact ⟨_, _, rfl⟩
        | cont v3 =>
          dsimp only
          have inv3 : AbsInv req ((([] ++ n1) ++ n2) ++ n3) v3 ∧
              (v3.didSearch = true → v3.searchErr = false → v3.searchRes ≠ none) := by
            obtain ⟨a, b, c, hc⟩ := hcont3 v3 rfl
            refine ⟨?_, ?_⟩
            · rcases hc with ⟨-, hv, hn3⟩ | ⟨-, -, -, -, herr, hex, -⟩
              · rw [hv, hn3]
                exact AbsInv_mono req _ [] v2 v2 inv2.1 rfl rfl rfl
              · exact AbsInv_lookup req _ n3 v3 herr hex
            · rw [a, b, c]; exact inv2.2
          have hfb : ∃ m, fallbackReply req v3 = some m := by
            unfold fallbackReply
            split
            · rename_i hc
              obtain ⟨res, hres, -⟩ := inv3.1 hc.1 hc.2
              rw [hres]
              exact ⟨_, rfl⟩
            · split
              · rename_i hc
                cases hres : v3.searchRes with
                | none => exact absurd hres (inv3.2 hc.1 hc.2)
                | some res => exact ⟨_, rfl⟩
              · exact ⟨_, rfl⟩
          obtain ⟨m, hm⟩ := hfb
          rw [hm]
          exact ⟨_, _, rfl⟩

/-! ## Theorems: runs on which every exchange fails -/

/-- The run of `ServeDNSForward` block by block, with the exchanges of each block. -/
theorem ServeDNSForward_run_trace (s : Server) (tcp : Bool) (req : Msg) (tr new : Trace)
    (m : Msg) (q : Question) (qs : List Question) (hq : req.Question = q :: qs)
    (hnr : refuses s.config ((s.CountLabel q.Name : Int) - 1) = false)
    (h : ServeDNSForward s tcp req tr = .ok m (tr ++ new)) :
    ∃ n1 more1 st1, new = n1 ++ more1 ∧
      (if (s.CountLabel q.Name : Int) - 1 ≥ s.config.Ndots then
          absoluteLookup s req tcp ((s.CountLabel q.Name : Int) - 1)
            { didAbsolute := false, didSearch := false, absoluteRes := none, searchRes := none,
              absoluteErr := false, searchErr := false } tr
        else .ok (.cont { didAbsolute := false, didSearch := false, absoluteRes := none,
                          searchRes := none, absoluteErr := false, searchErr := false }) tr) =
        .ok st1 (tr ++ n1) ∧
      ((st1 = .ret m ∧ more1 = []) ∨
       ∃ v1, st1 = .cont v1 ∧ ∃ n2 more2 st2, more1 = n2 ++ more2 ∧
        searchLookup s req tcp
          (s.config.EnableSearch && decide (s.config.SearchDomains.length > 0)) v1 (tr ++ n1) =
          .ok st2 (tr ++ n1 ++ n2) ∧
        ((st2 = .ret m ∧ more2 = []) ∨
         ∃ v2, st2 = .cont v2 ∧ ∃ st3,
          (if v2.searchErr = false ∧ v2.didAbsolute = false then
              absoluteLookup s req tcp ((s.CountLabel q.Name : Int) - 1) v2 (tr ++ n1 ++ n2)
            else .ok (.cont v2) (tr ++ n1 ++ n2)) = .ok st3 (tr ++ n1 ++ n2 ++ more2) ∧
          (st3 = .ret m ∨ ∃ v3, st3 = .cont v3 ∧ fallbackReply req v3 = some m))) := by
  obtain ⟨st1, t1, h1, hrest⟩ := ServeDNSForward_run s tcp req tr _ m q qs hq hnr h
  obtain ⟨n1, ht1, -⟩ := absoluteStage_from_up _ _ _ _ _ _ _ _ _ h1
  subst ht1
  rcases hrest with ⟨hst, htr⟩ | ⟨v1, hst, st2, t2, h2, hrest⟩
  · exact ⟨n1, [], st1, by rw [List.append_nil]; exact List.append_cancel_left htr, h1,
      Or.inl ⟨hst, rfl⟩⟩
  · obtain ⟨n2, ht2, -⟩ := searchLookup_from_up _ _ _ _ _ _ _ _ h2
    subst ht2
    rcases hrest with ⟨hst2, htr⟩ | ⟨v2, hst2, st3, t3, h3, hrest⟩
    · have hnew : new = n1 ++ (n2 ++ []) := by
        apply @List.append_cancel_left _ tr
        rw [htr]
        simp only [List.append_assoc, List.append_nil]
      exact ⟨n1, n2 ++ [], st1, hnew, h1, Or.inr ⟨v1, hst, n2, [], st2, rfl, h2,
        Or.inl ⟨hst2, rfl⟩⟩⟩
    · obtain ⟨n3, ht3, -⟩ := absoluteStage_from_up _ _ _ _ _ _ _ _ _ h3
      subst ht3
      have htr : tr ++ new = tr ++ n1 ++ n2 ++ n3 := by
        rcases hrest with ⟨-, htr⟩ | ⟨v3, -, -, htr⟩ <;> exact htr
      have hnew : new = n1 ++ (n2 ++ n3) := by
        apply @List.append_cancel_left _ tr
        rw [htr]
        simp only [List.append_assoc]
      refine ⟨n1, n2 ++ n3, st1, hnew, h1, Or.inr ⟨v1, hst, n2, n3, st2, rfl, h2,
        Or.inr ⟨v2, hst2, st3, h3, ?_⟩⟩⟩
      rcases hrest with ⟨hst3, -⟩ | ⟨v3, hst3, hfb, -⟩
      · exact Or.inl hst3
      · exact Or.inr ⟨v3, hst3, hfb⟩

theorem searchLoop_all_suffix (s : Server) (name : String) (tcp : Bool) (ds : List String)
    (v : SearchVars) (tr : Trace) (h : ∀ d ∈ ds, HasSuffix name d = true) :
    searchLoop s name tcp ds v tr = .ok v tr := by
  induction ds with
  | nil => rfl
  | cons d rest ih =>
    rw [searchLoop, if_pos (h d (List.mem_cons_self _ _))]
    exact ih (fun d1 hd1 => h d1 (List.mem_cons_of_mem _ hd1))

/-- A run of `forwardSearch` on which every exchange fails: either every search domain is a
suffix of the qname, nothing is exchanged and NXDOMAIN is returned without error; or some
search domain is not a suffix and the error of the first lookup is returned. -/
theorem forwardSearch_allfail (s : Server) (req : Msg) (tcp : Bool) (tr new : Trace)
    (r : Option Msg) (err : Bool) (q : Question) (qs : List Question)
    (hq : req.Question = q :: qs)
    (h : forwardSearch s req tcp tr = .ok (r, err) (tr ++ new))
    (hall : ∀ e ∈ new, e.reply = none) :
    ((∀ d ∈ s.config.SearchDomains, HasSuffix q.Name d = true) ∧ new = [] ∧
      r = some (SetRcode newMsg req RcodeNameError) ∧ err = false) ∨
    ((¬ ∀ d ∈ s.config.SearchDomains, HasSuffix q.Name d = true) ∧ new ≠ [] ∧ err = true) := by
  obtain ⟨q0, qs0, v1, hq0, hloop, hc⟩ := forwardSearch_cases s req tcp tr _ _ _ h
  rw [hq] at hq0
  injection hq0 with hq1 _
  subst hq1
  obtain ⟨new1, htr, p1, p2, p3⟩ := searchLoop_ok s _ tcp _ _ _ _ _ hloop
  have hnew : new = new1 := List.append_cancel_left htr
  subst hnew
  by_cases hnil : new = []
  · obtain ⟨hv, hsuf⟩ := p1 hnil
    have hds : v1.didSearch = false := by rw [hv]
    rcases hc with ⟨-, hr, herr⟩ | ⟨hd, -⟩ | ⟨hd, -⟩ | ⟨hd, -⟩
    · exact Or.inl ⟨hsuf, hnil, hr, herr⟩
    · rw [hds] at hd; cases hd
    · rw [hds] at hd; cases hd
    · rw [hds] at hd; cases hd
  · obtain ⟨hds, e, he, hr, herr, -⟩ := p2 hnil
    have hnone : e.reply = none := hall e (List.mem_of_getLast?_eq_some he)
    have herr1 : v1.err = true := by rw [herr, hnone]; rfl
    have hnsuf : ¬ ∀ d ∈ s.config.SearchDomains, HasSuffix q.Name d = true := by
      intro hsuf
      have := searchLoop_all_suffix s q.Name tcp s.config.SearchDomains
        { r := none, nodata := none, searchName := "", err := false, didSearch := false,
          reqCopy := req } tr hsuf
      rw [this] at hloop
      injection hloop with _ htr2
      have h3 : tr ++ [] = tr ++ new := by rw [List.append_nil]; exact htr2
      exact hnil (List.append_cancel_left h3).symm
    have hnd : v1.nodata = none := by
      rcases p3 with p3 | ⟨e1, he1, nd, h1, -⟩
      · exact p3
      · rw [hall e1 he1] at h1; cases h1
    rcases hc with ⟨hd, -⟩ | ⟨-, hf, -⟩ | ⟨-, -, -, nd, -, hnd1, -⟩ | ⟨-, -, herr2, -, -⟩
    · rw [hds] at hd; cases hd
    · rw [herr1] at hf; cases hf
    · rw [hnd] at hnd1; cases hnd1
    · exact Or.inr ⟨hnsuf, hnil, herr2⟩

/-- The absolute-lookup block on a run on which every exchange fails never returns a
message; either it makes no lookup, or it records a failed absolute lookup. -/
theorem absoluteStage_allfail (s : Server) (req : Msg) (tcp : Bool) (nameDots : Int)
    (c : Prop) [Decidable c] (v : FwdVars) (tr new : Trace) (step : Step)
    (h : (if c then absoluteLookup s req tcp nameDots v tr else .ok (.cont v) tr) =
      .ok step (tr ++ new))
    (hall : ∀ e ∈ new, e.reply = none) :
    ∃ v1, step = .cont v1 ∧ v1.didSearch = v.didSearch ∧ v1.searchRes = v.searchRes ∧
      v1.searchErr = v.searchErr ∧
      (((¬ c ∨ nameDots < s.config.FwdNdots) ∧ v1 = v ∧ new = []) ∨
       (c ∧ nameDots ≥ s.config.FwdNdots ∧ v1.didAbsolute = true ∧ v1.absoluteErr = true)) := by
  obtain ⟨n, htr, -, hret, hcont⟩ := absoluteStage_ok _ _ _ _ _ _ _ _ _ h
  have hn : new = n := List.append_cancel_left htr
  subst hn
  cases step with
  | ret m =>
    obtain ⟨res, -, -, e, he, -, hrep⟩ := hret m rfl
    rw [hall e he] at hrep
    cases hrep
  | cont v1 =>
    obtain ⟨a, b, c1, hc⟩ := hcont v1 rfl
    refine ⟨v1, rfl, a, b, c1, ?_⟩
    rcases hc with hc | ⟨h1, h2, -, h3, herr, ⟨e, he, -, hrep⟩, -⟩
    · exact Or.inl hc
    · refine Or.inr ⟨h1, h2, h3, ?_⟩
      rw [herr, ← hrep, hall e he]
      rfl

/-- The search block on a run on which every exchange fails never returns a message. -/
theorem searchLookup_allfail (s : Server) (req : Msg) (tcp : Bool) (searchEnabled : Bool)
    (v : FwdVars) (tr new : Trace) (step : Step) (q : Question) (qs : List Question)
    (hq : req.Question = q :: qs)
    (h : searchLookup s req tcp searchEnabled v tr = .ok step (tr ++ new))
    (hall : ∀ e ∈ new, e.reply = none) :
    ∃ v1, step = .cont v1 ∧ v1.didAbsolute = v.didAbsolute ∧ v1.absoluteRes = v.absoluteRes ∧
      v1.absoluteErr = v.absoluteErr ∧
      ((¬ (v.absoluteErr = false ∧ searchEnabled = true) ∧ v1 = v ∧ new = []) ∨
       (v.absoluteErr = false ∧ searchEnabled = true ∧ v1.didSearch = true ∧
        (((∀ d ∈ s.config.SearchDomains, HasSuffix q.Name d = true) ∧ new = [] ∧
          v1.searchErr = false ∧
          v1.searchRes = some (SetRcode newMsg req RcodeNameError)) ∨
         ((¬ ∀ d ∈ s.config.SearchDomains, HasSuffix q.Name d = true) ∧
          v1.searchErr = true)))) := by
  obtain ⟨n, htr, hret, hcont⟩ := searchLookup_ok _ _ _ _ _ _ _ _ h
  have hn : new = n := List.append_cancel_left htr
  subst hn
  cases step with
  | ret m =>
    obtain ⟨res, hfs, -, hsucc⟩ := hret m rfl
    rcases forwardSearch_allfail s req tcp tr new _ _ q qs hq hfs hall with
      ⟨-, -, hr, -⟩ | ⟨-, -, herr⟩
    · injection hr with hr
      rw [hr, SetRcode_Rcode] at hsucc
      cases hsucc
    · cases herr
  | cont v1 =>
    obtain ⟨a, b, c1, hc⟩ := hcont v1 rfl
    refine ⟨v1, rfl, a, b, c1, ?_⟩
    rcases hc with hc | ⟨h1, h2, h3, hfs, -⟩
    · exact Or.inl hc
    · refine Or.inr ⟨h1, h2, h3, ?_⟩
      rcases forwardSearch_allfail s req tcp tr new _ _ q qs hq hfs hall with
        ⟨hsuf, hnil, hr, herr⟩ | ⟨hnsuf, -, herr⟩
      · exact Or.inl ⟨hsuf, hnil, herr, hr⟩
      · exact Or.inr ⟨hnsuf, herr⟩

theorem fallbackReply_Rcode_servfail (req : Msg) (v : FwdVars) (m : Msg)
    (hA : v.didAbsolute = true → v.absoluteErr = true)
    (hS : v.didSearch = true → v.searchErr = true)
    (h : fallbackReply req v = some m) : m.Rcode = RcodeServerFailure := by
  unfold fallbackReply at h
  split at h
  · rename_i hc
    rw [hA hc.1] at hc
    cases hc.2
  · split at h
    · rename_i hc
      rw [hS hc.1] at hc
      cases hc.2
    · injection h with h
      rw [← h]
      rfl

theorem fallbackReply_Rcode_search (req : Msg) (v : FwdVars) (m res : Msg)
    (hA : v.didAbsolute = true → v.absoluteErr = true)
    (hd : v.didSearch = true) (he : v.searchErr = false) (hres : v.searchRes = some res)
    (h : fallbackReply req v = some m) : m.Rcode = res.Rcode := by
  unfold fallbackReply at h
  split at h
  · rename_i hc
    rw [hA hc.1] at hc
    cases hc.2
  · rw [if_pos ⟨hd, he⟩, hres] at h
    injection h with h
    rw [← h]
    rfl

theorem refuses_false_nameservers (c : Config) (nameDots : Int)
    (h : refuses c nameDots = false) : c.Nameservers ≠ [] := by
  intro hnil
  unfold refuses at h
  rw [hnil] at h
  simp at h

theorem searchEnabled_iff (c : Config) :
    (c.EnableSearch && decide (c.SearchDomains.length > 0)) = true ↔
      c.EnableSearch = true ∧ c.SearchDomains ≠ [] := by
  simp [List.length_pos]

/-- C4 (as amended): a request that is not refused, served by a run on which every exchange
fails with a transport error. The reply is SERVFAIL, except when the search lookup runs
(search enabled with a search domain configured, and no initial absolute lookup because the
name has fewer dots than `ndots` or than `fwd-ndots`) and every search domain is already a
suffix of the qname: then `forwardSearch` exchanges nothing and reports NXDOMAIN, and the
reply is NXDOMAIN. Such a run exists: when no stub zone has an empty server list and the
upstream fails every exchange, `ServeDNSForward` returns a message. -/
theorem ServeDNSForward_all_exchanges_fail (s : Server) (tcp : Bool) (req : Msg) (tr : Trace)
    (q : Question) (qs : List Question) (hq : req.Question = q :: qs)
    (hnr : refuses s.config ((s.CountLabel q.Name : Int) - 1) = false) :
    (∀ m new, ServeDNSForward s tcp req tr = .ok m (tr ++ new) →
      (∀ e ∈ new, e.reply = none) →
      ((s.config.EnableSearch = true ∧ s.config.SearchDomains ≠ [] ∧
          ¬ ((s.CountLabel q.Name : Int) - 1 ≥ s.config.Ndots ∧
             (s.CountLabel q.Name : Int) - 1 ≥ s.config.FwdNdots) ∧
          (∀ d ∈ s.config.SearchDomains, HasSuffix q.Name d = true)) →
        m.Rcode = RcodeNameError) ∧
      (¬ (s.config.EnableSearch = true ∧ s.config.SearchDomains ≠ [] ∧
          ¬ ((s.CountLabel q.Name : Int) - 1 ≥ s.config.Ndots ∧
             (s.CountLabel q.Name : Int) - 1 ≥ s.config.FwdNdots) ∧
          (∀ d ∈ s.config.SearchDomains, HasSuffix q.Name d = true)) →
        m.Rcode = RcodeServerFailure)) ∧
    ((∀ z srv, (z, srv) ∈ s.config.Stub → srv ≠ []) →
      (∀ t r n c, s.exchange t r n c = none) →
      ∃ m new, ServeDNSForward s tcp req tr = .ok m (tr ++ new) ∧
        ∀ e ∈ new, e.reply = none) := by
  constructor
  · intro m new h hall
    obtain ⟨n1, more1, st1, hnew, h1, hrest⟩ :=
      ServeDNSForward_run_trace s tcp req tr new m q qs hq hnr h
    have hall1 : ∀ e ∈ n1, e.reply = none :=
      fun e he => hall e (by rw [hnew]; exact List.mem_append_left _ he)
    obtain ⟨v1, hst1, a1, -, c1, hc1⟩ := absoluteStage_allfail _ _ _ _ _ _ _ _ _ h1 hall1
    rcases hrest with ⟨hst, -⟩ | ⟨v1b, hst, n2, more2, st2, hmore1, h2, hrest⟩
    · rw [hst1] at hst; cases hst
    rw [hst1] at hst
    injection hst with hst
    subst hst
    have hall2 : ∀ e ∈ n2, e.reply = none :=
      fun e he => hall e (by
        rw [hnew, hmore1]
        exact List.mem_append_right _ (List.mem_append_left _ he))
    obtain ⟨v2, hst2, a2, -, c2, hc2⟩ :=
      searchLookup_allfail _ _ _ _ _ _ _ _ q qs hq h2 hall2
    rcases hrest with ⟨hst, -⟩ | ⟨v2b, hst, st3, h3, hrest⟩
    · rw [hst2] at hst; cases hst
    rw [hst2] at hst
    injection hst with hst
    subst hst
    have hall3 : ∀ e ∈ more2, e.reply = none :=
      fun e he => hall e (by
        rw [hnew, hmore1]
        exact List.mem_append_right _ (List.mem_append_right _ he))
    obtain ⟨v3, hst3, a3, b3, c3, hc3⟩ := absoluteStage_allfail _ _ _ _ _ _ _ _ _ h3 hall3
    rcases hrest with hst | ⟨v3b, hst, hfb⟩
    · rw [hst3] at hst; cases hst
    rw [hst3] at hst
    injection hst with hst
    subst hst
    -- the absolute lookups that were made have failed
    have hA1 : v1.didAbsolute = true → v1.absoluteErr = true := by
      rcases hc1 with ⟨-, hv, -⟩ | ⟨-, -, -, he⟩
      · intro hd; rw [hv] at hd; cases hd
      · exact fun _ => he
    have hA3 : v3.didAbsolute = true → v3.absoluteErr = true := by
      rcases hc3 with ⟨-, hv, -⟩ | ⟨-, -, -, he⟩
      · rw [hv, a2, c2]; exact hA1
      · exact fun _ => he
    -- whether the initial absolute lookup was made
    have hinit : v1.absoluteErr = false ↔
        ¬ ((s.CountLabel q.Name : Int) - 1 ≥ s.config.Ndots ∧
           (s.CountLabel q.Name : Int) - 1 ≥ s.config.FwdNdots) := by
      rcases hc1 with ⟨hno, hv, -⟩ | ⟨hx, hy, -, he⟩
      · constructor
        · intro _ hboth
          rcases hno with hno | hno
          · exact hno hboth.1
          · exact absurd hboth.2 (not_le.mpr hno)
        · intro _; rw [hv]
      · constructor
        · intro hf; rw [he] at hf; cases hf
        · intro hno; exact absurd ⟨hx, hy⟩ hno
    have key : ((s.config.EnableSearch = true ∧ s.config.SearchDomains ≠ [] ∧
          ¬ ((s.CountLabel q.Name : Int) - 1 ≥ s.config.Ndots ∧
             (s.CountLabel q.Name : Int) - 1 ≥ s.config.FwdNdots) ∧
          (∀ d ∈ s.config.SearchDomains, HasSuffix q.Name d = true)) ∧
          m.Rcode = RcodeNameError) ∨
        (¬ (s.config.EnableSearch = true ∧ s.config.SearchDomains ≠ [] ∧
          ¬ ((s.CountLabel q.Name : Int) - 1 ≥ s.config.Ndots ∧
             (s.CountLabel q.Name : Int) - 1 ≥ s.config.FwdNdots) ∧
          (∀ d ∈ s.config.SearchDomains, HasSuffix q.Name d = true)) ∧
          m.Rcode = RcodeServerFailure) := by
      rcases hc2 with ⟨hno, hv, -⟩ | ⟨hf, hse, hds, hcase⟩
      · right
        constructor
        · rintro ⟨x1, x2, x3, -⟩
          exact hno ⟨hinit.mpr x3, (searchEnabled_iff _).mpr ⟨x1, x2⟩⟩
        · apply fallbackReply_Rcode_servfail req v3 m hA3 _ hfb
          intro hd
          rw [a3, hv, a1] at hd
          cases hd
      · rcases hcase with ⟨hsuf, -, herr, hres⟩ | ⟨hnsuf, herr⟩
        · left
          obtain ⟨x1, x2⟩ := (searchEnabled_iff _).mp hse
          refine ⟨⟨x1, x2, hinit.mp hf, hsuf⟩, ?_⟩
          have := fallbackReply_Rcode_search req v3 m _ hA3 (by rw [a3]; exact hds)
            (by rw [c3]; exact herr) (by rw [b3]; exact hres) hfb
          rw [this]
          rfl
        · right
          constructor
          · rintro ⟨-, -, -, x4⟩
            exact hnsuf x4
          · apply fallbackReply_Rcode_servfail req v3 m hA3 _ hfb
            intro _
            rw [c3]
            exact herr
    rcases key with ⟨hs, hrc⟩ | ⟨hs, hrc⟩
    · exact ⟨fun _ => hrc, fun hn => absurd hs hn⟩
    · exact ⟨fun hp => absurd hp hs, fun _ => hrc⟩
  · intro hstub hfail
    have hns : ∀ n, selectNameservers s.config n ≠ [] :=
      fun n => selectNameservers_ne_nil _ n (refuses_false_nameservers _ _ hnr) hstub
    have hW : ∀ t r n c m, s.exchange t r n c = some m → m.Question ≠ [] := by
      intro t r n c m hm
      rw [hfail] at hm
      cases hm
    obtain ⟨m, tr1, h⟩ := ServeDNSForward_returns s tcp req tr q qs hq hns hW
    obtain ⟨new, htr, hup⟩ := ServeDNSForward_from_up s tcp req tr tr1 m h
    subst htr
    refine ⟨m, new, h, ?_⟩
    intro e he
    obtain ⟨t, ht⟩ := hup e he
    rw [ht]
    exact hfail _ _ _ _

/-- Counterexample to C4 as stated: search is enabled with the single domain `corp.test.`,
which is a suffix of the qname `host.corp.test.`, and `ndots` is 5. The request is not
refused, the two exchanges of the absolute lookup both fail, and the reply is NXDOMAIN, not
SERVFAIL. -/
theorem ServeDNSForward_all_exchanges_fail_counterexample :
    ∃ m new,
      ServeDNSForward (exServer searchCorp upFail) false (exReq ⟨"host.corp.test.", 1, 1⟩) [] =
        .ok m new ∧
      refuses searchCorp ((libCountLabel "host.corp.test." : Int) - 1) = false ∧
      new.length = 2 ∧ (∀ e ∈ new, e.reply = none) ∧
      m.Rcode = RcodeNameError ∧ m.Rcode ≠ RcodeServerFailure :=
  ⟨_, _, rfl, by decide, rfl, by decide, rfl, by decide⟩

/-- Witness of C4 (as amended): two nameservers, no search, every exchange fails; the query
for `example.com.` is answered SERVFAIL. -/
theorem ServeDNSForward_all_exchanges_fail_witness :
    ∃ m new,
      ServeDNSForward (exServer twoServers upFail) false (exReq ⟨"example.com.", 1, 1⟩) [] =
        .ok m ([] ++ new) ∧
      (∀ e ∈ new, e.reply = none) ∧ m.Rcode = RcodeServerFailure := by
  have hnr : refuses (exServer twoServers upFail).config
      (((exServer twoServers upFail).CountLabel (⟨"example.com.", 1, 1⟩ : Question).Name : Int)
        - 1) = false := by decide
  have hthm := ServeDNSForward_all_exchanges_fail (exServer twoServers upFail) false
    (exReq ⟨"example.com.", 1, 1⟩) [] ⟨"example.com.", 1, 1⟩ [] rfl hnr
  obtain ⟨m, new, h, hall⟩ := hthm.2 (by intro z srv hm; cases hm) (fun _ _ _ _ => rfl)
  refine ⟨m, new, h, hall, ((hthm.1 m new h hall).2 ?_)⟩
  rintro ⟨hen, -⟩
  cases hen

/-! ## Theorems: stub zones -/

theorem stubLookup_some (name : String) (l : List (String × List String)) (srv : List String)
    (h : stubLookup name l = some srv) :
    ∃ pre z post, l = pre ++ (z, srv) :: post ∧ HasSuffix name z = true ∧
      ∀ p ∈ pre, HasSuffix name p.1 = false := by
  induction l with
  | nil => cases h
  | cons p rest ih =>
    obtain ⟨z, srv0⟩ := p
    simp only [stubLookup] at h
    split at h
    · rename_i hz
      injection h with h
      subst h
      exact ⟨[], z, rest, rfl, hz, by simp⟩
    · rename_i hz
      obtain ⟨pre, z1, post, hl, hz1, hpre⟩ := ih h
      refine ⟨(z, srv0) :: pre, z1, post, by rw [hl]; rfl, hz1, ?_⟩
      intro p hp
      rcases List.mem_cons.mp hp with rfl | hp
      · simpa using hz
      · exact hpre p hp

theorem stubLookup_none (name : String) (l : List (String × List String))
    (h : stubLookup name l = none) : ∀ p ∈ l, HasSuffix name p.1 = false := by
  induction l with
  | nil => simp
  | cons p rest ih =>
    obtain ⟨z, srv0⟩ := p
    simp only [stubLookup] at h
    split at h
    · cases h
    · rename_i hz
      intro p hp
      rcases List.mem_cons.mp hp with rfl | hp
      · simpa using hz
      · exact ih h p hp

theorem stubLookup_first (name : String) (pre post : List (String × List String)) (z : String)
    (srv : List String) (hpre : ∀ p ∈ pre, HasSuffix name p.1 = false)
    (hz : HasSuffix name z = true) : stubLookup name (pre ++ (z, srv) :: post) = some srv := by
  induction pre with
  | nil => simp [stubLookup, hz]
  | cons p rest ih =>
    obtain ⟨z0, srv0⟩ := p
    have h0 : HasSuffix name z0 = false := hpre (z0, srv0) (List.mem_cons_self _ _)
    simp only [List.cons_append, stubLookup, h0, Bool.false_eq_true, if_false]
    exact ih (fun p hp => hpre p (List.mem_cons_of_mem _ hp))

/-- C6 (as amended): stub zones are matched by `strings.HasSuffix` on the qname as received,
that is by plain, case-sensitive string suffix. Whenever `forwardQuery` returns, it has
exchanged the query one or more times, and either every exchange went to a server of the
list of one stub zone that is a string suffix of the qname, or no stub zone is a string suffix
of the qname and every exchange went to a default nameserver. -/
theorem forwardQuery_stub_by_string_suffix (s : Server) (req : Msg) (tcp : Bool)
    (tr tr1 : Trace) (res : Option Msg × Bool) (q : Question) (qs : List Question)
    (hq : req.Question = q :: qs) (h : forwardQuery s req tcp tr = .ok res tr1) :
    ∃ new, tr1 = tr ++ new ∧ new ≠ [] ∧
      ((∃ z srv, (z, srv) ∈ s.config.Stub ∧ HasSuffix q.Name z = true ∧
          ∀ e ∈ new, e.server ∈ srv) ∨
       ((∀ z srv, (z, srv) ∈ s.config.Stub → HasSuffix q.Name z = false) ∧
          ∀ e ∈ new, e.server ∈ s.config.Nameservers)) := by
  obtain ⟨r, err⟩ := res
  obtain ⟨q0, qs0, new, hq0, htr, hne, hall, -⟩ := forwardQuery_ok s req tcp tr tr1 r err h
  rw [hq] at hq0
  injection hq0 with hq1 _
  subst hq1
  refine ⟨new, htr, hne, ?_⟩
  cases hl : stubLookup q.Name s.config.Stub with
  | none =>
    right
    refine ⟨fun z srv hm => stubLookup_none _ _ hl (z, srv) hm, ?_⟩
    intro e he
    have := (hall e he).2
    unfold selectNameservers at this
    rw [hl] at this
    exact this
  | some srv =>
    left
    obtain ⟨pre, z, post, hstub, hz, -⟩ := stubLookup_some _ _ _ hl
    refine ⟨z, srv, by rw [hstub]; simp, hz, ?_⟩
    intro e he
    have := (hall e he).2
    unfold selectNameservers at this
    rw [hl] at this
    exact this

/-- Counterexample to C6 as stated: with the stub zone `example.com.`, the query for
`badexample.com.`, which does not match the zone at a label boundary, is exchanged with the
nameserver of the zone; and the query for `X.EXAMPLE.COM.`, which matches the zone when case
is ignored, is exchanged with the default nameserver. -/
theorem forwardQuery_stub_counterexample :
    specZoneMatch "badexample.com." "example.com." = false ∧
    (∃ r, forwardQuery (exServer stubExampleCom (upEcho RcodeSuccess [exA]))
        (exReq ⟨"badexample.com.", 1, 1⟩) false [] =
      .ok (some r, false) [⟨exReq ⟨"badexample.com.", 1, 1⟩, "10.9.9.9:53", false, some r⟩]) ∧
    specZoneMatch "X.EXAMPLE.COM." "example.com." = true ∧
    (∃ r, forwardQuery (exServer stubExampleCom (upEcho RcodeSuccess [exA]))
        (exReq ⟨"X.EXAMPLE.COM.", 1, 1⟩) false [] =
      .ok (some r, false) [⟨exReq ⟨"X.EXAMPLE.COM.", 1, 1⟩, "10.0.0.1:53", false, some r⟩]) :=
  ⟨by decide, ⟨_, rfl⟩, by decide, ⟨_, rfl⟩⟩

/-- Witness of C6 (as amended): the query for `x.example.com.` goes to the nameserver of the
stub zone `example.com.`, a string suffix of the qname. -/
theorem forwardQuery_stub_by_string_suffix_witness :
    ∃ res tr1 new,
      forwardQuery (exServer stubExampleCom (upEcho RcodeSuccess [exA]))
        (exReq ⟨"x.example.com.", 1, 1⟩) false [] = .ok res tr1 ∧
      tr1 = [] ++ new ∧ new ≠ [] ∧
      ((∃ z srv, (z, srv) ∈ stubExampleCom.Stub ∧ HasSuffix "x.example.com." z = true ∧
          ∀ e ∈ new, e.server ∈ srv) ∨
       ((∀ z srv, (z, srv) ∈ stubExampleCom.Stub → HasSuffix "x.example.com." z = false) ∧
          ∀ e ∈ new, e.server ∈ stubExampleCom.Nameservers)) := by
  have hf : ∃ res tr1,
      forwardQuery (exServer stubExampleCom (upEcho RcodeSuccess [exA]))
        (exReq ⟨"x.example.com.", 1, 1⟩) false [] = .ok res tr1 := ⟨_, _, rfl⟩
  obtain ⟨res, tr1, h⟩ := hf
  obtain ⟨new, h1, h2, h3⟩ :=
    forwardQuery_stub_by_string_suffix (exServer stubExampleCom (upEcho RcodeSuccess [exA]))
      (exReq ⟨"x.example.com.", 1, 1⟩) false [] tr1 res ⟨"x.example.com.", 1, 1⟩ [] rfl h
  exact ⟨res, tr1, new, h, h1, h2, h3⟩

/-- C7 (as amended): when several stub zones are suffixes of the qname, `forwardQuery` uses
the list of the one that the loop over the map visits first. If the entries are visited in
the order `pre`, then `(z, srv)`, then `post`, no zone of `pre` is a suffix of the qname, `z`
is one and `srv` is not empty, then `forwardQuery` returns after one or two exchanges, every
one of them with a server of `srv`. In particular the list of the longest matching zone is
used when that zone is visited before the other matching zones. -/
theorem forwardQuery_stub_first_visited (s : Server) (req : Msg) (tcp : Bool) (tr : Trace)
    (q : Question) (qs : List Question) (pre post : List (String × List String)) (z : String)
    (srv : List String) (hq : req.Question = q :: qs)
    (hstub : s.config.Stub = pre ++ (z, srv) :: post)
    (hpre : ∀ p ∈ pre, HasSuffix q.Name p.1 = false) (hz : HasSuffix q.Name z = true)
    (hsrv : srv ≠ []) :
    ∃ res new, forwardQuery s req tcp tr = .ok res (tr ++ new) ∧ new ≠ [] ∧
      ∀ e ∈ new, e.server ∈ srv := by
  have hsel : selectNameservers s.config q.Name = srv := by
    unfold selectNameservers
    rw [hstub, stubLookup_first _ _ _ _ _ hpre hz]
  obtain ⟨r, err, tr1, h⟩ := forwardQuery_returns s req tcp tr q qs hq (by rw [hsel]; exact hsrv)
  obtain ⟨q0, qs0, new, hq0, htr, hne, hall, -⟩ := forwardQuery_ok s req tcp tr tr1 r err h
  rw [hq] at hq0
  injection hq0 with hq1 _
  subst hq1
  subst htr
  refine ⟨_, new, h, hne, ?_⟩
  intro e he
  have := (hall e he).2
  rw [hsel] at this
  exact this

/-- Counterexample to C7 as stated: the zones `example.` and `corp.example.` are both
suffixes of `db.corp.example.`, the second being the longer; when the map is visited in the
order `example.`, `corp.example.`, the query is exchanged with the nameserver of `example.`,
which is not a nameserver of `corp.example.`. -/
theorem forwardQuery_stub_longest_counterexample :
    HasSuffix "db.corp.example." "example." = true ∧
    HasSuffix "db.corp.example." "corp.example." = true ∧
    "example.".length < "corp.example.".length ∧
    stubTwoZones.Stub = [("example.", ["10.0.0.2:53"]), ("corp.example.", ["10.0.0.1:53"])] ∧
    "10.0.0.2:53" ∉ ["10.0.0.1:53"] ∧
    (∃ r, forwardQuery (exServer stubTwoZones (upEcho RcodeSuccess [exA]))
        (exReq ⟨"db.corp.example.", 28, 1⟩) false [] =
      .ok (some r, false) [⟨exReq ⟨"db.corp.example.", 28, 1⟩, "10.0.0.2:53", false, some r⟩]) :=
  ⟨by decide, by decide, by decide, rfl, by decide, ⟨_, rfl⟩⟩

/-- Witness of C7 (as amended): with the zones visited in the order `example.`,
`corp.example.`, the query for `db.corp.example.` is exchanged with the server of
`example.`, the first visited zone that is a suffix of the qname. -/
theorem forwardQuery_stub_first_visited_witness :
    ∃ res new,
      forwardQuery (exServer stubTwoZones (upEcho RcodeSuccess [exA]))
        (exReq ⟨"db.corp.example.", 28, 1⟩) false [] = .ok res ([] ++ new) ∧ new ≠ [] ∧
      ∀ e ∈ new, e.server ∈ ["10.0.0.2:53"] :=
  forwardQuery_stub_first_visited (exServer stubTwoZones (upEcho RcodeSuccess [exA]))
    (exReq ⟨"db.corp.example.", 28, 1⟩) false [] ⟨"db.corp.example.", 28, 1⟩ [] []
    [("corp.example.", ["10.0.0.1:53"])] "example." ["10.0.0.2:53"] rfl rfl
    (by intro p hp; cases hp) (by decide) (by decide)

/-! ## Theorems: the synthetic CNAME of `forwardSearch` -/

/-- After the search loop, `searchName` is untouched and no search was added, or it is the
lower-cased expansion of the name with a search domain that is not a suffix of the name. -/
theorem searchLoop_searchName (s : Server) (name : String) (tcp : Bool) (ds : List String) :
    ∀ (v : SearchVars) (tr : Trace) (v1 : SearchVars) (tr1 : Trace),
      searchLoop s name tcp ds v tr = .ok v1 tr1 →
      (v1.searchName = v.searchName ∧ v1.didSearch = v.didSearch) ∨
      ∃ d ∈ ds, HasSuffix name d = false ∧
        v1.searchName = ToLower (s.appendDomain name d) := by
  induction ds with
  | nil =>
    intro v tr v1 tr1 h
    simp only [searchLoop] at h
    injection h with h1 _
    subst h1
    exact Or.inl ⟨rfl, rfl⟩
  | cons d rest ih =>
    intro v tr v1 tr1 h
    rw [searchLoop] at h
    split at h
    · rcases ih v tr v1 tr1 h with h1 | ⟨d1, hd1, h2, h3⟩
      · exact Or.inl h1
      · exact Or.inr ⟨d1, List.mem_cons_of_mem _ hd1, h2, h3⟩
    · rename_i hsuf
      have hsuf1 : HasSuffix name d = false := by simpa using hsuf
      dsimp only at h
      split at h
      · cases h
      · split at h
        · cases h
        · rename_i r err tr2 hfq
          have stop : ∀ v2 : SearchVars, v2.searchName = ToLower (s.appendDomain name d) →
              Res.ok v2 tr2 = Res.ok v1 tr1 →
              ∃ d1 ∈ d :: rest, HasSuffix name d1 = false ∧
                v1.searchName = ToLower (s.appendDomain name d1) := by
            intro v2 hsn h2
            injection h2 with h2 _
            subst h2
            exact ⟨d, List.mem_cons_self _ _, hsuf1, hsn⟩
          have continue_ : ∀ v2 : SearchVars,
              v2.searchName = ToLower (s.appendDomain name d) →
              searchLoop s name tcp rest v2 tr2 = Res.ok v1 tr1 →
              ∃ d1 ∈ d :: rest, HasSuffix name d1 = false ∧
                v1.searchName = ToLower (s.appendDomain name d1) := by
            intro v2 hsn h2
            rcases ih v2 tr2 v1 tr1 h2 with ⟨h3, -⟩ | ⟨d1, hd1, h3, h4⟩
            · exact ⟨d, List.mem_cons_self _ _, hsuf1, by rw [h3, hsn]⟩
            · exact ⟨d1, List.mem_cons_of_mem _ hd1, h3, h4⟩
          right
          split at h
          · exact stop _ rfl h
          · split at h
            · cases h
            · split at h
              · split at h
                · exact continue_ _ rfl h
                · exact stop _ rfl h
              · split at h
                · exact continue_ _ rfl h
                · exact stop _ rfl h

/-- C8: when `forwardSearch` returns and the last exchange it made got a reply `r` with
rcode SUCCESS and a non-empty answer section, then that exchange asked for the lower-cased
expansion `qe.Name` of the client's qname with a configured search domain that is not a
suffix of the qname, and the reply returned, without error, has as answer section the CNAME
record (owner: the client's original qname, class IN, TTL 360, target: `qe.Name`) followed
by the answers of `r` in their order, and has the client's original question as its first
question. -/
theorem forwardSearch_cname (s : Server) (req : Msg) (tcp : Bool) (tr new : Trace)
    (res : Option Msg) (err : Bool) (q : Question) (qs : List Question) (e : Exchanged)
    (r : Msg) (hq : req.Question = q :: qs)
    (h : forwardSearch s req tcp tr = .ok (res, err) (tr ++ new))
    (hlast : new.getLast? = some e) (hrep : e.reply = some r)
    (hsucc : r.Rcode = RcodeSuccess) (hans : r.Answer ≠ []) :
    ∃ qe d m, e.req.Question.head? = some qe ∧ d ∈ s.config.SearchDomains ∧
      HasSuffix q.Name d = false ∧ qe.Name = ToLower (s.appendDomain q.Name d) ∧
      err = false ∧ res = some m ∧
      m.Answer = RR.CNAME ⟨q.Name, TypeCNAME, ClassINET, 360⟩ qe.Name :: r.Answer ∧
      m.Question.head? = some q := by
  obtain ⟨q0, qs0, v1, hq0, hloop, hc⟩ := forwardSearch_cases s req tcp tr _ _ _ h
  rw [hq] at hq0
  injection hq0 with hq1 _
  subst hq1
  obtain ⟨new1, htr, -, p2, -⟩ := searchLoop_ok s _ tcp _ _ _ _ _ hloop
  have hnew : new = new1 := List.append_cancel_left htr
  subst hnew
  have hne : new ≠ [] := by
    intro hnil
    rw [hnil] at hlast
    cases hlast
  obtain ⟨hds, e1, he1, hr, herr, qe, hqe, hname⟩ := p2 hne
  rw [hlast] at he1
  injection he1 with he1
  subst he1
  rw [hrep] at hr herr
  have herr1 : v1.err = false := herr
  obtain ⟨d, hd, hsuf, hsn⟩ : ∃ d ∈ s.config.SearchDomains, HasSuffix q.Name d = false ∧
      v1.searchName = ToLower (s.appendDomain q.Name d) := by
    rcases searchLoop_searchName s _ tcp _ _ _ _ _ hloop with ⟨-, h2⟩ | h2
    · rw [hds] at h2; cases h2
    · exact h2
  rcases hc with ⟨hd1, -⟩ | ⟨-, -, herr2, rm, r2, hrm, hres, hset⟩ | ⟨-, hf, -⟩ | ⟨-, hf, -⟩
  · rw [hds] at hd1; cases hd1
  · rw [hr] at hrm
    injection hrm with hrm
    subst hrm
    have hlen : r.Answer.length > 0 := List.length_pos.mpr hans
    rw [if_pos hsucc, if_pos hlen] at hset
    obtain ⟨s1, -, s3, -⟩ := setQuestion0_some _ _ _ hset
    refine ⟨qe, d, r2, hqe, hd, hsuf, by rw [hname, hsn], herr2, hres, ?_, s1⟩
    rw [s3, hname]
  · rw [herr1] at hf; cases hf
  · rw [herr1] at hf; cases hf

/-- Witness of C8: search domain `corp.test.`, qname `wiki.`; the upstream answers the query
for `wiki.corp.test.` with one address record; `forwardSearch` returns the CNAME from `wiki.`
to `wiki.corp.test.` followed by the address record, under the question `wiki.`. -/
theorem forwardSearch_cname_witness :
    ∃ m new,
      forwardSearch (exServer searchCorp (upEcho RcodeSuccess [exA])) (exReq ⟨"wiki.", 1, 1⟩)
        false [] = .ok (some m, false) ([] ++ new) ∧
      m.Answer = [RR.CNAME ⟨"wiki.", TypeCNAME, ClassINET, 360⟩ "wiki.corp.test.", exA] ∧
      m.Question.head? = some ⟨"wiki.", 1, 1⟩ := by
  have hf : ∃ m new e,
      forwardSearch (exServer searchCorp (upEcho RcodeSuccess [exA])) (exReq ⟨"wiki.", 1, 1⟩)
        false [] = .ok (some m, false) ([] ++ new) ∧
      new.getLast? = some e ∧
      e.reply = some (exReply 4242 RcodeSuccess [exA] [⟨"wiki.corp.test.", 1, 1⟩]) ∧
      e.req.Question.head? = some ⟨"wiki.corp.test.", 1, 1⟩ :=
    ⟨_, _, _, rfl, rfl, rfl, rfl⟩
  obtain ⟨m, new, e, h, hlast, hrep, hreq⟩ := hf
  obtain ⟨qe, d, m1, h1, -, -, -, -, h5, h6, h7⟩ :=
    forwardSearch_cname (exServer searchCorp (upEcho RcodeSuccess [exA]))
      (exReq ⟨"wiki.", 1, 1⟩) false [] new (some m) false ⟨"wiki.", 1, 1⟩ [] e
      (exReply 4242 RcodeSuccess [exA] [⟨"wiki.corp.test.", 1, 1⟩]) rfl h hlast hrep rfl
      (by decide)
  injection h5 with h5
  subst h5
  rw [hreq] at h1
  injection h1 with h1
  subst h1
  exact ⟨m, new, h, h6, h7⟩

/-! ## Theorems: the `resolv.conf` rewrite -/

/-- C9 (the code at the failing input): the file `  nameserver 8.8.8.8` (two leading
spaces, final newline) contains neither sentinel comment; `StoreAddress` comments the line
out behind the marker and one space; `Clean` removes the marker and then every leading
space, so the file comes back as `nameserver 8.8.8.8`, without the two spaces it had. -/
theorem Clean_StoreAddress_leading_spaces :
    Contains "  nameserver 8.8.8.8\n".data RESOLVCONF_COMMENT_ADD.data = false ∧
    Contains "  nameserver 8.8.8.8\n".data RESOLVCONF_COMMENT_OUT.data = false ∧
    StoreAddress "127.0.0.1" "  nameserver 8.8.8.8\n" =
      "nameserver 127.0.0.1 # added by go-dnsmasq\n# disabled by go-dnsmasq #   nameserver 8.8.8.8\n" ∧
    Clean (StoreAddress "127.0.0.1" "  nameserver 8.8.8.8\n") = "nameserver 8.8.8.8\n" ∧
    Clean (StoreAddress "127.0.0.1" "  nameserver 8.8.8.8\n") ≠ "  nameserver 8.8.8.8\n" := by
  refine ⟨by decide, by decide, by decide, by decide, by decide⟩

/-! ## Theorems: the directory poller -/

theorem scanFiles_reload_iff (fs : FS) (h : Hostsfiles) (files : List DirEntry) :
    ((scanFiles fs h files).2 = true ↔
      ∃ file ∈ files, h.files.lookup file.name ≠ some file.info) ∧
    ((scanFiles fs h files).2 = true → (scanFiles fs h files).1 = (reloadAll fs h).1) ∧
    ((scanFiles fs h files).2 = false → (scanFiles fs h files).1 = h) := by
  induction files with
  | nil => simp [scanFiles]
  | cons file rest ih =>
    obtain ⟨ih1, ih2, ih3⟩ := ih
    simp only [scanFiles]
    cases hl : h.files.lookup file.name with
    | none => simp [hl]
    | some lastStat =>
      by_cases hsame : lastStat.mtime = file.info.mtime ∧ lastStat.size = file.info.size
      · have heq : lastStat = file.info := by
          cases lastStat
          cases hf : file.info
          rw [hf] at hsame
          simp only at hsame
          rw [hsame.1, hsame.2]
        simp only [hsame, and_self, if_true]
        refine ⟨?_, ih2, ih3⟩
        rw [ih1]
        constructor
        · rintro ⟨f, hf, hne⟩
          exact ⟨f, List.mem_cons_of_mem _ hf, hne⟩
        · rintro ⟨f, hf, hne⟩
          rcases List.mem_cons.mp hf with rfl | hf
          · rw [hl, heq] at hne
            exact absurd rfl hne
          · exact ⟨f, hf, hne⟩
      · simp only [hsame, if_false, true_iff, forall_true_left, Bool.true_eq_false,
          false_implies, and_true]
        refine ⟨file, List.mem_cons_self _ _, ?_⟩
        rw [hl]
        intro heq
        injection heq with heq
        rw [heq] at hsame
        exact hsame ⟨rfl, rfl⟩

/-- C10 (as amended): one tick of the directory poller whose listing succeeds. `reloadAll`
is called exactly when some listed file has no cached stat (it appeared) or a cached stat
other than its current mtime and size (it changed); then the state after the tick is the
one `reloadAll` leaves, and otherwise the state is untouched. A cached file that is absent
from the listing plays no part: in particular nothing is reloaded when listing and cache
agree exactly. -/
theorem monitorTick_reload (fs : FS) (h : Hostsfiles) (files : List DirEntry) :
    ∃ h1 reloaded, monitorTick fs h (.ok files) = some (h1, reloaded) ∧
      (reloaded = true ↔ ∃ file ∈ files, h.files.lookup file.name ≠ some file.info) ∧
      (reloaded = true → h1 = (reloadAll fs h).1) ∧
      (reloaded = false → h1 = h) := by
  obtain ⟨a, b, c⟩ := scanFiles_reload_iff fs h files
  exact ⟨(scanFiles fs h files).1, (scanFiles fs h files).2, rfl, a, b, c⟩

/-- Counterexample to C10 as stated: the cache holds `a.hosts` and `b.hosts`, the listing
only `a.hosts`, unchanged; `b.hosts` has disappeared, and the tick reloads nothing and
leaves the state, with the hosts and the stat of `b.hosts`, as it was. -/
theorem monitorTick_disappeared_counterexample :
    exHostsfiles.files.lookup "b.hosts" = some ⟨100, 20⟩ ∧
    (∀ file ∈ [(⟨"a.hosts", ⟨100, 10⟩⟩ : DirEntry)], file.name ≠ "b.hosts") ∧
    monitorTick exFS exHostsfiles (.ok [⟨"a.hosts", ⟨100, 10⟩⟩]) = some (exHostsfiles, false) :=
  ⟨by decide, by decide, by decide⟩

/-- Witness of C10 (as amended): `a.hosts` is listed with a new mtime; the tick calls
`reloadAll`. -/
theorem monitorTick_reload_witness :
    ∃ h1, monitorTick exFS exHostsfiles (.ok [⟨"a.hosts", ⟨200, 10⟩⟩]) = some (h1, true) ∧
      h1 = (reloadAll exFS exHostsfiles).1 := by
  obtain ⟨h1, reloaded, h, hiff, hre, -⟩ :=
    monitorTick_reload exFS exHostsfiles [⟨"a.hosts", ⟨200, 10⟩⟩]
  have hr : reloaded = true := hiff.mpr ⟨_, List.mem_singleton.mpr rfl, by decide⟩
  subst hr
  exact ⟨h1, h, hre rfl⟩

/-! ## Theorems: the period of the directory poller -/

theorem wrapInt64_eq (x : Int) :
    wrapInt64 x = (x + 9223372036854775808) % 18446744073709551616 - 9223372036854775808 := by
  unfold wrapInt64
  norm_num

/-- For no positive duration `d` that fits in an `int64` (`d < 2^63` nanoseconds) is the period
computed by `monitorHostFiles` equal to `d`: the product of `d` and `10^9`, reduced modulo
`2^64`, equals `d` only for `d = 0`, since `10^9 - 1` is odd. -/
theorem tickerPeriod_ne (d : Int) (h0 : 0 < d) (h1 : d < 9223372036854775808) :
    tickerPeriod d ≠ d := by
  intro h
  unfold tickerPeriod Second at h
  rw [wrapInt64_eq] at h
  have h2 : (d * 1000000000 + 9223372036854775808) % 18446744073709551616 =
      d + 9223372036854775808 := by linarith
  have h3 : (d + 9223372036854775808) % 18446744073709551616 = d + 9223372036854775808 :=
    Int.emod_eq_of_lt (by linarith) (by linarith)
  have h4 : (18446744073709551616 : Int) ∣
      (d * 1000000000 + 9223372036854775808) - (d + 9223372036854775808) :=
    Int.ModEq.dvd (h3.trans h2.symm)
  have h5 : (18446744073709551616 : Int) ∣ 999999999 * d := by
    have e : (d * 1000000000 + 9223372036854775808) - (d + 9223372036854775808) =
        999999999 * d := by ring
    rwa [e] at h4
  have hc : IsCoprime (18446744073709551616 : Int) 999999999 := by
    rw [Int.isCoprime_iff_gcd_eq_one]
    decide
  have h6 : (18446744073709551616 : Int) ∣ d := hc.dvd_of_dvd_mul_left h5
  have h7 := Int.le_of_dvd h0 h6
  linarith

/-- C11 (the code at the failing inputs): for the poll interval `1s` (`10^9` nanoseconds) the
poller is started with the period `10^18` nanoseconds, which is `10^9` seconds and not one
second; for `10s` (`10^10` nanoseconds) the product `10^19` overflows the `int64` to
`-8446744073709551616`, a period that is not positive, on which `time.NewTicker` panics. -/
theorem tickerPeriod_one_and_ten_seconds :
    tickerPeriod 1000000000 = 1000000000000000000 ∧
    pollerTicker 1000000000 = some (some 1000000000000000000) ∧
    tickerPeriod 1000000000 ≠ 1000000000 ∧
    tickerPeriod 10000000000 = -8446744073709551616 ∧
    pollerTicker 10000000000 = some none := by
  refine ⟨by decide, by decide, by decide, by decide, by decide⟩

/-! ## Theorems: `reloadAll` -/

theorem foldl_add_append (add : hostlist → hostname → hostlist)
    (hadd : ∀ l x, add l x = l ++ [x]) (hosts acc : hostlist) :
    hosts.foldl add acc = acc ++ hosts := by
  induction hosts generalizing acc with
  | nil => simp
  | cons x rest ih => simp [List.foldl, hadd, ih]

/-- The loop of `reloadAll`, when `add` appends: if it ends without error, every listed file
was loaded, and the list built is the initial one followed by the entries of the files in
listing order. -/
theorem reloadFiles_ok (fs : FS) (hadd : ∀ l x, fs.add l x = l ++ [x]) (directory : String)
    (files : List DirEntry) :
    ∀ (acc : hostlist) (m m1 : List (String × fileInfo)) (hs : hostlist),
      reloadFiles fs directory files acc m = (some hs, m1) →
      ∃ contents : List hostlist,
        List.Forall₂ (fun f c => fs.loadHostEntries (directory ++ "/" ++ f.name) = some c)
          files contents ∧
        hs = acc ++ contents.flatten := by
  induction files with
  | nil =>
    intro acc m m1 hs h
    simp only [reloadFiles] at h
    injection h with h1 _
    injection h1 with h1
    exact ⟨[], List.Forall₂.nil, by simp [h1]⟩
  | cons file rest ih =>
    intro acc m m1 hs h
    simp only [reloadFiles] at h
    split at h
    · injection h with h1 _
      cases h1
    · rename_i hosts hload
      obtain ⟨contents, hall, hhs⟩ := ih _ _ _ _ h
      refine ⟨hosts :: contents, List.Forall₂.cons hload hall, ?_⟩
      rw [hhs, foldl_add_append fs.add hadd]
      simp

/-- The parts of the all-or-nothing property that `reloadAll` has: when it returns an error
the host list (and the directory) are those of before the call; when it returns no error and
`add` appends, the directory was listed, every listed file was loaded, and the host list is
the concatenation of their entries in listing order. -/
theorem reloadAll_hosts (fs : FS) (h : Hostsfiles) :
    ((reloadAll fs h).2 = true →
      (reloadAll fs h).1.hosts = h.hosts ∧ (reloadAll fs h).1.directory = h.directory) ∧
    ((reloadAll fs h).2 = false → (∀ l x, fs.add l x = l ++ [x]) →
      ∃ files contents, fs.readDir h.directory = .ok files ∧
        List.Forall₂ (fun f c => fs.loadHostEntries (h.directory ++ "/" ++ f.name) = some c)
          files contents ∧
        (reloadAll fs h).1.hosts = contents.flatten) := by
  unfold reloadAll
  cases hrd : fs.readDir h.directory with
  | ok files =>
    dsimp only
    cases hrf : reloadFiles fs h.directory files [] h.files with
    | mk o m1 =>
      cases o with
      | none => simp
      | some hs =>
        refine ⟨by simp, ?_⟩
        intro _ hadd
        obtain ⟨contents, hall, hhs⟩ := reloadFiles_ok fs hadd _ _ _ _ _ _ hrf
        exact ⟨files, contents, rfl, hall, by simpa using hhs⟩
  | notExist => simp
  | failed => simp

/-- C12 (the code at the failing input): the cache holds `a.hosts` with mtime 100; the
directory lists `a.hosts` with mtime 200 and `b.hosts`, and `b.hosts` cannot be read.
`reloadAll` returns an error and leaves the host list as it was, but the cached stat of
`a.hosts` is already the new one. At the next tick, with `b.hosts` readable again, listing and
cache agree, nothing is reloaded, and the new entry of `a.hosts`, which a reload would serve,
stays unserved. -/
theorem reloadAll_error_changes_files :
    reloadAll exFSfail exHostsfiles =
      ({ exHostsfiles with files := [("a.hosts", ⟨200, 10⟩), ("b.hosts", ⟨100, 20⟩)] }, true) ∧
    (reloadAll exFSfail exHostsfiles).1.hosts = exHostsfiles.hosts ∧
    (reloadAll exFSfail exHostsfiles).1.files ≠ exHostsfiles.files ∧
    monitorTick exFSback (reloadAll exFSfail exHostsfiles).1
        (.ok [⟨"a.hosts", ⟨200, 10⟩⟩, ⟨"b.hosts", ⟨100, 20⟩⟩]) =
      some ((reloadAll exFSfail exHostsfiles).1, false) ∧
    (reloadAll exFSback exHostsfiles).1.hosts =
      [⟨"foo.local", "10.0.0.9"⟩, ⟨"bar.local", "10.0.0.6"⟩] ∧
    (reloadAll exFSback exHostsfiles).1.hosts ≠ exHostsfiles.hosts := by
  refine ⟨by decide, by decide, by decide, by decide, by decide, by decide⟩

/-! ## Theorems: the order of the search lookups -/

/-- The exchanges of one run of `forwardQuery`: one or two, all with the request as given;
the outcome returned is that of the last one, and a reply with a final rcode among them is
the reply returned. -/
theorem forwardQuery_block (s : Server) (req : Msg) (tcp : Bool) (tr tr1 : Trace)
    (r : Option Msg) (err : Bool) (h : forwardQuery s req tcp tr = .ok (r, err) tr1) :
    ∃ new, tr1 = tr ++ new ∧ new ≠ [] ∧ new.length ≤ 2 ∧ (∀ e ∈ new, e.req = req) ∧
      lastReply new = r ∧ err = r.isNone ∧
      (∀ e ∈ new, ∀ m, e.reply = some m → isFinalRcode m.Rcode = true → r = some m) := by
  cases hq : req.Question with
  | nil => simp [forwardQuery, hq] at h
  | cons q qs =>
    cases h0 : (selectNameservers s.config q.Name).get? 0 with
    | none =>
      have hnil : selectNameservers s.config q.Name = [] := by
        cases hl : selectNameservers s.config q.Name with
        | nil => rfl
        | cons a l => rw [hl] at h0; simp at h0
      simp [forwardQuery, hq, retryLoop, hnil] at h
    | some ns0 =>
      have hne : selectNameservers s.config q.Name ≠ [] := by
        intro hnil; rw [hnil] at h0; simp at h0
      obtain ⟨ns1, h1⟩ := nextIdx_zero_get _ hne
      rw [forwardQuery_eq s req tcp tr q qs ns0 ns1 hq h0 h1] at h
      split at h
      · rename_i hfin
        obtain ⟨r0, hr0, -⟩ := hfin
        injection h with hval htr
        injection hval with hr herr
        refine ⟨[⟨req, ns0, tcp, s.exchange tr req ns0 tcp⟩], htr.symm, by simp, by simp, ?_,
          ?_, ?_, ?_⟩
        · intro e he
          rw [List.mem_singleton.mp he]
        · simpa [lastReply] using hr
        · rw [← hr, ← herr, hr0]; rfl
        · intro e he m hm _
          rw [List.mem_singleton.mp he] at hm
          rw [← hr]
          exact hm
      · rename_i hnfin
        injection h with hval htr
        injection hval with hr herr
        refine ⟨[⟨req, ns0, tcp, s.exchange tr req ns0 tcp⟩,
          ⟨req, ns1, tcp,
            s.exchange (tr ++ [⟨req, ns0, tcp, s.exchange tr req ns0 tcp⟩]) req ns1 tcp⟩],
          by rw [← htr]; simp, by simp, by simp, ?_, ?_, ?_, ?_⟩
        · intro e he
          simp only [List.mem_cons, List.mem_singleton, List.not_mem_nil, or_false] at he
          rcases he with he | he <;> rw [he]
        · simpa [lastReply] using hr
        · rw [← hr, ← herr]
        · intro e he m hm hfin
          simp only [List.mem_cons, List.mem_singleton, List.not_mem_nil, or_false] at he
          rcases he with he | he
          · rw [he] at hm
            exact absurd ⟨m, hm, hfin⟩ hnfin
          · rw [he] at hm
            rw [← hr]
            exact hm

/-- The exchanges of the search loop are the lookups for the domains that are not a suffix of
the qname, in their order, up to the first terminal result. -/
theorem searchLoop_queried (s : Server) (tcp : Bool) (req : Msg) (q : Question)
    (qs : List Question) (ds : List String) :
    ∀ (v : SearchVars) (tr : Trace) (v1 : SearchVars) (tr1 : Trace),
      (∃ x, v.reqCopy = { req with Question := ⟨x, q.Qtype, q.Qclass⟩ :: qs }) →
      searchLoop s q.Name tcp ds v tr = .ok v1 tr1 →
      ∃ new, tr1 = tr ++ new ∧
        QueriedInOrder s req q qs (ds.filter (fun d => !HasSuffix q.Name d)) new := by
  induction ds with
  | nil =>
    intro v tr v1 tr1 _ h
    simp only [searchLoop] at h
    injection h with _ h2
    exact ⟨[], by simp [h2], rfl⟩
  | cons d rest ih =>
    intro v tr v1 tr1 hinv h
    rw [searchLoop] at h
    split at h
    · rename_i hsuf
      obtain ⟨new, htr, hq⟩ := ih v tr v1 tr1 hinv h
      refine ⟨new, htr, ?_⟩
      rw [List.filter_cons_of_neg (by simp [hsuf])]
      exact hq
    · rename_i hsuf
      rw [List.filter_cons_of_pos (by simpa using hsuf)]
      obtain ⟨x, hx⟩ := hinv
      dsimp only at h
      split at h
      · cases h
      · rename_i q1 qs1 hqc
        rw [hx] at hqc
        injection hqc with hq1 hqs1
        subst hq1 hqs1
        rw [hx] at h
        split at h
        · cases h
        · rename_i r err tr2 hfq
          obtain ⟨b, htr2, hne, hlen, hreq, hlast, herr, -⟩ :=
            forwardQuery_block _ _ _ _ _ _ _ hfq
          have hblock : ∀ e ∈ b, e.req = expandedReq s req q qs d := hreq
          have stop : ∀ v2 : SearchVars, searchContinues r = false →
              Res.ok v2 tr2 = Res.ok v1 tr1 →
              ∃ new, tr1 = tr ++ new ∧
                QueriedInOrder s req q qs
                  (d :: rest.filter (fun d => !HasSuffix q.Name d)) new := by
            intro v2 hstop h2
            injection h2 with _ h3
            refine ⟨b, by rw [← h3, htr2], b, [], by simp, hne, hlen, hblock, Or.inl ⟨?_, rfl⟩⟩
            rw [hlast]
            exact hstop
          have continue_ : ∀ v2 : SearchVars, searchContinues r = true →
              v2.reqCopy = expandedReq s req q qs d →
              searchLoop s q.Name tcp rest v2 tr2 = Res.ok v1 tr1 →
              ∃ new, tr1 = tr ++ new ∧
                QueriedInOrder s req q qs
                  (d :: rest.filter (fun d => !HasSuffix q.Name d)) new := by
            intro v2 hcont hv2 h2
            obtain ⟨more, hmore, hqm⟩ := ih v2 tr2 v1 tr1 ⟨_, hv2⟩ h2
            refine ⟨b ++ more, by rw [hmore, htr2, List.append_assoc], b, more, rfl, hne, hlen,
              hblock, Or.inr ⟨?_, hqm⟩⟩
            rw [hlast]
            exact hcont
          split at h
          · rename_i herr1
            apply stop _ _ h
            rw [herr1] at herr
            cases r with
            | none => rfl
            | some rm => cases herr
          · split at h
            · cases h
            · rename_i rm
              split at h
              · rename_i hsucc
                split at h
                · rename_i hnd
                  apply continue_ _ _ rfl h
                  simp [searchContinues, hsucc, hnd.1, hnd.2]
                · rename_i hnd
                  apply stop _ _ h
                  have hsucc1 : rm.Rcode = 0 := hsucc
                  simp only [searchContinues, hsucc1, beq_self_eq_true, Bool.true_and,
                    Bool.or_eq_false_iff, Bool.and_eq_false_imp, beq_iff_eq, Bool.not_eq_false',
                    beq_eq_false_iff_ne, ne_eq]
                  refine ⟨⟨?_, by decide⟩, by decide⟩
                  intro hz
                  by_contra ht
                  exact hnd ⟨hz, by simpa using ht⟩
              · rename_i hsucc
                split at h
                · rename_i hnx
                  apply continue_ _ _ rfl h
                  rcases hnx with hnx | hnx <;> simp [searchContinues, hnx]
                · rename_i hnx
                  apply stop _ _ h
                  have h1 : ¬ rm.Rcode = RcodeNameError := fun hh => hnx (Or.inl hh)
                  have h2 : ¬ rm.Rcode = RcodeServerFailure := fun hh => hnx (Or.inr hh)
                  simp [searchContinues, hsucc, h1, h2]

theorem QueriedInOrder_mem (s : Server) (req : Msg) (q : Question) (qs : List Question)
    (ds : List String) :
    ∀ new, QueriedInOrder s req q qs ds new →
      ∀ e ∈ new, ∃ d ∈ ds, e.req = expandedReq s req q qs d := by
  induction ds with
  | nil =>
    intro new h e he
    simp only [QueriedInOrder] at h
    rw [h] at he
    cases he
  | cons d rest ih =>
    intro new h e he
    simp only [QueriedInOrder] at h
    obtain ⟨b, more, hnew, -, -, hb, hrest⟩ := h
    rw [hnew] at he
    rcases List.mem_append.mp he with he | he
    · exact ⟨d, List.mem_cons_self _ _, hb e he⟩
    · rcases hrest with ⟨-, hm⟩ | ⟨-, hm⟩
      · rw [hm] at he
        cases he
      · obtain ⟨d1, hd1, h1⟩ := ih more hm e he
        exact ⟨d1, List.mem_cons_of_mem _ hd1, h1⟩

/-- C14: the exchanges of `forwardSearch`. Whenever it returns after the exchanges `new`,
these are the lookups for the configured search domains that are not a suffix of the qname,
in configured order, up to the first terminal result (`QueriedInOrder`); in particular every
exchange carries the request for the expansion with a configured domain that is not a suffix
of the qname. And when every configured domain is a suffix of the qname, `forwardSearch`
returns NXDOMAIN for the request with the trace as it was: it exchanges nothing. -/
theorem forwardSearch_queries_in_order (s : Server) (req : Msg) (tcp : Bool) (tr : Trace)
    (q : Question) (qs : List Question) (hq : req.Question = q :: qs) :
    (∀ res new, forwardSearch s req tcp tr = .ok res (tr ++ new) →
      QueriedInOrder s req q qs
        (s.config.SearchDomains.filter (fun d => !HasSuffix q.Name d)) new ∧
      (∀ e ∈ new, ∃ d ∈ s.config.SearchDomains, HasSuffix q.Name d = false ∧
        e.req = expandedReq s req q qs d)) ∧
    ((∀ d ∈ s.config.SearchDomains, HasSuffix q.Name d = true) →
      forwardSearch s req tcp tr = .ok (some (SetRcode newMsg req RcodeNameError), false) tr) := by
  constructor
  · intro res new h
    obtain ⟨r, err⟩ := res
    obtain ⟨q0, qs0, v1, hq0, hloop, -⟩ := forwardSearch_cases s req tcp tr _ _ _ h
    rw [hq] at hq0
    injection hq0 with hq1 hq2
    subst hq1 hq2
    have hinit : ∃ x, req = { req with Question := ⟨x, q.Qtype, q.Qclass⟩ :: qs } := by
      refine ⟨q.Name, ?_⟩
      cases req
      simp only at hq
      simp [hq]
    obtain ⟨new1, htr, hqueried⟩ := searchLoop_queried s tcp req q qs _ _ _ _ _ hinit hloop
    have hnew : new = new1 := List.append_cancel_left htr
    subst hnew
    refine ⟨hqueried, ?_⟩
    intro e he
    obtain ⟨d, hd, hreq⟩ := QueriedInOrder_mem s req q qs _ new hqueried e he
    obtain ⟨hd1, hd2⟩ := List.mem_filter.mp hd
    exact ⟨d, hd1, by simpa using hd2, hreq⟩
  · intro hsuf
    unfold forwardSearch
    rw [hq]
    dsimp only
    rw [searchLoop_all_suffix s q.Name tcp _ _ tr hsuf]
    rfl

/-- Witness of C14: search domains `corp.test.`, `a.test.`, `b.test.` and qname
`db.corp.test.`, of which `corp.test.` is a suffix. The lookup for `db.corp.test.a.test.` is
answered NXDOMAIN, the one for `db.corp.test.b.test.` with an address record; exactly these
two names are asked, in this order, and none for `corp.test.`. -/
theorem forwardSearch_queries_in_order_witness :
    ∃ res new,
      forwardSearch (exServer searchThree upByNameDb) (exReq ⟨"db.corp.test.", 1, 1⟩) false [] =
        .ok res ([] ++ new) ∧
      new.map (fun e => e.req.Question.map (fun q => q.Name)) =
        [["db.corp.test.a.test."], ["db.corp.test.b.test."]] ∧
      QueriedInOrder (exServer searchThree upByNameDb) (exReq ⟨"db.corp.test.", 1, 1⟩)
        ⟨"db.corp.test.", 1, 1⟩ []
        (searchThree.SearchDomains.filter (fun d => !HasSuffix "db.corp.test." d)) new := by
  have hf : ∃ res new,
      forwardSearch (exServer searchThree upByNameDb) (exReq ⟨"db.corp.test.", 1, 1⟩) false [] =
        .ok res ([] ++ new) ∧
      new.map (fun e => e.req.Question.map (fun q => q.Name)) =
        [["db.corp.test.a.test."], ["db.corp.test.b.test."]] :=
    ⟨_, _, rfl, rfl⟩
  obtain ⟨res, new, h, hnames⟩ := hf
  exact ⟨res, new, h, hnames,
    ((forwardSearch_queries_in_order (exServer searchThree upByNameDb)
      (exReq ⟨"db.corp.test.", 1, 1⟩) false [] ⟨"db.corp.test.", 1, 1⟩ [] rfl).1 res new h).1⟩

/-! ## Theorems: the preference for a no-data reply -/

/-- A no-data reply (SUCCESS, no answer, not truncated) seen by the search loop is kept: if
one of the exchanges of the loop got such a reply, the variable `nodata` holds such a reply
when the loop ends. -/
theorem searchLoop_nodata (s : Server) (name : String) (tcp : Bool) (ds : List String) :
    ∀ (v : SearchVars) (tr : Trace) (v1 : SearchVars) (tr1 : Trace),
      searchLoop s name tcp ds v tr = .ok v1 tr1 →
      ∃ new, tr1 = tr ++ new ∧
        ((∃ e ∈ new, ∃ r, e.reply = some r ∧ r.Rcode = RcodeSuccess ∧ r.Answer = [] ∧
            r.Truncated = false) →
          ∃ nd, v1.nodata = some nd ∧ nd.Rcode = RcodeSuccess ∧ nd.Answer = [] ∧
            nd.Truncated = false) := by
  induction ds with
  | nil =>
    intro v tr v1 tr1 h
    simp only [searchLoop] at h
    injection h with _ h2
    refine ⟨[], by simp [h2], ?_⟩
    rintro ⟨e, he, -⟩
    cases he
  | cons d rest ih =>
    intro v tr v1 tr1 h
    rw [searchLoop] at h
    split at h
    · exact ih v tr v1 tr1 h
    · dsimp only at h
      split at h
      · cases h
      · split at h
        · cases h
        · rename_i r err tr2 hfq
          obtain ⟨b, htr2, -, -, -, -, herr, hfinal⟩ := forwardQuery_block _ _ _ _ _ _ _ hfq
          have hb : ∀ e ∈ b, ∀ m, e.reply = some m → m.Rcode = RcodeSuccess → r = some m := by
            intro e he m hm hsucc
            apply hfinal e he m hm
            simp [isFinalRcode, hsucc]
          have stop : ∀ v2 : SearchVars,
              (∀ m, r = some m → m.Rcode = RcodeSuccess → m.Answer = [] →
                m.Truncated = false → False) →
              Res.ok v2 tr2 = Res.ok v1 tr1 →
              ∃ new, tr1 = tr ++ new ∧
                ((∃ e ∈ new, ∃ r, e.reply = some r ∧ r.Rcode = RcodeSuccess ∧ r.Answer = [] ∧
                    r.Truncated = false) →
                  ∃ nd, v1.nodata = some nd ∧ nd.Rcode = RcodeSuccess ∧ nd.Answer = [] ∧
                    nd.Truncated = false) := by
            intro v2 hno h2
            injection h2 with _ h3
            refine ⟨b, by rw [← h3, htr2], ?_⟩
            rintro ⟨e, he, m, hm, h1, h2, h3⟩
            exact absurd (hb e he m hm h1) (fun hr => hno m hr h1 h2 h3)
          have continue_ : ∀ v2 : SearchVars,
              (∀ m, r = some m → m.Rcode = RcodeSuccess → m.Answer = [] →
                m.Truncated = false → v2.nodata = some m) →
              searchLoop s name tcp rest v2 tr2 = Res.ok v1 tr1 →
              ∃ new, tr1 = tr ++ new ∧
                ((∃ e ∈ new, ∃ r, e.reply = some r ∧ r.Rcode = RcodeSuccess ∧ r.Answer = [] ∧
                    r.Truncated = false) →
                  ∃ nd, v1.nodata = some nd ∧ nd.Rcode = RcodeSuccess ∧ nd.Answer = [] ∧
                    nd.Truncated = false) := by
            intro v2 hkeep h2
            obtain ⟨more, hmore, hih⟩ := ih v2 tr2 v1 tr1 h2
            obtain ⟨more1, hmore1, -, -, p3⟩ := searchLoop_ok s name tcp rest v2 tr2 v1 tr1 h2
            refine ⟨b ++ more, by rw [hmore, htr2, List.append_assoc], ?_⟩
            rintro ⟨e, he, m, hm, h1, h2, h3⟩
            rcases List.mem_append.mp he with he | he
            · have hv2 : v2.nodata = some m := hkeep m (hb e he m hm h1) h1 h2 h3
              rcases p3 with p3 | ⟨e1, -, nd, -, a, b1, c, d1⟩
              · exact ⟨m, by rw [p3, hv2], h1, h2, h3⟩
              · exact ⟨nd, a, b1, c, d1⟩
            · exact hih ⟨e, he, m, hm, h1, h2, h3⟩
          split at h
          · rename_i herr1
            apply stop _ _ h
            intro m hr _ _ _
            rw [hr, herr1] at herr
            cases herr
          · split at h
            · cases h
            · rename_i rm
              split at h
              · rename_i hsucc
                split at h
                · apply continue_ _ _ h
                  intro m hr _ _ _
                  injection hr with hr
                  rw [hr]
                · rename_i hnd
                  apply stop _ _ h
                  intro m hr _ h2 h3
                  injection hr with hr
                  subst hr
                  exact hnd ⟨by rw [h2]; rfl, h3⟩
              · rename_i hsucc
                split at h
                · apply continue_ _ _ h
                  intro m hr h1 _ _
                  injection hr with hr
                  subst hr
                  exact absurd h1 hsucc
                · apply stop _ _ h
                  intro m hr h1 _ _
                  injection hr with hr
                  subst hr
                  exact absurd h1 hsucc

/-- A run of `forwardSearch` that returns, on which some exchange got a no-data reply and no
exchange got a reply with answers: the result is, without error, a reply with rcode SUCCESS,
no answer, and the first question of the request. -/
theorem forwardSearch_nodata (s : Server) (req : Msg) (tcp : Bool) (tr new : Trace)
    (r : Option Msg) (err : Bool) (q : Question) (qs : List Question)
    (hq : req.Question = q :: qs)
    (h : forwardSearch s req tcp tr = .ok (r, err) (tr ++ new))
    (hnodata : ∃ e ∈ new, ∃ r, e.reply = some r ∧ r.Rcode = RcodeSuccess ∧ r.Answer = [] ∧
      r.Truncated = false)
    (hnoans : ∀ e ∈ new, ∀ r, e.reply = some r → r.Answer = []) :
    ∃ r2, r = some r2 ∧ err = false ∧ r2.Rcode = RcodeSuccess ∧ r2.Answer = [] ∧
      r2.Question.head? = some q := by
  obtain ⟨q0, qs0, v1, hq0, hloop, hc⟩ := forwardSearch_cases s req tcp tr _ _ _ h
  rw [hq] at hq0
  injection hq0 with hq1 _
  subst hq1
  obtain ⟨new1, htr, p1, p2, -⟩ := searchLoop_ok s _ tcp _ _ _ _ _ hloop
  have hnew : new = new1 := List.append_cancel_left htr
  subst hnew
  obtain ⟨new2, htr2, hkept⟩ := searchLoop_nodata s _ tcp _ _ _ _ _ hloop
  have hnew2 : new = new2 := List.append_cancel_left htr2
  subst hnew2
  obtain ⟨nd, hnd, nd1, nd2, nd3⟩ := hkept hnodata
  have hne : new ≠ [] := by
    obtain ⟨e, he, -⟩ := hnodata
    exact List.ne_nil_of_mem he
  obtain ⟨hds, e1, he1, hr1, -, -⟩ := p2 hne
  rcases hc with ⟨hd, -⟩ | ⟨-, -, herr2, rm, r2, hrm, hres, hset⟩ |
    ⟨-, -, herr2, nd0, r2, hnd0, hres, hset⟩ | ⟨-, -, -, hnone, -⟩
  · rw [hds] at hd; cases hd
  · have hans : rm.Answer = [] :=
      hnoans e1 (List.mem_of_getLast?_eq_some he1) rm (by rw [← hr1, hrm])
    obtain ⟨s1, s2, s3, -⟩ := setQuestion0_some _ _ _ hset
    refine ⟨r2, hres, herr2, ?_, ?_, s1⟩
    · rw [s2]
      split
      · rename_i hsucc
        split <;> exact hsucc
      · rw [hnd]
        exact nd1
    · rw [s3]
      split
      · rw [if_neg (by rw [hans]; simp)]
        exact hans
      · rw [hnd]
        exact nd2
  · rw [hnd] at hnd0
    injection hnd0 with hnd0
    subst hnd0
    obtain ⟨s1, s2, s3, -⟩ := setQuestion0_some _ _ _ hset
    exact ⟨r2, hres, herr2, by rw [s2]; exact nd1, by rw [s3]; exact nd2, s1⟩
  · rw [hnd] at hnone
    cases hnone

/-- The preference for a no-data reply, on the runs that return. Take a run of
`ServeDNSForward` that returns after the exchanges `n1` followed by `n2`, where `n1` are the
exchanges of the initial absolute lookup (the name has enough dots for it), which returned a
reply `ra` without transport error and with an rcode other than SUCCESS. If one of the later
exchanges `n2` got a no-data reply (SUCCESS, no answer, not truncated) and none of them got a
reply with answers, then, whatever else they got, the message returned has rcode SUCCESS, no
answer, and the client's original first question. Moreover `ServeDNSForward` does return a
message whenever the nameserver lists are not empty and every upstream reply has a question
section; a no-data reply without that section makes the run panic. -/
theorem ServeDNSForward_nodata_preference (s : Server) (tcp : Bool) (req : Msg) (tr : Trace)
    (q : Question) (qs : List Question) (hq : req.Question = q :: qs) :
    (∀ m n1 n2 ra,
      ServeDNSForward s tcp req tr = .ok m (tr ++ n1 ++ n2) →
      (s.CountLabel q.Name : Int) - 1 ≥ s.config.Ndots →
      (s.CountLabel q.Name : Int) - 1 ≥ s.config.FwdNdots →
      forwardQuery s req tcp tr = .ok (some ra, false) (tr ++ n1) →
      ra.Rcode ≠ RcodeSuccess →
      (∃ e ∈ n2, ∃ r, e.reply = some r ∧ r.Rcode = RcodeSuccess ∧ r.Answer = [] ∧
        r.Truncated = false) →
      (∀ e ∈ n2, ∀ r, e.reply = some r → r.Answer = []) →
      m.Rcode = RcodeSuccess ∧ m.Answer = [] ∧ m.Question.head? = some q) ∧
    ((∀ n, selectNameservers s.config n ≠ []) →
      (∀ t r n c m, s.exchange t r n c = some m → m.Question ≠ []) →
      ∃ m new, ServeDNSForward s tcp req tr = .ok m (tr ++ new)) := by
  constructor
  · intro m n1 n2 ra h hN hF habs hra hnodata hnoans
    have hn2 : n2 ≠ [] := by
      obtain ⟨e, he, -⟩ := hnodata
      exact List.ne_nil_of_mem he
    rw [List.append_assoc] at h
    cases hr : refuses s.config ((s.CountLabel q.Name : Int) - 1) with
    | true =>
      unfold ServeDNSForward at h
      rw [hq] at h
      simp only [hr, if_true] at h
      injection h with _ htr
      have h0 : tr ++ [] = tr ++ (n1 ++ n2) := by rw [List.append_nil]; exact htr
      have h1 := List.append_cancel_left h0
      exact absurd (List.append_eq_nil.mp h1.symm).2 hn2
    | false =>
      obtain ⟨n1b, more1, st1, hnew, h1, hrest⟩ :=
        ServeDNSForward_run_trace s tcp req tr (n1 ++ n2) m q qs hq hr h
      rw [if_pos hN] at h1
      unfold absoluteLookup at h1
      rw [if_pos hF, habs] at h1
      simp only [Bool.false_eq_true, if_false, if_neg hra] at h1
      injection h1 with hst1 htr1
      have e1 : n1 = n1b := List.append_cancel_left htr1
      subst e1
      have e2 : n2 = more1 := List.append_cancel_left hnew
      subst e2
      rcases hrest with ⟨hst, -⟩ | ⟨v1, hst, n2b, more2, st2, hmore, h2, hrest⟩
      · rw [← hst1] at hst; cases hst
      rw [← hst1] at hst
      injection hst with hv1
      subst hv1
      obtain ⟨n2c, htr2, hret2, hcont2⟩ := searchLookup_ok _ _ _ _ _ _ _ _ h2
      have e3 : n2b = n2c := List.append_cancel_left htr2
      subst e3
      rcases hrest with ⟨hst2, hm2⟩ | ⟨v2, hst2, st3, h3, -⟩
      · subst hm2
        rw [List.append_nil] at hmore
        subst hmore
        obtain ⟨res, hfs, hm, -⟩ := hret2 m hst2
        obtain ⟨r2, hr2, -, a, b, c⟩ :=
          forwardSearch_nodata s req tcp _ _ _ _ q qs hq hfs hnodata hnoans
        injection hr2 with hr2
        subst hr2 hm
        exact ⟨a, b, c⟩
      · exfalso
        obtain ⟨a, -, -, hc⟩ := hcont2 v2 hst2
        have hda : v2.didAbsolute = true := a
        rw [if_neg (by rw [hda]; simp)] at h3
        injection h3 with _ htr3
        have e4 : more2 = [] := by
          have h0 : tr ++ n1 ++ n2b ++ [] = tr ++ n1 ++ n2b ++ more2 := by
            rw [List.append_nil]; exact htr3
          exact (List.append_cancel_left h0).symm
        subst e4
        rw [List.append_nil] at hmore
        subst hmore
        rcases hc with ⟨-, -, hnil⟩ | ⟨-, -, -, hfs, hres⟩
        · exact hn2 hnil
        · obtain ⟨r2, hr2, herr2, a2, -, -⟩ :=
            forwardSearch_nodata s req tcp _ _ _ _ q qs hq hfs hnodata hnoans
          obtain ⟨res, hres1, hres2⟩ := hres herr2
          rw [hr2] at hres1
          injection hres1 with hres1
          subst hres1
          exact hres2 a2
  · intro hns hW
    obtain ⟨m, tr1, h⟩ := ServeDNSForward_returns s tcp req tr q qs hq hns hW
    obtain ⟨new, htr, -⟩ := ServeDNSForward_from_up s tcp req tr tr1 m h
    subst htr
    exact ⟨m, new, h⟩

/-- Example of the preference for a no-data reply, with an upstream that echoes the question
it is asked: search domains `a.test.`, `b.test.`, `c.test.`, qname
`host.example.com.`. The absolute lookup is answered NXDOMAIN, the lookup with `a.test.` gets
a no-data reply, the one with `b.test.` NXDOMAIN, and the one with `c.test.` fails on both
tries; the message returned is the no-data reply under the client's question. -/
theorem ServeDNSForward_nodata_preference_example :
    ∃ m n1 n2,
      ServeDNSForward (exServer searchAbc upNodataThenFail) false
        (exReq ⟨"host.example.com.", 1, 1⟩) [] = .ok m ([] ++ n1 ++ n2) ∧
      n1.length = 1 ∧ n2.length = 4 ∧ lastReply n2 = none ∧
      m.Rcode = RcodeSuccess ∧ m.Answer = [] ∧
      m.Question.head? = some ⟨"host.example.com.", 1, 1⟩ := by
  have hf : ∃ m n1 n2 ra,
      forwardQuery (exServer searchAbc upNodataThenFail) (exReq ⟨"host.example.com.", 1, 1⟩)
        false [] = .ok (some ra, false) ([] ++ n1) ∧
      ServeDNSForward (exServer searchAbc upNodataThenFail) false
        (exReq ⟨"host.example.com.", 1, 1⟩) [] = .ok m ([] ++ n1 ++ n2) ∧
      ra.Rcode = RcodeNameError ∧ n1.length = 1 ∧ n2.length = 4 ∧ lastReply n2 = none ∧
      (∃ e ∈ n2, ∃ r, e.reply = some r ∧ r.Rcode = RcodeSuccess ∧ r.Answer = [] ∧
        r.Truncated = false) ∧
      (∀ e ∈ n2, e.reply.all (fun r => r.Answer.isEmpty) = true) :=
    ⟨_, _, _, _, rfl, rfl, rfl, rfl, rfl, rfl,
      ⟨_, List.mem_cons_self _ _, _, rfl, rfl, rfl, rfl⟩, by decide⟩
  obtain ⟨m, n1, n2, ra, habs, h, hra, hl1, hl2, hlast, hnodata, hall⟩ := hf
  have hnoans : ∀ e ∈ n2, ∀ r, e.reply = some r → r.Answer = [] := by
    intro e he r hr
    have := hall e he
    rw [hr] at this
    simpa using this
  have hthm := (ServeDNSForward_nodata_preference (exServer searchAbc upNodataThenFail) false
    (exReq ⟨"host.example.com.", 1, 1⟩) [] ⟨"host.example.com.", 1, 1⟩ [] rfl).1 m n1 n2 ra h
    (by decide) (by decide) habs (by rw [hra]; decide) hnodata hnoans
  exact ⟨m, n1, n2, h, hl1, hl2, hlast, hthm⟩

/-! ## Theorems: the question section of the message `ServeDNSForward` returns -/

/-- The absolute-lookup block under its guard: a message it returns is the reply that
`forwardQuery` returned for the request, with `Compress` and `Id` set; when it falls through
after a lookup without error, the reply it recorded is the one `forwardQuery` returned. -/
theorem absoluteStage_prov (s : Server) (req : Msg) (tcp : Bool) (nameDots : Int) (c : Prop)
    [Decidable c] (v : FwdVars) (tr tr1 : Trace) (step : Step)
    (h : (if c then absoluteLookup s req tcp nameDots v tr else .ok (.cont v) tr) =
      .ok step tr1) :
    (∀ m, step = .ret m → ∃ res, forwardQuery s req tcp tr = .ok (some res, false) tr1 ∧
      m = { res with Compress := true, Id := req.Id }) ∧
    (∀ v1, step = .cont v1 → (v1 = v ∧ tr1 = tr) ∨
      (v1.absoluteErr = false → ∃ res, v1.absoluteRes = some res ∧
        forwardQuery s req tcp tr = .ok (some res, false) tr1)) := by
  by_cases hc : c
  · rw [if_pos hc] at h
    unfold absoluteLookup at h
    split at h
    · split at h
      · cases h
      · rename_i r err tr2 hfq
        dsimp only at h
        split at h
        · rename_i herr1
          injection h with hval htr
          subst htr
          refine ⟨?_, ?_⟩
          · intro m hm; rw [← hval] at hm; cases hm
          · intro v1 hv1
            rw [← hval] at hv1
            injection hv1 with hv1
            subst hv1
            refine Or.inr ?_
            intro hfalse
            simp only at hfalse
            rw [hfalse] at herr1
            cases herr1
        · rename_i herr1
          have herr2 : err = false := by simpa using herr1
          subst herr2
          split at h
          · cases h
          · rename_i res
            split at h
            · injection h with hval htr
              subst htr
              refine ⟨?_, ?_⟩
              · intro m hm
                rw [← hval] at hm
                injection hm with hm
                exact ⟨res, hfq, hm.symm⟩
              · intro v1 hv1; rw [← hval] at hv1; cases hv1
            · injection h with hval htr
              subst htr
              refine ⟨?_, ?_⟩
              · intro m hm; rw [← hval] at hm; cases hm
              · intro v1 hv1
                rw [← hval] at hv1
                injection hv1 with hv1
                subst hv1
                exact Or.inr (fun _ => ⟨res, rfl, hfq⟩)
    · injection h with hval htr
      subst htr
      refine ⟨?_, ?_⟩
      · intro m hm; rw [← hval] at hm; cases hm
      · intro v1 hv1
        rw [← hval] at hv1
        injection hv1 with hv1
        exact Or.inl ⟨hv1.symm, rfl⟩
  · rw [if_neg hc] at h
    injection h with hval htr
    subst htr
    refine ⟨?_, ?_⟩
    · intro m hm; rw [← hval] at hm; cases hm
    · intro v1 hv1
      rw [← hval] at hv1
      injection hv1 with hv1
      exact Or.inl ⟨hv1.symm, rfl⟩

/-- When the first block of `ServeDNSForward` falls through and the search block returns a
message, `ServeDNSForward` returns that message. -/
theorem ServeDNSForward_of_search_ret (s : Server) (tcp : Bool) (req : Msg) (tr t1 t2 : Trace)
    (m : Msg) (v1 : FwdVars) (q : Question) (qs : List Question) (hq : req.Question = q :: qs)
    (hnr : refuses s.config ((s.CountLabel q.Name : Int) - 1) = false)
    (h1 : (if (s.CountLabel q.Name : Int) - 1 ≥ s.config.Ndots then
          absoluteLookup s req tcp ((s.CountLabel q.Name : Int) - 1)
            { didAbsolute := false, didSearch := false, absoluteRes := none, searchRes := none,
              absoluteErr := false, searchErr := false } tr
        else .ok (.cont { didAbsolute := false, didSearch := false, absoluteRes := none,
                          searchRes := none, absoluteErr := false, searchErr := false }) tr) =
        .ok (.cont v1) t1)
    (h2 : searchLookup s req tcp
          (s.config.EnableSearch && decide (s.config.SearchDomains.length > 0)) v1 t1 =
          .ok (.ret m) t2) :
    ServeDNSForward s tcp req tr = .ok m t2 := by
  unfold ServeDNSForward
  rw [hq]
  simp only [hnr, Bool.false_eq_true, if_false]
  rw [h1]
  dsimp only
  rw [h2]

/-- C3 (as amended): which question section the message returned by `ServeDNSForward` has,
whatever the upstream echoes. First part: every message returned either has the client's
first question as its first question, or is the reply `res` that an absolute lookup
(`forwardQuery` on the client's unchanged request, made within the run) returned, with only
`Compress` and `Id` rewritten, and then has the question section of that reply. Second part:
when the search lookup is reached (the request is not refused, search is enabled, and either
no absolute lookup came first or it returned a reply with an rcode other than SUCCESS) and
`forwardSearch` returns a reply with rcode SUCCESS, `ServeDNSForward` returns that reply with
`Compress` and `Id` rewritten, and its first question is the client's. -/
theorem ServeDNSForward_Question (s : Server) (tcp : Bool) (req : Msg) (tr : Trace)
    (q : Question) (qs : List Question) (hq : req.Question = q :: qs) :
    (∀ m new, ServeDNSForward s tcp req tr = .ok m (tr ++ new) →
      m.Question.head? = some q ∨
      ∃ pre b post res, new = pre ++ b ++ post ∧
        forwardQuery s req tcp (tr ++ pre) = .ok (some res, false) (tr ++ pre ++ b) ∧
        m = { res with Compress := true, Id := req.Id } ∧ m.Question = res.Question) ∧
    (∀ n1 n2 res,
      refuses s.config ((s.CountLabel q.Name : Int) - 1) = false →
      s.config.EnableSearch = true → s.config.SearchDomains ≠ [] →
      ((¬ ((s.CountLabel q.Name : Int) - 1 ≥ s.config.Ndots ∧
            (s.CountLabel q.Name : Int) - 1 ≥ s.config.FwdNdots) ∧ n1 = []) ∨
       ((s.CountLabel q.Name : Int) - 1 ≥ s.config.Ndots ∧
        (s.CountLabel q.Name : Int) - 1 ≥ s.config.FwdNdots ∧
        ∃ ra, forwardQuery s req tcp tr = .ok (some ra, false) (tr ++ n1) ∧
          ra.Rcode ≠ RcodeSuccess)) →
      forwardSearch s req tcp (tr ++ n1) = .ok (some res, false) (tr ++ n1 ++ n2) →
      res.Rcode = RcodeSuccess →
      ServeDNSForward s tcp req tr =
        .ok { res with Compress := true, Id := req.Id } (tr ++ n1 ++ n2) ∧
      ({ res with Compress := true, Id := req.Id } : Msg).Question.head? = some q) := by
  constructor
  · intro m new h
    cases hr : refuses s.config ((s.CountLabel q.Name : Int) - 1) with
    | true =>
      unfold ServeDNSForward at h
      rw [hq] at h
      simp only [hr, if_true] at h
      injection h with hm _
      subst hm
      rw [SetRcode_Question _ _ _ q qs hq]
      exact Or.inl rfl
    | false =>
      obtain ⟨n1, more1, st1, hnew, h1, hrest⟩ :=
        ServeDNSForward_run_trace s tcp req tr new m q qs hq hr h
      obtain ⟨hret1, hcont1⟩ := absoluteStage_prov _ _ _ _ _ _ _ _ _ h1
      rcases hrest with ⟨hst, hmore⟩ | ⟨v1, hst, n2, more2, st2, hmore, h2, hrest⟩
      · obtain ⟨res, hfq, hm⟩ := hret1 m hst
        refine Or.inr ⟨[], n1, [], res, ?_, ?_, hm, ?_⟩
        · rw [hnew, hmore]
          simp
        · simpa using hfq
        · rw [hm]
      · have p1 := hcont1 v1 hst
        obtain ⟨n2c, -, hret2, hcont2⟩ := searchLookup_ok _ _ _ _ _ _ _ _ h2
        rcases hrest with ⟨hst2, -⟩ | ⟨v2, hst2, st3, h3, hrest⟩
        · obtain ⟨res, hfs, hm, -⟩ := hret2 m hst2
          subst hm
          exact Or.inl (forwardSearch_Question s req tcp _ _ res q qs hq hfs)
        · obtain ⟨a, b, c, -⟩ := hcont2 v2 hst2
          obtain ⟨hret3, hcont3⟩ := absoluteStage_prov _ _ _ _ _ _ _ _ _ h3
          rcases hrest with hst3 | ⟨v3, hst3, hfb⟩
          · obtain ⟨res, hfq, hm⟩ := hret3 m hst3
            refine Or.inr ⟨n1 ++ n2, more2, [], res, ?_, ?_, hm, ?_⟩
            · rw [hnew, hmore]
              simp
            · simpa only [List.append_assoc] using hfq
            · rw [hm]
          · rcases fallbackReply_Question req v3 m q qs hq hfb with
              ⟨ha, hb, res, hres, hm⟩ | hmq
            · refine Or.inr ?_
              rcases hcont3 v3 hst3 with ⟨hv3, -⟩ | hlook
              · subst hv3
                rw [a] at ha
                rw [c] at hb
                rw [b] at hres
                rcases p1 with ⟨hv1, -⟩ | hlook1
                · rw [hv1] at ha
                  cases ha
                · obtain ⟨res1, hres1, hfq⟩ := hlook1 hb
                  rw [hres] at hres1
                  injection hres1 with hres1
                  subst hres1
                  refine ⟨[], n1, n2 ++ more2, res, ?_, ?_, hm, ?_⟩
                  · rw [hnew, hmore]
                    simp
                  · simpa using hfq
                  · rw [hm]
              · obtain ⟨res1, hres1, hfq⟩ := hlook hb
                rw [hres] at hres1
                injection hres1 with hres1
                subst hres1
                refine ⟨n1 ++ n2, more2, [], res, ?_, ?_, hm, ?_⟩
                · rw [hnew, hmore]
                  simp
                · simpa only [List.append_assoc] using hfq
                · rw [hm]
            · rw [hmq]
              exact Or.inl rfl
  · intro n1 n2 res hnr hen hsd hreach hfs hsucc
    have hse : (s.config.EnableSearch && decide (s.config.SearchDomains.length > 0)) = true := by
      rw [hen]
      simpa [List.length_pos] using hsd
    have hstage1 : ∃ v1,
        (if (s.CountLabel q.Name : Int) - 1 ≥ s.config.Ndots then
          absoluteLookup s req tcp ((s.CountLabel q.Name : Int) - 1)
            { didAbsolute := false, didSearch := false, absoluteRes := none, searchRes := none,
              absoluteErr := false, searchErr := false } tr
        else .ok (.cont { didAbsolute := false, didSearch := false, absoluteRes := none,
                          searchRes := none, absoluteErr := false, searchErr := false }) tr) =
        .ok (.cont v1) (tr ++ n1) ∧ v1.absoluteErr = false := by
      rcases hreach with ⟨hno, hn1⟩ | ⟨hN, hF, ra, habs, hra⟩
      · subst hn1
        rw [List.append_nil]
        by_cases hN : (s.CountLabel q.Name : Int) - 1 ≥ s.config.Ndots
        · rw [if_pos hN]
          unfold absoluteLookup
          rw [if_neg (fun hF => hno ⟨hN, hF⟩)]
          exact ⟨_, rfl, rfl⟩
        · rw [if_neg hN]
          exact ⟨_, rfl, rfl⟩
      · rw [if_pos hN]
        unfold absoluteLookup
        rw [if_pos hF, habs]
        simp only [Bool.false_eq_true, if_false, if_neg hra]
        exact ⟨_, rfl, rfl⟩
    obtain ⟨v1, h1, herr⟩ := hstage1
    have h2 : searchLookup s req tcp
        (s.config.EnableSearch && decide (s.config.SearchDomains.length > 0)) v1 (tr ++ n1) =
        .ok (.ret { res with Compress := true, Id := req.Id }) (tr ++ n1 ++ n2) := by
      unfold searchLookup
      rw [if_pos ⟨herr, hse⟩, hfs]
      simp only [Bool.false_eq_true, if_false, if_pos hsucc]
    refine ⟨ServeDNSForward_of_search_ret s tcp req tr _ _ _ v1 q qs hq hnr h1 h2, ?_⟩
    exact forwardSearch_Question s req tcp _ _ res q qs hq hfs

/-- Witness of C3 (as amended): `ndots` 0, search domain `corp.test.`, qname `wiki.`. The
absolute lookup comes first and gets an NXDOMAIN reply whose question names
`other.example.`; the search lookup asks for `wiki.corp.test.` and gets a positive reply
whose question names `other.example.` too. `ServeDNSForward` returns the result of the
search lookup, and its first question is the client's `wiki.`. -/
theorem ServeDNSForward_Question_witness :
    ∃ n1 n2 ra res,
      forwardQuery (exServer searchCorpAbsFirst upForeignQuestion) (exReq ⟨"wiki.", 1, 1⟩)
        false [] = .ok (some ra, false) ([] ++ n1) ∧
      ra.Rcode = RcodeNameError ∧ ra.Question.head? = some ⟨"other.example.", 1, 1⟩ ∧
      (∀ e ∈ n1 ++ n2, ∃ r, e.reply = some r ∧
        r.Question.head? = some ⟨"other.example.", 1, 1⟩) ∧
      forwardSearch (exServer searchCorpAbsFirst upForeignQuestion) (exReq ⟨"wiki.", 1, 1⟩)
        false ([] ++ n1) = .ok (some res, false) ([] ++ n1 ++ n2) ∧
      res.Rcode = RcodeSuccess ∧
      (ServeDNSForward (exServer searchCorpAbsFirst upForeignQuestion) false
          (exReq ⟨"wiki.", 1, 1⟩) [] =
          .ok { res with Compress := true, Id := (exReq ⟨"wiki.", 1, 1⟩).Id }
            ([] ++ n1 ++ n2) ∧
        ({ res with Compress := true, Id := (exReq ⟨"wiki.", 1, 1⟩).Id } : Msg).Question.head? =
          some ⟨"wiki.", 1, 1⟩) := by
  have hf : ∃ n1 n2 ra res,
      forwardQuery (exServer searchCorpAbsFirst upForeignQuestion) (exReq ⟨"wiki.", 1, 1⟩)
        false [] = .ok (some ra, false) ([] ++ n1) ∧
      ra.Rcode = RcodeNameError ∧ ra.Question.head? = some ⟨"other.example.", 1, 1⟩ ∧
      (∀ e ∈ n1 ++ n2, ∃ r, e.reply = some r ∧
        r.Question.head? = some ⟨"other.example.", 1, 1⟩) ∧
      forwardSearch (exServer searchCorpAbsFirst upForeignQuestion) (exReq ⟨"wiki.", 1, 1⟩)
        false ([] ++ n1) = .ok (some res, false) ([] ++ n1 ++ n2) ∧
      res.Rcode = RcodeSuccess := by
    refine ⟨_, _, _, _, rfl, rfl, rfl, ?_, rfl, rfl⟩
    intro e he
    simp only [List.nil_append, List.cons_append, List.mem_cons, List.mem_singleton,
      List.not_mem_nil, or_false] at he
    rcases he with he | he <;> subst he <;> exact ⟨_, rfl, rfl⟩
  obtain ⟨n1, n2, ra, res, habs, hra, hraq, hall, hfs, hsucc⟩ := hf
  exact ⟨n1, n2, ra, res, habs, hra, hraq, hall, hfs, hsucc,
    (ServeDNSForward_Question (exServer searchCorpAbsFirst upForeignQuestion) false
      (exReq ⟨"wiki.", 1, 1⟩) [] ⟨"wiki.", 1, 1⟩ [] rfl).2 n1 n2 res (by decide) rfl
      (by decide) (Or.inr ⟨by decide, by decide, ra, habs, by rw [hra]; decide⟩) hfs hsucc⟩

/-- C13 at the failing input: search domains `a.test.`, `b.test.`, `c.test.`, qname
`host.example.com.`. The initial absolute lookup returns an NXDOMAIN reply without transport
error. The search loop then makes four exchanges, none of which gets a reply with answers:
the lookup with `a.test.` gets a no-data reply (SUCCESS, no answer, not truncated) whose
question section is empty, the one with `b.test.` NXDOMAIN, and the one with `c.test.`
fails on both tries; the loop ends with that no-data reply kept in `nodata`. Restoring the
question on it panics: `forwardSearch` returns nothing, and neither does
`ServeDNSForward`. -/
theorem ServeDNSForward_nodata_empty_question :
    ∃ ra n1 v t,
      forwardQuery (exServer searchAbc upNodataNoQuestion)
        (exReq ⟨"host.example.com.", 1, 1⟩) false [] = .ok (some ra, false) n1 ∧
      ra.Rcode = RcodeNameError ∧
      searchLoop (exServer searchAbc upNodataNoQuestion) "host.example.com." false
        (exServer searchAbc upNodataNoQuestion).config.SearchDomains
        { r := none, nodata := none, searchName := "", err := false, didSearch := false,
          reqCopy := exReq ⟨"host.example.com.", 1, 1⟩ } n1 = .ok v (n1 ++ t) ∧
      t.length = 4 ∧ lastReply t = none ∧ v.err = true ∧
      (∀ e ∈ t, e.reply.all (fun r => r.Answer.isEmpty) = true) ∧
      (∃ nd, v.nodata = some nd ∧ (∃ e ∈ t, e.reply = some nd) ∧ nd.Rcode = RcodeSuccess ∧
        nd.Answer = [] ∧ nd.Truncated = false ∧ nd.Question = []) ∧
      forwardSearch (exServer searchAbc upNodataNoQuestion)
        (exReq ⟨"host.example.com.", 1, 1⟩) false n1 = .panic ∧
      ServeDNSForward (exServer searchAbc upNodataNoQuestion) false
        (exReq ⟨"host.example.com.", 1, 1⟩) [] = .panic :=
  ⟨_, _, _, _, rfl, rfl, rfl, rfl, rfl, rfl, by decide,
    ⟨_, rfl, ⟨_, List.mem_cons_self _ _, rfl⟩, rfl, rfl, rfl, rfl⟩, rfl, rfl⟩

end Dnsmasq
